import Mathlib

/-! BSON-parser: a shallow embedding of `bson.c`.

The C library navigates a BSON document held in a byte buffer.  The embedding keeps the
shape of the C code:

* a pointer into the buffer is an integer offset relative to `document->data`
  (`Int`, because the code adds signed lengths read from the buffer); a pointer that may be
  `NULL` is an `Option`;
* a byte is a natural number (a real buffer holds values below 256);
* `int` is 32 bits and `long`/`size_t` 64 bits, little endian (the layout `READ_INT_32`
  and `READ_INT_64` are written for);
* every function returns an `Outcome`: `done r` when the C function returns `r`,
  `undefined` when it reads outside the buffer, indexes outside a table or overflows a
  signed `int` (C gives such a run no meaning), and `outOfFuel` when a loop has not
  finished after the given number of iterations;
* a function that writes through a pointer returns the new value of what it points to.
-/

namespace BSON

/-! ## Outcomes -/

/-- What running a C function of the library gives. -/
inductive Outcome (α : Type) where
  | done (a : α) : Outcome α
  | undefined : Outcome α
  | outOfFuel : Outcome α
deriving DecidableEq

/-- Sequencing: the first fault ends the run. -/
def Outcome.bind {α β : Type} (x : Outcome α) (f : α → Outcome β) : Outcome β :=
  match x with
  | .done a => f a
  | .undefined => .undefined
  | .outOfFuel => .outOfFuel

instance : Monad Outcome where
  pure := Outcome.done
  bind := Outcome.bind

/-! ## Machine integers -/

/-- Conversion to `int`: the value modulo `2^32`, read as two's complement. -/
def int_cast (x : Int) : Int := (x + 2147483648) % 4294967296 - 2147483648

/-- Conversion to `long`: the value modulo `2^64`, read as two's complement. -/
def long_cast (x : Int) : Int :=
  (x + 9223372036854775808) % 18446744073709551616 - 9223372036854775808

/-- Conversion to `size_t`: the value modulo `2^64`. -/
def size_t_cast (x : Int) : Nat := (x % 18446744073709551616).toNat

/-- Addition of two `int`s; signed overflow is undefined. -/
def int_add (a b : Int) : Outcome Int :=
  if -2147483648 ≤ a + b ∧ a + b < 2147483648 then .done (a + b) else .undefined

/-! ## The data model (`bson.h`) -/

/-- The codes of `enum BSON_ERROR`. -/
inductive BSON_ERROR where
  | BSON_OPERATION_SUCCESS
  | BSON_POS_OUT_OF_RANGE
  | BSON_MEMORY_NOT_ALLOCATED
  | BSON_MEMORY_CORRUPTED
  | BSON_DOCUMENT_NOT_FOUND
  | BSON_BAD_CONTEXT
deriving DecidableEq

open BSON_ERROR

/-- The `BSON_Document` struct: `data` is the buffer the pointer addresses, `size` the
declared length. -/
structure BSON_Document where
  data : List Nat
  size : Int
deriving DecidableEq

/-- The `BSON_Context` struct; the three pointers may be `NULL` (`none`), the byte pointers
are offsets from `document->data`. -/
structure BSON_Context where
  document : Option BSON_Document
  startPosition : Option Int
  position : Option Int
  size : Int
deriving DecidableEq

/-- A context with all three pointers set. -/
def mkContext (document : BSON_Document) (startPosition position size : Int) : BSON_Context :=
  ⟨some document, some startPosition, some position, size⟩

/-! ## Reading the buffer -/

/-- The read `*p` of one byte: defined inside the buffer only. -/
def readByte (data : List Nat) (p : Int) : Outcome Nat :=
  if 0 ≤ p then
    match data[p.toNat]? with
    | some b => .done b
    | none => .undefined
  else .undefined

/-- The macro `READ_INT_32(src, dest)`: four bytes, little endian, as a signed `int`. -/
def READ_INT_32 (data : List Nat) (src : Int) : Outcome Int := do
  let b0 ← readByte data src
  let b1 ← readByte data (src + 1)
  let b2 ← readByte data (src + 2)
  let b3 ← readByte data (src + 3)
  pure (int_cast (b0 + 256 * b1 + 65536 * b2 + 16777216 * b3))

/-- Eight bytes, little endian, as an unsigned 64-bit pattern. -/
def read_bits_64 (data : List Nat) (src : Int) : Outcome Nat := do
  let b0 ← readByte data src
  let b1 ← readByte data (src + 1)
  let b2 ← readByte data (src + 2)
  let b3 ← readByte data (src + 3)
  let b4 ← readByte data (src + 4)
  let b5 ← readByte data (src + 5)
  let b6 ← readByte data (src + 6)
  let b7 ← readByte data (src + 7)
  pure ((b0 + 256 * b1 + 65536 * b2 + 16777216 * b3 + 4294967296 * b4
    + 1099511627776 * b5 + 281474976710656 * b6 + 72057594037927936 * b7)
    % 18446744073709551616)

/-- The macro `READ_INT_64(src, dest)`: eight bytes, little endian, as a signed `long`. -/
def READ_INT_64 (data : List Nat) (src : Int) : Outcome Int := do
  let bits ← read_bits_64 data src
  pure (long_cast bits)

/-- The library call `memchr(s, c, n)`: it reads the bytes one after the other and stops at
the first one equal to `c`; `none` is the `NULL` it returns when `n` bytes hold no `c`. -/
def memchr (data : List Nat) (c : Nat) : Nat → Int → Outcome (Option Int)
  | 0, _ => .done none
  | n + 1, s => do
      let b ← readByte data s
      if b = c then pure (some s) else memchr data c n (s + 1)

/-- The bytes `n` bytes long at offset `s`; all of them must lie inside the buffer. -/
def readBytes (data : List Nat) (s : Int) (n : Int) : Outcome (List Nat) :=
  if 0 ≤ n ∧ 0 ≤ s ∧ s + n ≤ data.length then
    .done ((data.drop s.toNat).take n.toNat)
  else .undefined

/-- The object a `char * name` points to: the bytes of the name and the terminating NUL;
nothing for `NULL`.  A name is given by its bytes before the NUL. -/
def cstring (name : Option (List Nat)) : List Nat :=
  match name with
  | none => []
  | some nm => nm ++ [0]

/-- The library call `memcmp(data + s1, name, n)`: `true` when the result is not zero.  With
`n = 0` nothing is compared; otherwise both objects must hold `n` bytes. -/
def memcmp (data : List Nat) (s1 : Int) (s2 : List Nat) (n : Int) : Outcome Bool :=
  if n = 0 then .done false
  else if n ≤ s2.length then do
    let bytes ← readBytes data s1 n
    pure (decide (bytes ≠ s2.take n.toNat))
  else .undefined

/-- The expression `name ? (int)strlen(name) + 1 : 0` of `BSON_Open` and the extractors: the
length is converted, then 1 is added as an `int`. -/
def name_len (name : Option (List Nat)) : Outcome Int :=
  match name with
  | none => .done 0
  | some nm => int_add (int_cast nm.length) 1

/-- The expression `(name == NULL) ? 0 : (int)(strlen(name) + 1)` of `BSON_Fetch`: 1 is added
as a `size_t`, then the sum is converted. -/
def name_len_fetch (name : Option (List Nat)) : Int :=
  match name with
  | none => 0
  | some nm => int_cast (nm.length + 1)

/-- The function `BSON_Get_Name_Length(pos, ctx)`: distance from `pos` to the first NUL at or
after `pos + 1`, searched in `ctx->startPosition + ctx->size - pos` bytes. -/
def BSON_Get_Name_Length (pos : Int) (data : List Nat) (startPosition size : Int) :
    Outcome Int := do
  let found ← memchr data 0 (size_t_cast (startPosition + size - pos)) (pos + 1)
  match found with
  | none => .undefined
  | some q => pure (int_cast (q - pos))

/-! ## `BSON_Check_Context` and `BSON_Init` -/

/-- The function `BSON_Check_Context`. -/
def BSON_Check_Context (context : Option BSON_Context) : BSON_ERROR :=
  match context with
  | some ⟨some document, some startPosition, some position, _⟩ =>
      if position < 0 ∨ position > document.size ∨
          startPosition < 0 ∨ startPosition > document.size then
        BSON_BAD_CONTEXT
      else BSON_OPERATION_SUCCESS
  | _ => BSON_BAD_CONTEXT

/-- The function `BSON_Init`; the second component of the result is `*resultingContext` after
the call. -/
def BSON_Init (inputDocument : Option BSON_Document) (resultingContext : Option BSON_Context) :
    Outcome (BSON_ERROR × Option BSON_Context) :=
  match inputDocument with
  | none => .done (BSON_MEMORY_NOT_ALLOCATED, resultingContext)
  | some doc =>
    match resultingContext with
    | none => .done (BSON_BAD_CONTEXT, none)
    | some ctx => do
      let ctx : BSON_Context := ⟨some doc, ctx.startPosition, ctx.position, ctx.size⟩
      let docLen ← READ_INT_32 doc.data 0
      if docLen ≠ doc.size then pure (BSON_MEMORY_CORRUPTED, some ctx)
      else do
        let last ← readByte doc.data (doc.size - 1)
        if last ≠ 0 then pure (BSON_MEMORY_CORRUPTED, some ctx)
        else pure (BSON_OPERATION_SUCCESS, some ⟨some doc, some 4, some 4, doc.size⟩)

/-! ## `BSON_Fetch` -/

/-- The table `typicalOffsets` of `BSON_Fetch`. -/
def typicalOffsets : List Nat := [255, 8, 4, 0, 0, 4, 0, 0, 1, 1, 8, 0, 0, 0, 0, 0, 4, 8, 8]

/-- The read `typicalOffsets[headerByte]`; the table has 19 entries. -/
def typicalOffsets_at (headerByte : Nat) : Outcome Int :=
  match typicalOffsets[headerByte]? with
  | some v => .done v
  | none => .undefined

/-- The first half of the body of the `do ... while` loop of `BSON_Fetch`: from the header
byte at `currentPos`, past the name and past the block, to the new `currentPos`. -/
def BSON_Fetch_skip (data : List Nat) (startPosition size : Int) (currentPos : Int) :
    Outcome Int := do
  let headerByte ← readByte data currentPos
  let toSkip ← BSON_Get_Name_Length currentPos data startPosition size
  let step ← int_add toSkip 1
  let currentPos := currentPos + step
  let offset ← typicalOffsets_at headerByte
  let offset ←
    (if offset = 0 ∨ headerByte = 0x02 ∨ headerByte = 0x05 then
      READ_INT_32 data currentPos >>= fun toAdd => int_add offset toAdd
    else pure offset)
  pure (currentPos + offset)

/-- The `do ... while` loop of `BSON_Fetch`, one iteration per unit of fuel: `some p` when the
loop ends with `currentPos = p`, `none` when the function returns `BSON_POS_OUT_OF_RANGE`. -/
def BSON_Fetch_loop (data : List Nat) (startPosition size : Int) (name : Option (List Nat))
    (len : Int) : Nat → Int → Outcome (Option Int)
  | 0, _ => .outOfFuel
  | fuel + 1, currentPos => do
      let currentPos ← BSON_Fetch_skip data startPosition size currentPos
      if currentPos ≥ startPosition + size then pure none
      else do
        let differs ← memcmp data (currentPos + 1) (cstring name) len
        if differs then BSON_Fetch_loop data startPosition size name len fuel currentPos
        else pure (some currentPos)

/-- The function `BSON_Fetch`; the second component of the result is `*context` after the
call. -/
def BSON_Fetch (fuel : Nat) (name : Option (List Nat)) (context : Option BSON_Context) :
    Outcome (BSON_ERROR × Option BSON_Context) :=
  if BSON_Check_Context context = BSON_BAD_CONTEXT then .done (BSON_BAD_CONTEXT, context)
  else
    match context with
    | some ⟨some document, some startPosition, some position, size⟩ => do
        let len := name_len_fetch name
        let r ← BSON_Fetch_loop document.data startPosition size name len fuel position
        match r with
        | none => pure (BSON_POS_OUT_OF_RANGE, context)
        | some currentPos =>
            pure (BSON_OPERATION_SUCCESS,
              some ⟨some document, some startPosition, some currentPos, size⟩)
    | _ => .undefined

/-! ## `BSON_Open` -/

/-- The part of `BSON_Open` after the field has been located at `currentPos`: the checks on
the sub-document and the writes to `*childContext`. -/
def BSON_Open_check (len : Int) (document : BSON_Document) (startPosition size : Int)
    (child : BSON_Context) (currentPos : Int) : Outcome (BSON_ERROR × Option BSON_Context) := do
  let len ← (if len ≠ 0 then pure len
             else BSON_Get_Name_Length currentPos document.data startPosition size)
  if len > document.size then pure (BSON_MEMORY_CORRUPTED, some child)
  else do
    let size ← READ_INT_32 document.data (currentPos + len + 1)
    let step ← int_add len 1
    let step ← int_add step 4
    let currentPos := currentPos + step
    let last ← readByte document.data (currentPos + size - 5)
    if last ≠ 0 then pure (BSON_MEMORY_CORRUPTED, some child)
    else pure (BSON_OPERATION_SUCCESS,
      some ⟨child.document, some currentPos, some currentPos, size⟩)

/-- The function `BSON_Open`; the second component of the result is `*childContext` after the
call (the parent is `const`). -/
def BSON_Open (fuel : Nat) (name : Option (List Nat)) (parentContext : Option BSON_Context)
    (childContext : Option BSON_Context) : Outcome (BSON_ERROR × Option BSON_Context) :=
  if BSON_Check_Context parentContext = BSON_BAD_CONTEXT then
    .done (BSON_BAD_CONTEXT, childContext)
  else
    match parentContext with
    | some ⟨some document, some startPosition, some position, size⟩ =>
      match childContext with
      | none => .done (BSON_BAD_CONTEXT, none)
      | some _ => do
        let len ← name_len name
        let child : BSON_Context := ⟨some document, some startPosition, some position, size⟩
        let differs ← memcmp document.data (position + 1) (cstring name) len
        if differs then do
          let fetched ← BSON_Fetch fuel name (some child)
          if fetched.1 = BSON_POS_OUT_OF_RANGE then pure (BSON_POS_OUT_OF_RANGE, fetched.2)
          else
            match fetched.2 with
            | some ⟨some d, sp, some currentPos, sz⟩ =>
                BSON_Open_check len document startPosition size ⟨some d, sp, some currentPos, sz⟩
                  currentPos
            | _ => .undefined
        else BSON_Open_check len document startPosition size child position
    | _ => .undefined

/-! ## The typed extractors -/

/-- The read `*(context->position)`. -/
def read_at_position (context : Option BSON_Context) : Outcome Nat :=
  match context with
  | some ⟨some document, _, some position, _⟩ => readByte document.data position
  | _ => .undefined

/-- The assignment `context->position = prevPos`. -/
def set_position (context : Option BSON_Context) (prevPos : Int) : Option BSON_Context :=
  match context with
  | some c => some ⟨c.document, c.startPosition, some prevPos, c.size⟩
  | none => none

/-- The inner `do ... while (*(context->position) != tag)` loop the seven extractors share,
one iteration per unit of fuel: `true` with the context when the loop ends, `false` with the
restored context when the extractor returns `BSON_POS_OUT_OF_RANGE`. -/
def BSON_Extract_loop (tag : Nat) (name : Option (List Nat)) (prevPos : Int) (fetchFuel : Nat) :
    Nat → Option BSON_Context → Outcome (Bool × Option BSON_Context)
  | 0, _ => .outOfFuel
  | fuel + 1, context => do
      let fetched ← BSON_Fetch fetchFuel name context
      if fetched.1 = BSON_POS_OUT_OF_RANGE then pure (false, set_position fetched.2 prevPos)
      else do
        let b ← read_at_position fetched.2
        if b ≠ tag then BSON_Extract_loop tag name prevPos fetchFuel fuel fetched.2
        else pure (true, fetched.2)

/-- The search the seven extractors start with (the same text but for the tag):
`if (*(context->position) != tag || memcmp(context->position + 1, name, len)) { do ... while }`. -/
def BSON_Extract_search (fuel : Nat) (tag : Nat) (name : Option (List Nat)) (len : Int)
    (document : BSON_Document) (startPosition prevPos size : Int) :
    Outcome (Bool × Option BSON_Context) := do
  let context : Option BSON_Context := some ⟨some document, some startPosition, some prevPos, size⟩
  let b ← readByte document.data prevPos
  let enter ← (if b ≠ tag then pure true
               else memcmp document.data (prevPos + 1) (cstring name) len)
  if enter then BSON_Extract_loop tag name prevPos fuel fuel context
  else pure (true, context)

/-- The text the seven extractors share, from `CHECK_CONTEXT` to
`len = len ? len : GET_NAME_LENGTH(context->position, context)`; `tail` is what the function
does next with the document, `startPosition`, `position`, `size` and `len`.  The result holds
the status, `*context` and, when it was written, `*result`. -/
def BSON_Extract_with {α : Type} (tag : Nat)
    (tail : BSON_Document → Int → Int → Int → Int →
      Outcome (BSON_ERROR × Option BSON_Context × Option α))
    (fuel : Nat) (name : Option (List Nat)) (context : Option BSON_Context) :
    Outcome (BSON_ERROR × Option BSON_Context × Option α) :=
  if BSON_Check_Context context = BSON_BAD_CONTEXT then .done (BSON_BAD_CONTEXT, context, none)
  else
    match context with
    | some ⟨some document, some startPosition, some prevPos, size⟩ => do
        let len ← name_len name
        let found ← BSON_Extract_search fuel tag name len document startPosition prevPos size
        if found.1 = false then pure (BSON_POS_OUT_OF_RANGE, found.2, none)
        else
          match found.2 with
          | some ⟨some d, some sp, some position, sz⟩ => do
              let len ← (if len ≠ 0 then pure len
                         else BSON_Get_Name_Length position d.data sp sz)
              tail d sp position sz len
          | _ => .undefined
    | _ => .undefined

/-- The tail of the fixed-width extractors: `read` the value at `position + 1 + len`, then
`context->position = context->position + 1 + len + advance`. -/
def BSON_Extract_fixed {α : Type} (read : List Nat → Int → Outcome α) (advance : Int)
    (d : BSON_Document) (sp position sz len : Int) :
    Outcome (BSON_ERROR × Option BSON_Context × Option α) := do
  let result ← read d.data (position + 1 + len)
  pure (BSON_OPERATION_SUCCESS,
    some ⟨some d, some sp, some (position + 1 + len + advance), sz⟩, some result)

/-- The tail of `BSON_Extract_String` and `BSON_Extract_Binary` (the same text): read the
length, `realloc` the result to it and `memcpy` that many bytes.  The allocation is taken to
succeed for a length that is not negative (a negative one is a huge `size_t`). -/
def BSON_Extract_copy (d : BSON_Document) (sp position sz len : Int) :
    Outcome (BSON_ERROR × Option BSON_Context × Option (List Nat)) := do
  let position := position + 1 + len
  let strSize ← READ_INT_32 d.data position
  if strSize < 0 then .undefined
  else do
    let result ← readBytes d.data (position + 4) strSize
    let step ← int_add 4 strSize
    pure (BSON_OPERATION_SUCCESS, some ⟨some d, some sp, some (position + step), sz⟩, some result)

/-- The function `BSON_Extract_Int32`. -/
def BSON_Extract_Int32 : Nat → Option (List Nat) → Option BSON_Context →
    Outcome (BSON_ERROR × Option BSON_Context × Option Int) :=
  BSON_Extract_with 0x10 (BSON_Extract_fixed READ_INT_32 4)

/-- The function `BSON_Extract_Int64`. -/
def BSON_Extract_Int64 : Nat → Option (List Nat) → Option BSON_Context →
    Outcome (BSON_ERROR × Option BSON_Context × Option Int) :=
  BSON_Extract_with 0x12 (BSON_Extract_fixed READ_INT_64 4)

/-- The function `BSON_Extract_Double`; the `double` is given by its 64-bit pattern. -/
def BSON_Extract_Double : Nat → Option (List Nat) → Option BSON_Context →
    Outcome (BSON_ERROR × Option BSON_Context × Option Nat) :=
  BSON_Extract_with 0x01 (BSON_Extract_fixed read_bits_64 4)

/-- The function `BSON_Extract_String`. -/
def BSON_Extract_String : Nat → Option (List Nat) → Option BSON_Context →
    Outcome (BSON_ERROR × Option BSON_Context × Option (List Nat)) :=
  BSON_Extract_with 0x02 BSON_Extract_copy

/-- The function `BSON_Extract_Binary`. -/
def BSON_Extract_Binary : Nat → Option (List Nat) → Option BSON_Context →
    Outcome (BSON_ERROR × Option BSON_Context × Option (List Nat)) :=
  BSON_Extract_with 0x05 BSON_Extract_copy

/-- The function `BSON_Extract_Boolean`. -/
def BSON_Extract_Boolean : Nat → Option (List Nat) → Option BSON_Context →
    Outcome (BSON_ERROR × Option BSON_Context × Option Nat) :=
  BSON_Extract_with 0x08 (BSON_Extract_fixed readByte 1)

/-- The function `BSON_Extract_DateTime`. -/
def BSON_Extract_DateTime : Nat → Option (List Nat) → Option BSON_Context →
    Outcome (BSON_ERROR × Option BSON_Context × Option Int) :=
  BSON_Extract_with 0x09 (BSON_Extract_fixed READ_INT_64 4)

/-! ## The seven extractors under one name -/

/-- The seven typed extractors. -/
inductive Kind where
  | Int32 | Int64 | Double | String | Binary | Boolean | DateTime
deriving DecidableEq

/-- The tag byte an extractor looks for. -/
def Kind.tag : Kind → Nat
  | .Int32 => 0x10
  | .Int64 => 0x12
  | .Double => 0x01
  | .String => 0x02
  | .Binary => 0x05
  | .Boolean => 0x08
  | .DateTime => 0x09

/-- What an extractor writes to `*result`. -/
inductive Value where
  | int32 (v : Int)
  | int64 (v : Int)
  | double (bits : Nat)
  | string (bytes : List Nat)
  | binary (bytes : List Nat)
  | boolean (b : Nat)
  | dateTime (v : Int)
deriving DecidableEq

/-- The result of an extractor with its value labelled. -/
def labelled {α : Type} (f : α → Value)
    (tail : BSON_Document → Int → Int → Int → Int →
      Outcome (BSON_ERROR × Option BSON_Context × Option α))
    (d : BSON_Document) (sp position sz len : Int) :
    Outcome (BSON_ERROR × Option BSON_Context × Option Value) := do
  let r ← tail d sp position sz len
  pure (r.1, r.2.1, r.2.2.map f)

/-- What the extractor of a kind does once its element is located at `position`, the name
taking `len` bytes with its NUL. -/
def Kind.tail : Kind → BSON_Document → Int → Int → Int → Int →
    Outcome (BSON_ERROR × Option BSON_Context × Option Value)
  | .Int32 => labelled Value.int32 (BSON_Extract_fixed READ_INT_32 4)
  | .Int64 => labelled Value.int64 (BSON_Extract_fixed READ_INT_64 4)
  | .Double => labelled Value.double (BSON_Extract_fixed read_bits_64 4)
  | .String => labelled Value.string BSON_Extract_copy
  | .Binary => labelled Value.binary BSON_Extract_copy
  | .Boolean => labelled Value.boolean (BSON_Extract_fixed readByte 1)
  | .DateTime => labelled Value.dateTime (BSON_Extract_fixed READ_INT_64 4)

/-- The extractor of a kind: `BSON_Extract k` is `BSON_Extract_Int32`, ...,
`BSON_Extract_DateTime` with the value labelled. -/
def BSON_Extract (k : Kind) : Nat → Option (List Nat) → Option BSON_Context →
    Outcome (BSON_ERROR × Option BSON_Context × Option Value) :=
  BSON_Extract_with k.tag k.tail

/-! ## Vocabulary of the specification -/

/-- The call returns the status `e`. -/
def returns {α : Type} (o : Outcome (BSON_ERROR × α)) (e : BSON_ERROR) : Prop :=
  ∃ a, o = .done (e, a)

/-- The first four bytes of a list read as a little-endian two's-complement signed 32-bit
integer. -/
def le_int32 (bytes : List Nat) : Int :=
  int_cast (bytes.getD 0 0 + 256 * bytes.getD 1 0 + 65536 * bytes.getD 2 0
    + 16777216 * bytes.getD 3 0)

/-- The first four bytes of the buffer, read as a little-endian signed 32-bit integer, give
the declared length, and the byte at index `size - 1` is zero. -/
def headerAndTerminatorOK (doc : BSON_Document) : Prop :=
  le_int32 doc.data = doc.size ∧ doc.data[(doc.size - 1).toNat]? = some 0

instance (doc : BSON_Document) : Decidable (headerAndTerminatorOK doc) := by
  unfold headerAndTerminatorOK; infer_instance

/-- An element of a document: the tag byte, the bytes of the name before its NUL, and the
payload bytes after the NUL. -/
structure Element where
  tag : Nat
  name : List Nat
  payload : List Nat
deriving DecidableEq

/-- The bytes of an element on the wire. -/
def Element.bytes (e : Element) : List Nat := e.tag :: (e.name ++ 0 :: e.payload)

/-- The bytes of a sequence of elements on the wire. -/
def elementsBytes : List Element → List Nat
  | [] => []
  | e :: es => e.bytes ++ elementsBytes es

/-- The payload has the size of its kind: 8 bytes for a double, a datetime and an int64, 4 for
an int32, 1 for a boolean; a string holds a 4-byte length and that many bytes, a binary a
4-byte length, a subtype byte and that many bytes, an embedded document or array starts with
its own total length.  Only the sizes are constrained, not what the payload holds. -/
def payloadOK (tag : Nat) (payload : List Nat) : Prop :=
  if tag = 0x01 ∨ tag = 0x09 ∨ tag = 0x12 then payload.length = 8
  else if tag = 0x10 then payload.length = 4
  else if tag = 0x08 then payload.length = 1
  else if tag = 0x02 then READ_INT_32 payload 0 = .done ((payload.length : Int) - 4)
  else if tag = 0x05 then
    5 ≤ payload.length ∧ READ_INT_32 payload 0 = .done ((payload.length : Int) - 5)
  else if tag = 0x03 ∨ tag = 0x04 then READ_INT_32 payload 0 = .done (payload.length : Int)
  else False

instance (tag : Nat) (payload : List Nat) : Decidable (payloadOK tag payload) := by
  unfold payloadOK; infer_instance

/-- A well-formed element: no NUL inside the name, and a payload of the size of its kind. -/
def Element.WellFormed (e : Element) : Prop := 0 ∉ e.name ∧ payloadOK e.tag e.payload

instance (e : Element) : Decidable e.WellFormed := by
  unfold Element.WellFormed; infer_instance

/-- The document `d` holds, after the bytes `before`, the elements `es`, their terminator and
then the bytes `after`; the declared length is that of the buffer and fits an `int`. -/
def WellFormedScope (d : BSON_Document) (before : List Nat) (es : List Element)
    (after : List Nat) : Prop :=
  d.data = before ++ (elementsBytes es ++ 0 :: after) ∧ d.size = d.data.length ∧
    d.data.length < 2147483648 ∧ ∀ e ∈ es, e.WellFormed

instance (d : BSON_Document) (before : List Nat) (es : List Element) (after : List Nat) :
    Decidable (WellFormedScope d before es after) := by
  unfold WellFormedScope; infer_instance

/-- The context of the scope that holds the elements `es` after the bytes `before`
(`startPosition` at the first element, `size` the declared length of the sub-document: its
4-byte length, the elements and the terminator), with the cursor `cursor` bytes into the
elements. -/
def scopeContext (d : BSON_Document) (before : List Nat) (es : List Element) (cursor : Nat) :
    BSON_Context :=
  mkContext d before.length (before.length + cursor) ((elementsBytes es).length + 5)

/-- The kinds `BSON_Fetch` is asked to step over in a search by name: int32, int64, double,
boolean, string, embedded document and array. -/
def searchKinds : List Nat := [0x10, 0x12, 0x01, 0x08, 0x02, 0x03, 0x04]

/-- Two calls of `BSON_Extract_Int32` one after the other on the same context, by the names
`first` and `second`: the status and the value of each. -/
def extract_two (fuel : Nat) (first second : List Nat) (context : Option BSON_Context) :
    Outcome ((BSON_ERROR × Option Int) × (BSON_ERROR × Option Int)) := do
  let r1 ← BSON_Extract_Int32 fuel (some first) context
  let r2 ← BSON_Extract_Int32 fuel (some second) r1.2.1
  pure ((r1.1, r1.2.2), (r2.1, r2.2.2))

/-! ## Documents used as concrete inputs -/

/-- The document `{"a": 1}` (int32). -/
def doc_single : BSON_Document :=
  ⟨[12, 0, 0, 0, 16, 97, 0, 1, 0, 0, 0, 0], 12⟩

/-- The document `{"d": {"a": 1, "b": 2}, "z": 5}` (int32 values): the sub-document `d` has
its length at offset 7, its elements at offsets 11 and 18 and its terminator at offset 25;
the element `z` of the root follows at offset 26. -/
def doc_nested : BSON_Document :=
  ⟨[34, 0, 0, 0, 3, 100, 0, 19, 0, 0, 0, 16, 97, 0, 1, 0, 0, 0, 16, 98, 0, 2, 0, 0, 0, 0,
    16, 122, 0, 5, 0, 0, 0, 0], 34⟩

/-- The context `BSON_Open` gives for the sub-document `d` of `doc_nested`. -/
def ctx_nested : BSON_Context := mkContext doc_nested 11 11 19

/-- The document `{"t": datetime 1, "a": 1}`: the datetime at offset 4 with its 8 payload bytes
at offsets 7 to 14, the int32 at offset 15. -/
def doc_datetime : BSON_Document :=
  ⟨[23, 0, 0, 0, 9, 116, 0, 1, 0, 0, 0, 0, 0, 0, 0, 16, 97, 0, 1, 0, 0, 0, 0], 23⟩

/-- The document `{"x": int64 7, "y": 1}`: the int64 at offset 4 with its 8 payload bytes at
offsets 7 to 14, the int32 at offset 15. -/
def doc_int64 : BSON_Document :=
  ⟨[23, 0, 0, 0, 18, 120, 0, 7, 0, 0, 0, 0, 0, 0, 0, 16, 121, 0, 1, 0, 0, 0, 0], 23⟩

/-- The document `{"a": 1, "ab": "x", "a": 2}`: an int32 at offset 4, a string at offset 11 and
an int32 at offset 21. -/
def doc_search : BSON_Document :=
  ⟨[29, 0, 0, 0, 16, 97, 0, 1, 0, 0, 0, 2, 97, 98, 0, 2, 0, 0, 0, 120, 0, 16, 97, 0, 2, 0, 0,
    0, 0], 29⟩

/-! ## Vocabulary of the specification: contexts and sub-documents -/

/-- The pointer is unset, or it lies outside `[document.start, document.start + size]`. -/
def unsetOrOutside (d : BSON_Document) : Option Int → Prop
  | none => True
  | some p => p < 0 ∨ d.size < p

instance (d : BSON_Document) : (p : Option Int) → Decidable (unsetOrOutside d p)
  | none => isTrue trivial
  | some p => inferInstanceAs (Decidable (p < 0 ∨ d.size < p))

/-- The contexts the specification has `BSON_Check_Context` refuse: an absent context, one
with an unset document, startPosition or position, and one whose position or startPosition
falls outside the document. -/
def BadContext : Option BSON_Context → Prop
  | none => True
  | some ⟨none, _, _, _⟩ => True
  | some ⟨some d, startPosition, position, _⟩ =>
      unsetOrOutside d startPosition ∨ unsetOrOutside d position

instance : (context : Option BSON_Context) → Decidable (BadContext context)
  | none => isTrue trivial
  | some ⟨none, _, _, _⟩ => isTrue trivial
  | some ⟨some d, startPosition, position, _⟩ =>
      inferInstanceAs (Decidable (unsetOrOutside d startPosition ∨ unsetOrOutside d position))

/-- A well-formed embedded document or array: the tag 0x03 or 0x04, no NUL in the name, a
payload that starts with its own length, and the terminator as the last byte of the payload. -/
def Element.IsDocument (e : Element) : Prop :=
  (e.tag = 0x03 ∨ e.tag = 0x04) ∧ e.WellFormed ∧ e.payload.getLast? = some 0

instance (e : Element) : Decidable e.IsDocument := by
  unfold Element.IsDocument; infer_instance

/-- The context a successful `BSON_Open` is to give for the sub-document carried by the
element `e` that starts at offset `start` of the buffer: startPosition at the first byte after
the 4-byte length that follows the name, the cursor `cursor` bytes further, and the length of
the payload (the 4-byte length, the elements and the terminator) as size. -/
def subContext (d : BSON_Document) (start : Nat) (e : Element) (cursor : Nat) : BSON_Context :=
  mkContext d ((start : Int) + e.name.length + 6) ((start : Int) + e.name.length + 6 + cursor)
    e.payload.length

/-- The size of the context does not exceed the bytes of the document from the offset
`startPosition - back` on: with `back = 0` the bytes that remain from the startPosition, with
`back = 4` those that remain from the 4-byte length in front of it. -/
def sizeWithinDocument (back : Int) : BSON_Context → Prop
  | ⟨some d, some startPosition, _, size⟩ => size ≤ d.size - (startPosition - back)
  | _ => False

instance (back : Int) : (c : BSON_Context) → Decidable (sizeWithinDocument back c)
  | ⟨some d, some startPosition, _, size⟩ =>
      inferInstanceAs (Decidable (size ≤ d.size - (startPosition - back)))
  | ⟨none, _, _, _⟩ => isFalse (fun h => h)
  | ⟨some _, none, _, _⟩ => isFalse (fun h => h)

/-- The child has a smaller size than the parent, and its bytes
`[startPosition - 4, startPosition - 4 + size)` lie among those of the parent. -/
def nestedIn : BSON_Context → BSON_Context → Prop
  | ⟨_, some cs, _, csize⟩, ⟨_, some ps, _, psize⟩ =>
      csize < psize ∧ ps - 4 ≤ cs - 4 ∧ cs - 4 + csize ≤ ps - 4 + psize
  | _, _ => False

instance : (child parent : BSON_Context) → Decidable (nestedIn child parent)
  | ⟨_, some cs, _, csize⟩, ⟨_, some ps, _, psize⟩ =>
      inferInstanceAs (Decidable (csize < psize ∧ ps - 4 ≤ cs - 4 ∧ cs - 4 + csize ≤ ps - 4 + psize))
  | ⟨_, none, _, _⟩, _ => isFalse (fun h => by cases h)
  | ⟨_, some _, _, _⟩, ⟨_, none, _, _⟩ => isFalse (fun h => by cases h)

/-! ## The calls of `main` on the event document -/

/-- The calls of `main` on the event document, for any number of int32 fields: the call
`BSON_Extract_Int32` by each of the names in turn on the same context; the status and value of
each call, and the context after the last. -/
def extract_ints (fuel : Nat) :
    List (List Nat) → Option BSON_Context →
      Outcome (List (BSON_ERROR × Option Int) × Option BSON_Context)
  | [], context => pure ([], context)
  | name :: names, context => do
      let r ← BSON_Extract_Int32 fuel (some name) context
      let rs ← extract_ints fuel names r.2.1
      pure ((r.1, r.2.2) :: rs.1, rs.2)

/-- The calls `BSON_Extract_Int32` by each of the names in turn and then
`BSON_Extract_String(NULL)`, on the same context: the status and value of each call. -/
def extract_ints_then_string (fuel : Nat) (names : List (List Nat))
    (context : Option BSON_Context) :
    Outcome (List (BSON_ERROR × Option Int) × (BSON_ERROR × Option (List Nat))) := do
  let rs ← extract_ints fuel names context
  let s ← BSON_Extract_String fuel none rs.2
  pure (rs.1, (s.1, s.2.2))

/-! ## Further documents used as concrete inputs -/

/-- The document `{"type": 1, "source": 2, "severity": 3, "0": "boom"}` (three int32 and a
string). -/
def doc_event : BSON_Document :=
  ⟨[53, 0, 0, 0, 16, 116, 121, 112, 101, 0, 1, 0, 0, 0, 16, 115, 111, 117, 114, 99, 101, 0,
    2, 0, 0, 0, 16, 115, 101, 118, 101, 114, 105, 116, 121, 0, 3, 0, 0, 0, 2, 48, 0, 5, 0, 0,
    0, 98, 111, 111, 109, 0, 0], 53⟩

/-- The three int32 fields of `doc_event`. -/
def event_ints : List Element :=
  [⟨16, [116, 121, 112, 101], [1, 0, 0, 0]⟩, ⟨16, [115, 111, 117, 114, 99, 101], [2, 0, 0, 0]⟩,
   ⟨16, [115, 101, 118, 101, 114, 105, 116, 121], [3, 0, 0, 0]⟩]

/-- The string field of `doc_event`. -/
def event_string : Element := ⟨2, [48], [5, 0, 0, 0, 98, 111, 111, 109, 0]⟩

/-- The document `{"b": binary [1, 2, 3] of subtype 0x80, "a": 1}`: the binary at offset 4
with its length 3 at offsets 7 to 10, its subtype byte at offset 11 and its data at offsets 12
to 14; the int32 at offset 15. -/
def doc_binary : BSON_Document :=
  ⟨[23, 0, 0, 0, 5, 98, 0, 3, 0, 0, 0, 128, 1, 2, 3, 16, 97, 0, 1, 0, 0, 0, 0], 23⟩

/-- The document `{"n": 7, "param": [{"a": 1}, {"a": 2}, {"a": 3}]}`: the int32 `n` at offset
4, the array `param` at offset 11 with its length 50 at offsets 18 to 21, its three embedded
documents (named 0, 1, 2 as an array has them) at offsets 22, 37 and 52, its terminator at
offset 67, and the terminator of the document at offset 68. -/
def doc_param : BSON_Document :=
  ⟨[69, 0, 0, 0, 16, 110, 0, 7, 0, 0, 0, 4, 112, 97, 114, 97, 109, 0, 50, 0, 0, 0, 3, 48, 0,
    12, 0, 0, 0, 16, 97, 0, 1, 0, 0, 0, 0, 3, 49, 0, 12, 0, 0, 0, 16, 97, 0, 2, 0, 0, 0, 0, 3,
    50, 0, 12, 0, 0, 0, 16, 97, 0, 3, 0, 0, 0, 0, 0, 0], 69⟩

/-- The first embedded document of the array of `doc_param`. -/
def param_first : Element := ⟨3, [48], [12, 0, 0, 0, 16, 97, 0, 1, 0, 0, 0, 0]⟩

/-- The second embedded document of the array of `doc_param`. -/
def param_second : Element := ⟨3, [49], [12, 0, 0, 0, 16, 97, 0, 2, 0, 0, 0, 0]⟩

/-- The third embedded document of the array of `doc_param`. -/
def param_third : Element := ⟨3, [50], [12, 0, 0, 0, 16, 97, 0, 3, 0, 0, 0, 0]⟩

/-- The array `param` of `doc_param`. -/
def param_array : Element :=
  ⟨4, [112, 97, 114, 97, 109],
    [50, 0, 0, 0] ++ (elementsBytes [param_first, param_second, param_third] ++ [0])⟩

/-- The document `{"d": {"a": 1}}`: the sub-document `d` has its length 12 at offset 7, its
element at offset 11 and its terminator at offset 18; the terminator of the root follows. -/
def doc_inner : BSON_Document :=
  ⟨[20, 0, 0, 0, 3, 100, 0, 12, 0, 0, 0, 16, 97, 0, 1, 0, 0, 0, 0, 0], 20⟩

/-- The document `{"d": {"a": 1}}` with the length of `d` declared as 11 instead of 12: the
length of `d` is at offsets 7 to 10, its element `a` at offset 11 with the payload 1, 0, 0, 0
at offsets 14 to 17, its terminator at offset 18. -/
def doc_short : BSON_Document :=
  ⟨[20, 0, 0, 0, 3, 100, 0, 11, 0, 0, 0, 16, 97, 0, 1, 0, 0, 0, 0, 0], 20⟩

/-- The document `doc_nested` with the length of `d` declared as 12 instead of 19, as if `d`
held the element `a` only: the byte at the end of the declared extent, at offset 18, is the
tag byte of the element `b`. -/
def doc_cut : BSON_Document :=
  ⟨[34, 0, 0, 0, 3, 100, 0, 12, 0, 0, 0, 16, 97, 0, 1, 0, 0, 0, 16, 98, 0, 2, 0, 0, 0, 0,
    16, 122, 0, 5, 0, 0, 0, 0], 34⟩

/-- The document `{"o": {"i": {"a": 1}}, "z": 0, "y": 0}` with the length of `i` declared as
27 instead of 12: `o` has its length 20 at offset 7 and ends at offset 26, `i` has its length
at offset 14, and the byte at offset 14 + 27 - 1 = 40 is the last payload byte of `y`. -/
def doc_overlong : BSON_Document :=
  ⟨[42, 0, 0, 0, 3, 111, 0, 20, 0, 0, 0, 3, 105, 0, 27, 0, 0, 0, 16, 97, 0, 1, 0, 0, 0, 0, 0,
    16, 122, 0, 0, 0, 0, 0, 16, 121, 0, 0, 0, 0, 0, 0], 42⟩

/-- A document the length of whose embedded document `d` is -20: the header and the last byte
are those of a 12-byte document, the length of `d` is at offsets 7 to 10. -/
def doc_negative : BSON_Document :=
  ⟨[12, 0, 0, 0, 3, 100, 0, 236, 255, 255, 255, 0], 12⟩

/-- The document `{"k": MaxKey, "a": 1}` as a standard encoder writes it: the max-key element
(tag 0x7F, no payload) at offset 4, the int32 at offset 7. -/
def doc_maxkey : BSON_Document :=
  ⟨[15, 0, 0, 0, 127, 107, 0, 16, 97, 0, 1, 0, 0, 0, 0], 15⟩

/-- A document whose embedded document `d` declares the length -3: the header and the last
byte are those of a 12-byte document, the element `d` is at offset 4 and its length at offsets
7 to 10, so that the length carries the cursor from offset 7 back to offset 4. -/
def doc_loop : BSON_Document :=
  ⟨[12, 0, 0, 0, 3, 100, 0, 253, 255, 255, 255, 0], 12⟩

/-- The document `{"a": 5}` (int32): the element at offset 4, its payload 5, 0, 0, 0 at offsets
7 to 10, the terminator at offset 11. -/
def doc_five : BSON_Document :=
  ⟨[12, 0, 0, 0, 16, 97, 0, 5, 0, 0, 0, 0], 12⟩

/-- The well-formed document `{"a": datetime}` whose datetime value has the 8 payload bytes
0, 16, 97, 0, 5, 0, 0, 0 at offsets 7 to 14: the only element is the datetime at offset 4, the
terminator is at offset 15. -/
def doc_masked : BSON_Document :=
  ⟨[16, 0, 0, 0, 9, 97, 0, 0, 16, 97, 0, 5, 0, 0, 0, 0], 16⟩

/-- The well-formed document `{"b": datetime, "a": {}}` whose datetime value has the 8 payload
bytes 0, 3, 97, 0, 7, 0, 0, 0 at offsets 7 to 14: the embedded document `a` is at offset 15,
its length 5 at offsets 18 to 21, its terminator at offset 22, and the terminator of the root
at offset 23. -/
def doc_decoy : BSON_Document :=
  ⟨[24, 0, 0, 0, 9, 98, 0, 0, 3, 97, 0, 7, 0, 0, 0, 3, 97, 0, 5, 0, 0, 0, 0, 0], 24⟩

/-- The well-formed document `{"n": datetime 7, "param": [{"a": 1}, {"a": 2}, {"a": 3}]}`: the
datetime `n` at offset 4 with its 8 payload bytes at offsets 7 to 14, the array `param`, the
last field, at offset 15 with its three embedded documents at offsets 26, 41 and 56. -/
def doc_param_datetime : BSON_Document :=
  ⟨[73, 0, 0, 0, 9, 110, 0, 7, 0, 0, 0, 0, 0, 0, 0, 4, 112, 97, 114, 97, 109, 0, 50, 0, 0, 0,
    3, 48, 0, 12, 0, 0, 0, 16, 97, 0, 1, 0, 0, 0, 0, 3, 49, 0, 12, 0, 0, 0, 16, 97, 0, 2, 0, 0,
    0, 0, 3, 50, 0, 12, 0, 0, 0, 16, 97, 0, 3, 0, 0, 0, 0, 0, 0], 73⟩

/-! # Theorems -/

/-! ## Outcomes: sequencing -/

@[simp] theorem Outcome.done_bind {α β : Type} (a : α) (f : α → Outcome β) :
    (Outcome.done a >>= f) = f a := id rfl

@[simp] theorem Outcome.undefined_bind {α β : Type} (f : α → Outcome β) :
    ((Outcome.undefined : Outcome α) >>= f) = Outcome.undefined := id rfl

@[simp] theorem Outcome.outOfFuel_bind {α β : Type} (f : α → Outcome β) :
    ((Outcome.outOfFuel : Outcome α) >>= f) = Outcome.outOfFuel := id rfl

@[simp] theorem Outcome.pure_eq {α : Type} (a : α) : (pure a : Outcome α) = Outcome.done a :=
  id rfl

/-- A sequence that returns has a first part that returns. -/
theorem Outcome.bind_eq_done {α β : Type} {x : Outcome α} {f : α → Outcome β} {b : β}
    (h : (x >>= f) = Outcome.done b) : ∃ a, x = Outcome.done a ∧ f a = Outcome.done b := by
  cases x with
  | done a => exact ⟨a, rfl, by rwa [Outcome.done_bind] at h⟩
  | undefined => rw [Outcome.undefined_bind] at h; exact absurd h (by simp)
  | outOfFuel => rw [Outcome.outOfFuel_bind] at h; exact absurd h (by simp)

/-! ## Machine integers -/

theorem int_cast_of_range {x : Int} (h1 : -2147483648 ≤ x) (h2 : x < 2147483648) :
    int_cast x = x := by
  unfold int_cast; omega

theorem size_t_cast_of_range {x : Int} (h1 : 0 ≤ x) (h2 : x < 18446744073709551616) :
    size_t_cast x = x.toNat := by
  unfold size_t_cast; omega

theorem int_add_of_range {a b : Int} (h1 : -2147483648 ≤ a + b) (h2 : a + b < 2147483648) :
    int_add a b = .done (a + b) := by
  unfold int_add; rw [if_pos ⟨h1, h2⟩]

/-! ## Reading the buffer -/

theorem readByte_of_getElem? {data : List Nat} {p : Int} {n : Nat} {b : Nat}
    (hp : p = n) (hb : data[n]? = some b) : readByte data p = .done b := by
  subst hp
  unfold readByte
  rw [if_pos (by omega), Int.toNat_ofNat, hb]

theorem readByte_of_drop {data : List Nat} {p : Int} {n : Nat} {b : Nat} {rest : List Nat}
    (hp : p = n) (hd : data.drop n = b :: rest) : readByte data p = .done b := by
  apply readByte_of_getElem? hp
  have := List.getElem?_drop data n 0
  rw [hd] at this
  simpa using this.symm

theorem readByte_eq_done {data : List Nat} {p : Int} {b : Nat}
    (h : readByte data p = .done b) : 0 ≤ p ∧ data[p.toNat]? = some b := by
  unfold readByte at h
  by_cases hp : 0 ≤ p
  · rw [if_pos hp] at h
    refine ⟨hp, ?_⟩
    cases hg : data[p.toNat]? with
    | none => rw [hg] at h; exact absurd h (by simp)
    | some c => rw [hg] at h; simp at h; rw [h]
  · rw [if_neg hp] at h; exact absurd h (by simp)

/-- Dropping `n` bytes and then `A` leaves what follows `A`. -/
theorem drop_add_of_drop_eq_append {data : List Nat} {n : Nat} {A B : List Nat}
    (h : data.drop n = A ++ B) : data.drop (n + A.length) = B := by
  rw [← List.drop_drop, h, List.drop_left]

theorem length_of_drop_eq {data : List Nat} {n : Nat} {X : List Nat} (h : data.drop n = X)
    (hX : X ≠ []) : n + X.length = data.length := by
  have h1 : (data.drop n).length = X.length := by rw [h]
  rw [List.length_drop] at h1
  have h2 : 0 < X.length := List.length_pos.mpr hX
  omega

theorem READ_INT_32_of_drop {data : List Nat} {p : Int} {n : Nat} {b0 b1 b2 b3 : Nat}
    {rest : List Nat} (hp : p = n) (hd : data.drop n = b0 :: b1 :: b2 :: b3 :: rest) :
    READ_INT_32 data p = .done (int_cast (b0 + 256 * b1 + 65536 * b2 + 16777216 * b3)) := by
  have h0 : readByte data p = .done b0 := readByte_of_drop hp hd
  have h1 : readByte data (p + 1) = .done b1 :=
    readByte_of_drop (n := n + 1) (by omega)
      (drop_add_of_drop_eq_append (A := [b0]) (by simpa using hd))
  have h2 : readByte data (p + 2) = .done b2 :=
    readByte_of_drop (n := n + 2) (by omega)
      (drop_add_of_drop_eq_append (A := [b0, b1]) (by simpa using hd))
  have h3 : readByte data (p + 3) = .done b3 :=
    readByte_of_drop (n := n + 3) (by omega)
      (drop_add_of_drop_eq_append (A := [b0, b1, b2]) (by simpa using hd))
  unfold READ_INT_32
  rw [h0, Outcome.done_bind, h1, Outcome.done_bind, h2, Outcome.done_bind, h3,
    Outcome.done_bind, Outcome.pure_eq]

/-- A read of four bytes at offset 0 that is defined reads the first four bytes. -/
theorem READ_INT_32_zero_eq_done {payload : List Nat} {v : Int}
    (h : READ_INT_32 payload 0 = .done v) :
    ∃ b0 b1 b2 b3 rest, payload = b0 :: b1 :: b2 :: b3 :: rest ∧
      v = int_cast (b0 + 256 * b1 + 65536 * b2 + 16777216 * b3) := by
  match payload with
  | [] => unfold READ_INT_32 readByte at h; simp at h
  | [_] => unfold READ_INT_32 readByte at h; simp at h
  | [_, _] => unfold READ_INT_32 readByte at h; simp at h
  | [_, _, _] => unfold READ_INT_32 readByte at h; simp at h
  | b0 :: b1 :: b2 :: b3 :: rest =>
    refine ⟨b0, b1, b2, b3, rest, rfl, ?_⟩
    rw [@READ_INT_32_of_drop _ _ 0 b0 b1 b2 b3 rest (by simp) (by simp)] at h
    simp at h
    exact h.symm

/-! ## Names -/

/-- The scanner `memchr` stops at the NUL that ends a name. -/
theorem memchr_name (data : List Nat) (rest : List Nat) :
    ∀ (name : List Nat) (n : Nat) (p : Int) (count : Nat), p = n →
      data.drop n = name ++ 0 :: rest → 0 ∉ name → name.length < count →
      memchr data 0 count p = .done (some (p + name.length)) := by
  intro name
  induction name with
  | nil =>
    intro n p count hp hd _ hc
    obtain ⟨c, rfl⟩ : ∃ c, count = c + 1 := ⟨count - 1, by simp at hc; omega⟩
    rw [memchr, readByte_of_drop hp hd, Outcome.done_bind, if_pos rfl, Outcome.pure_eq]
    simp
  | cons a name ih =>
    intro n p count hp hd h0 hc
    obtain ⟨c, rfl⟩ : ∃ c, count = c + 1 := ⟨count - 1, by simp at hc; omega⟩
    have ha : a ≠ 0 := fun h => h0 (by simp [h])
    have h0' : 0 ∉ name := fun h => h0 (by simp [h])
    rw [memchr, readByte_of_drop hp hd, Outcome.done_bind, if_neg ha]
    rw [ih (n + 1) (p + 1) c (by omega)
      (drop_add_of_drop_eq_append (A := [a]) (by simpa using hd)) h0'
      (by simp at hc; omega)]
    simp only [List.length_cons, Nat.cast_add, Nat.cast_one]
    congr 2
    omega

/-- The name length `BSON_Get_Name_Length` finds at an element: the length of the name
plus one. -/
theorem BSON_Get_Name_Length_at_element {data : List Nat} {pos startPosition size : Int}
    {n : Nat} {tag : Nat} {name rest : List Nat} (hp : pos = n)
    (hd : data.drop n = tag :: (name ++ 0 :: rest)) (h0 : 0 ∉ name)
    (hsmall : data.length < 2147483648)
    (hlo : pos + name.length + 1 ≤ startPosition + size)
    (hhi : startPosition + size - pos < 18446744073709551616) :
    BSON_Get_Name_Length pos data startPosition size = .done (name.length + 1) := by
  have hlen := length_of_drop_eq hd (by simp)
  simp only [List.length_cons, List.length_append] at hlen
  unfold BSON_Get_Name_Length
  rw [memchr_name data rest name (n + 1) (pos + 1) _ (by omega)
    (drop_add_of_drop_eq_append (A := [tag]) (by simpa using hd)) h0
    (by rw [size_t_cast_of_range (by omega) hhi]; omega)]
  rw [Outcome.done_bind]
  simp only [Outcome.pure_eq]
  rw [int_cast_of_range (by omega) (by omega)]
  congr 1
  omega

/-- A name given to a search has the `int` length its list has. -/
theorem name_len_some {nm : List Nat} (h : nm.length < 2147483647) :
    name_len (some nm) = .done (nm.length + 1) := by
  show int_add (int_cast nm.length) 1 = _
  rw [int_cast_of_range (by omega) (by omega), int_add_of_range (by omega) (by omega)]

theorem name_len_none : name_len none = .done 0 := rfl

theorem name_len_fetch_some {nm : List Nat} (h : nm.length < 2147483647) :
    name_len_fetch (some nm) = nm.length + 1 := by
  show int_cast (nm.length + 1) = _
  rw [int_cast_of_range (by omega) (by omega)]

/-- Where `(int)strlen(name) + 1` does not overflow, `BSON_Fetch` computes the same length. -/
theorem name_len_fetch_of_name_len {name : Option (List Nat)} {len : Int}
    (h : name_len name = .done len) : name_len_fetch name = len := by
  cases name with
  | none =>
    rw [name_len_none] at h
    simp only [Outcome.done.injEq] at h
    rw [← h]; rfl
  | some nm =>
    have h1 : int_add (int_cast nm.length) 1 = .done len := h
    unfold int_add at h1
    by_cases hr : -2147483648 ≤ int_cast nm.length + 1 ∧ int_cast nm.length + 1 < 2147483648
    · rw [if_pos hr] at h1
      simp only [Outcome.done.injEq] at h1
      show int_cast (nm.length + 1) = len
      rw [← h1]
      unfold int_cast at hr ⊢
      omega
    · rw [if_neg hr] at h1
      exact absurd h1 (by simp)

/-! ## Comparing names -/

/-- Two names without a NUL, each followed by a NUL, agree on the length of the second
exactly when they are equal. -/
theorem take_name_eq_iff (ename rest name : List Nat) (h1 : 0 ∉ ename) (h2 : 0 ∉ name) :
    (ename ++ 0 :: rest).take (name.length + 1) = name ++ [0] ↔ ename = name := by
  induction ename generalizing name with
  | nil =>
    cases name with
    | nil => simp
    | cons b name =>
      have hb : b ≠ 0 := fun h => h2 (by simp [h])
      simp only [List.nil_append, List.length_cons, List.take_succ_cons, List.cons_append,
        List.cons.injEq]
      constructor
      · intro h; exact absurd h.1.symm hb
      · intro h; exact absurd h (by simp)
  | cons a ename ih =>
    have ha : a ≠ 0 := fun h => h1 (by simp [h])
    have h1' : 0 ∉ ename := fun h => h1 (by simp [h])
    cases name with
    | nil =>
      simp only [List.cons_append, List.length_nil, Nat.zero_add, List.take_succ_cons,
        List.take_zero, List.nil_append, List.cons.injEq, and_true]
      constructor
      · intro h; exact absurd h ha
      · intro h; exact absurd h (by simp)
    | cons b name =>
      have h2' : 0 ∉ name := fun h => h2 (by simp [h])
      simp only [List.cons_append, List.length_cons, List.take_succ_cons, List.cons.injEq]
      rw [ih name h1' h2']

/-- The comparison `memcmp` of a requested name with the name of the element at `n`. -/
theorem memcmp_at_element {data : List Nat} {p : Int} {n : Nat} {ename rest name : List Nat}
    (hp : p = n) (hd : data.drop n = ename ++ 0 :: rest) (h1 : 0 ∉ ename) (h2 : 0 ∉ name)
    (hin : n + (name.length + 1) ≤ data.length) :
    memcmp data p (cstring (some name)) (name.length + 1) = .done (decide (ename ≠ name)) := by
  subst hp
  unfold memcmp cstring readBytes
  rw [if_neg (by omega), if_pos (by simp), if_pos (by constructor <;> [omega; constructor <;> omega])]
  rw [Outcome.done_bind, Outcome.pure_eq]
  have e1 : ((n : Int)).toNat = n := by simp
  have e2 : ((name.length : Int) + 1).toNat = name.length + 1 := by omega
  rw [e1, e2, hd]
  have e3 : (name ++ [0]).take (name.length + 1) = name ++ [0] := by
    rw [List.take_of_length_le (by simp)]
  rw [e3]
  congr 1
  have := take_name_eq_iff ename rest name h1 h2
  by_cases he : ename = name
  · have h3 := this.mpr he
    simp only [ne_eq, he, not_true_eq_false, decide_False, decide_eq_false_iff_not,
      Decidable.not_not]
    rw [he] at h3; exact h3
  · have h3 : ¬ (ename ++ 0 :: rest).take (name.length + 1) = name ++ [0] :=
      fun h => he (this.mp h)
    simp only [ne_eq, he, not_false_eq_true, decide_True, decide_eq_true_eq]
    exact h3

/-! ## Stepping over an element -/

theorem Element.length_bytes (e : Element) :
    e.bytes.length = 1 + e.name.length + 1 + e.payload.length := by
  simp [Element.bytes]; omega

theorem READ_INT_32_of_payload {data : List Nat} {q : Int} {m : Nat} {payload rest : List Nat}
    {v : Int} (hq : q = m) (hd : data.drop m = payload ++ rest)
    (h : READ_INT_32 payload 0 = .done v) : READ_INT_32 data q = .done v := by
  obtain ⟨b0, b1, b2, b3, tl, hpl, hv⟩ := READ_INT_32_zero_eq_done h
  have hd2 : data.drop m = b0 :: b1 :: b2 :: b3 :: (tl ++ rest) := by
    rw [hd, hpl]; simp only [List.cons_append]
  rw [hv]
  exact READ_INT_32_of_drop hq hd2

theorem length_of_READ_INT_32 {payload : List Nat} {v : Int}
    (h : READ_INT_32 payload 0 = .done v) : 4 ≤ payload.length := by
  obtain ⟨b0, b1, b2, b3, tl, rfl, _⟩ := READ_INT_32_zero_eq_done h
  simp

/-- The part of `BSON_Fetch_skip` after the name: the size of the block from the table and,
for a block that carries its length, from the buffer. -/
theorem skip_payload {data : List Nat} {q : Int} {m : Nat} {tag : Nat} {payload rest : List Nat}
    (hq : q = m) (hd : data.drop m = payload ++ rest) (hpay : payloadOK tag payload)
    (hk : tag ∈ searchKinds) (hsmall : data.length < 2147483648) :
    (do
      let offset ← typicalOffsets_at tag
      let offset ←
        (if offset = 0 ∨ tag = 0x02 ∨ tag = 0x05 then
          READ_INT_32 data q >>= fun toAdd => int_add offset toAdd
        else pure offset)
      pure (q + offset)) = Outcome.done (q + payload.length) := by
  have hlen : 4 ≤ payload.length → m + payload.length ≤ data.length := by
    intro h4
    have h1 : (data.drop m).length = (payload ++ rest).length := by rw [hd]
    rw [List.length_drop, List.length_append] at h1
    omega
  simp only [searchKinds, List.mem_cons, List.mem_singleton, List.not_mem_nil, or_false] at hk
  rcases hk with rfl | rfl | rfl | rfl | rfl | rfl | rfl
  · -- int32
    have hp : payload.length = 4 := by simpa [payloadOK] using hpay
    rw [show typicalOffsets_at 16 = Outcome.done 4 from rfl]
    simp only [Outcome.done_bind]
    rw [if_neg (by decide)]
    simp only [Outcome.done_bind, Outcome.pure_eq, hp]
    rfl
  · -- int64
    have hp : payload.length = 8 := by simpa [payloadOK] using hpay
    rw [show typicalOffsets_at 18 = Outcome.done 8 from rfl]
    simp only [Outcome.done_bind]
    rw [if_neg (by decide)]
    simp only [Outcome.done_bind, Outcome.pure_eq, hp]
    rfl
  · -- double
    have hp : payload.length = 8 := by simpa [payloadOK] using hpay
    rw [show typicalOffsets_at 1 = Outcome.done 8 from rfl]
    simp only [Outcome.done_bind]
    rw [if_neg (by decide)]
    simp only [Outcome.done_bind, Outcome.pure_eq, hp]
    rfl
  · -- boolean
    have hp : payload.length = 1 := by simpa [payloadOK] using hpay
    rw [show typicalOffsets_at 8 = Outcome.done 1 from rfl]
    simp only [Outcome.done_bind]
    rw [if_neg (by decide)]
    simp only [Outcome.done_bind, Outcome.pure_eq, hp]
    rfl
  · -- string
    have hp : READ_INT_32 payload 0 = .done ((payload.length : Int) - 4) := by
      simpa [payloadOK] using hpay
    have h4 := length_of_READ_INT_32 hp
    have h5 := hlen h4
    rw [show typicalOffsets_at 2 = Outcome.done 4 from rfl]
    simp only [Outcome.done_bind]
    rw [if_pos (by decide), READ_INT_32_of_payload hq hd hp]
    simp only [Outcome.done_bind]
    rw [int_add_of_range (by omega) (by omega)]
    simp only [Outcome.done_bind, Outcome.pure_eq]
    congr 1; omega
  · -- embedded document
    have hp : READ_INT_32 payload 0 = .done (payload.length : Int) := by
      simpa [payloadOK] using hpay
    have h4 := length_of_READ_INT_32 hp
    have h5 := hlen h4
    rw [show typicalOffsets_at 3 = Outcome.done 0 from rfl]
    simp only [Outcome.done_bind]
    rw [if_pos (by decide), READ_INT_32_of_payload hq hd hp]
    simp only [Outcome.done_bind]
    rw [int_add_of_range (by omega) (by omega)]
    simp only [Outcome.done_bind, Outcome.pure_eq]
    congr 1; omega
  · -- array
    have hp : READ_INT_32 payload 0 = .done (payload.length : Int) := by
      simpa [payloadOK] using hpay
    have h4 := length_of_READ_INT_32 hp
    have h5 := hlen h4
    rw [show typicalOffsets_at 4 = Outcome.done 0 from rfl]
    simp only [Outcome.done_bind]
    rw [if_pos (by decide), READ_INT_32_of_payload hq hd hp]
    simp only [Outcome.done_bind]
    rw [int_add_of_range (by omega) (by omega)]
    simp only [Outcome.done_bind, Outcome.pure_eq]
    congr 1; omega

/-- From the tag byte of a well-formed element of one of the search kinds, `BSON_Fetch_skip`
lands on the first byte after the element. -/
theorem BSON_Fetch_skip_element {data : List Nat} {pos startPosition size : Int} {n : Nat}
    {e : Element} {rest : List Nat} (hp : pos = n) (hd : data.drop n = e.bytes ++ rest)
    (hwf : e.WellFormed) (hk : e.tag ∈ searchKinds) (hsmall : data.length < 2147483648)
    (hlo : pos + e.name.length + 1 ≤ startPosition + size)
    (hhi : startPosition + size - pos < 18446744073709551616) :
    BSON_Fetch_skip data startPosition size pos = .done (pos + e.bytes.length) := by
  obtain ⟨tag, name, payload⟩ := e
  obtain ⟨h0, hpay⟩ := hwf
  simp only [Element.bytes] at hd hlo hk h0 hpay ⊢
  have hd1 : data.drop n = tag :: (name ++ 0 :: (payload ++ rest)) := by
    rw [hd]; simp only [List.cons_append, List.append_assoc]
  have hlen := length_of_drop_eq hd1 (by simp)
  simp only [List.length_cons, List.length_append] at hlen
  have hd2 : data.drop (n + (1 + name.length + 1)) = payload ++ rest := by
    have : data.drop n = (tag :: (name ++ [0])) ++ (payload ++ rest) := by
      rw [hd1]; simp only [List.cons_append, List.append_assoc, List.singleton_append,
        List.nil_append]
    have h := drop_add_of_drop_eq_append this
    simp only [List.length_cons, List.length_append, List.length_nil] at h
    rw [← h]; congr 1; omega
  unfold BSON_Fetch_skip
  rw [readByte_of_drop hp hd1]
  simp only [Outcome.done_bind]
  rw [BSON_Get_Name_Length_at_element hp hd1 h0 hsmall hlo hhi]
  simp only [Outcome.done_bind]
  rw [int_add_of_range (by omega) (by omega)]
  simp only [Outcome.done_bind]
  rw [skip_payload (m := n + (1 + name.length + 1)) (by push_cast; omega) hd2 hpay hk hsmall]
  congr 1
  simp only [List.length_cons, List.length_append]
  push_cast
  omega

/-! ## The search by name -/

theorem elementsBytes_append (xs ys : List Element) :
    elementsBytes (xs ++ ys) = elementsBytes xs ++ elementsBytes ys := by
  induction xs with
  | nil => rfl
  | cons e xs ih =>
    show e.bytes ++ elementsBytes (xs ++ ys) = (e.bytes ++ elementsBytes xs) ++ elementsBytes ys
    rw [ih, List.append_assoc]

theorem elementsBytes_cons (e : Element) (es : List Element) :
    elementsBytes (e :: es) = e.bytes ++ elementsBytes es := rfl

/-- The loop of `BSON_Fetch` started on the element `cur`, with the elements `mid` (none of
them named like `target`) and then `target` behind it, stops on `target`. -/
theorem BSON_Fetch_loop_finds {data : List Nat} {startPosition size : Int} (rest : List Nat)
    (target : Element) (ht : 0 ∉ target.name) (hsmall : data.length < 2147483648) :
    ∀ (mid : List Element) (cur : Element) (n : Nat) (pos : Int) (fuel : Nat),
      pos = n →
      data.drop n = cur.bytes ++ (elementsBytes mid ++ (target.bytes ++ rest)) →
      cur.WellFormed → cur.tag ∈ searchKinds →
      (∀ e ∈ mid, e.WellFormed ∧ e.tag ∈ searchKinds ∧ e.name ≠ target.name) →
      pos + cur.bytes.length + (elementsBytes mid).length < startPosition + size →
      startPosition + size - pos < 18446744073709551616 →
      mid.length < fuel →
      BSON_Fetch_loop data startPosition size (some target.name) (target.name.length + 1)
          fuel pos
        = .done (some (pos + cur.bytes.length + (elementsBytes mid).length)) := by
  intro mid
  induction mid with
  | nil =>
    intro cur n pos fuel hp hd hwf hk _ hlt hhi hfuel
    obtain ⟨f, rfl⟩ : ∃ f, fuel = f + 1 := ⟨fuel - 1, by omega⟩
    simp only [elementsBytes, List.nil_append, List.length_nil, Nat.cast_zero, add_zero]
      at hd hlt ⊢
    have hcl := cur.length_bytes
    have hlen := length_of_drop_eq hd (by simp [Element.bytes])
    have htl := target.length_bytes
    simp only [List.length_append] at hlen
    have hd2 : data.drop (n + cur.bytes.length + 1)
        = target.name ++ 0 :: (target.payload ++ rest) := by
      have h1 := drop_add_of_drop_eq_append hd
      have h2 : data.drop (n + cur.bytes.length)
          = [target.tag] ++ (target.name ++ 0 :: (target.payload ++ rest)) := by
        rw [h1]; simp only [Element.bytes, List.cons_append, List.append_assoc,
          List.singleton_append, List.nil_append]
      exact drop_add_of_drop_eq_append h2
    rw [BSON_Fetch_loop, BSON_Fetch_skip_element hp hd hwf hk hsmall (by omega) hhi]
    simp only [Outcome.done_bind]
    rw [if_neg (by omega), memcmp_at_element (n := n + cur.bytes.length + 1)
      (by push_cast; omega) hd2 ht ht (by omega)]
    simp only [Outcome.done_bind, ne_eq, not_true_eq_false, decide_False, Bool.false_eq_true,
      if_false, Outcome.pure_eq]
  | cons m mid ih =>
    intro cur n pos fuel hp hd hwf hk hmid hlt hhi hfuel
    obtain ⟨f, rfl⟩ : ∃ f, fuel = f + 1 := ⟨fuel - 1, by omega⟩
    obtain ⟨hmwf, hmk, hmne⟩ := hmid m (by simp)
    have hcl := cur.length_bytes
    have hml := m.length_bytes
    have htl := target.length_bytes
    have hlen := length_of_drop_eq hd (by simp [Element.bytes])
    simp only [elementsBytes_cons, List.length_append, Nat.cast_add] at hlen hlt ⊢
    have hd1 : data.drop (n + cur.bytes.length)
        = m.bytes ++ (elementsBytes mid ++ (target.bytes ++ rest)) := by
      have h1 := drop_add_of_drop_eq_append hd
      rw [h1, elementsBytes_cons, List.append_assoc]
    have hd2 : data.drop (n + cur.bytes.length + 1)
        = m.name ++ 0 :: (m.payload ++ (elementsBytes mid ++ (target.bytes ++ rest))) := by
      have h2 : data.drop (n + cur.bytes.length)
          = [m.tag] ++ (m.name ++ 0 :: (m.payload ++
              (elementsBytes mid ++ (target.bytes ++ rest)))) := by
        rw [hd1]; simp only [Element.bytes, List.cons_append, List.append_assoc,
          List.singleton_append, List.nil_append]
      exact drop_add_of_drop_eq_append h2
    rw [BSON_Fetch_loop, BSON_Fetch_skip_element hp hd hwf hk hsmall (by omega) hhi]
    simp only [Outcome.done_bind]
    rw [if_neg (by omega), memcmp_at_element (n := n + cur.bytes.length + 1)
      (by push_cast; omega) hd2 hmwf.1 ht (by omega)]
    simp only [Outcome.done_bind, ne_eq, hmne, not_false_eq_true, decide_True, if_true]
    rw [ih m (n + cur.bytes.length) (pos + cur.bytes.length) f (by push_cast; omega) hd1 hmwf hmk
      (fun e he => hmid e (by simp [he])) (by omega) (by omega) (by simpa using hfuel)]
    congr 2
    omega

/-! ## `BSON_Fetch` on a context that passes the check -/

theorem BSON_Check_Context_mk {d : BSON_Document} {sp p sz : Int}
    (h : 0 ≤ p ∧ p ≤ d.size ∧ 0 ≤ sp ∧ sp ≤ d.size) :
    BSON_Check_Context (some (mkContext d sp p sz)) = BSON_OPERATION_SUCCESS := by
  show (if p < 0 ∨ p > d.size ∨ sp < 0 ∨ sp > d.size then BSON_BAD_CONTEXT
    else BSON_OPERATION_SUCCESS) = _
  rw [if_neg (by omega)]

theorem BSON_Check_Context_mk_bad {d : BSON_Document} {sp p sz : Int}
    (h : ¬ (0 ≤ p ∧ p ≤ d.size ∧ 0 ≤ sp ∧ sp ≤ d.size)) :
    BSON_Check_Context (some (mkContext d sp p sz)) = BSON_BAD_CONTEXT := by
  show (if p < 0 ∨ p > d.size ∨ sp < 0 ∨ sp > d.size then BSON_BAD_CONTEXT
    else BSON_OPERATION_SUCCESS) = _
  rw [if_pos (by omega)]

theorem BSON_Fetch_of_valid (fuel : Nat) (name : Option (List Nat)) {d : BSON_Document}
    {sp p sz : Int} (h : 0 ≤ p ∧ p ≤ d.size ∧ 0 ≤ sp ∧ sp ≤ d.size) :
    BSON_Fetch fuel name (some (mkContext d sp p sz)) =
      (do
        let r ← BSON_Fetch_loop d.data sp sz name (name_len_fetch name) fuel p
        match r with
        | none => pure (BSON_POS_OUT_OF_RANGE, some (mkContext d sp p sz))
        | some currentPos => pure (BSON_OPERATION_SUCCESS, some (mkContext d sp currentPos sz))) := by
  unfold BSON_Fetch
  rw [BSON_Check_Context_mk h, if_neg (by decide)]
  rfl

theorem BSON_Fetch_of_bad (fuel : Nat) (name : Option (List Nat)) {c : Option BSON_Context}
    (h : BSON_Check_Context c = BSON_BAD_CONTEXT) :
    BSON_Fetch fuel name c = .done (BSON_BAD_CONTEXT, c) := by
  unfold BSON_Fetch
  rw [if_pos h]

/-- C6: in a well-formed scope whose elements are int32, int64, double, boolean, string,
embedded document or array, with the cursor on the element `cur` and a name carried by an
element behind it, `target` being the first such (no element of `mid`, between the two, has
the name), `BSON_Fetch` by that name succeeds and sets the position to the tag byte of
`target`.  The name of `cur` is not looked at, and an element of `mid` whose name only starts
with the name is stepped over. -/
theorem BSON_Fetch_by_name_finds_first_later (d : BSON_Document) (before after : List Nat)
    (pre mid post : List Element) (cur target : Element) (fuel : Nat)
    (hscope : WellFormedScope d before (pre ++ cur :: (mid ++ target :: post)) after)
    (hkinds : ∀ e ∈ pre ++ cur :: (mid ++ target :: post), e.tag ∈ searchKinds)
    (hmid : ∀ e ∈ mid, e.name ≠ target.name)
    (hfuel : mid.length < fuel) :
    BSON_Fetch fuel (some target.name)
        (some (scopeContext d before (pre ++ cur :: (mid ++ target :: post))
          (elementsBytes pre).length))
      = .done (BSON_OPERATION_SUCCESS,
          some (scopeContext d before (pre ++ cur :: (mid ++ target :: post))
            (elementsBytes (pre ++ cur :: mid)).length)) := by
  obtain ⟨hdata, hsize, hsmall, hwf⟩ := hscope
  have hcl := cur.length_bytes
  have htl := target.length_bytes
  have hbytes : elementsBytes (pre ++ cur :: (mid ++ target :: post))
      = elementsBytes pre ++ (cur.bytes ++ (elementsBytes mid ++
          (target.bytes ++ elementsBytes post))) := by
    simp only [elementsBytes_append, elementsBytes_cons]
  have hlenall := congrArg List.length hdata
  rw [hbytes] at hlenall
  simp only [List.length_append, List.length_cons] at hlenall
  have hd : d.data.drop (before.length + (elementsBytes pre).length)
      = cur.bytes ++ (elementsBytes mid ++ (target.bytes ++
          (elementsBytes post ++ 0 :: after))) := by
    have h1 : d.data = (before ++ elementsBytes pre) ++ (cur.bytes ++ (elementsBytes mid ++
        (target.bytes ++ (elementsBytes post ++ 0 :: after)))) := by
      rw [hdata, hbytes]; simp only [List.append_assoc]
    have h2 := List.drop_left (before ++ elementsBytes pre) (cur.bytes ++ (elementsBytes mid ++
        (target.bytes ++ (elementsBytes post ++ 0 :: after))))
    rw [← h1, List.length_append] at h2
    exact h2
  have ht : target.WellFormed := hwf target (by simp)
  unfold scopeContext
  rw [BSON_Fetch_of_valid fuel _ (by rw [hsize]; omega),
    name_len_fetch_some (by omega)]
  rw [BSON_Fetch_loop_finds (elementsBytes post ++ 0 :: after) target ht.1 hsmall mid cur
    (before.length + (elementsBytes pre).length) _ fuel (by push_cast; rfl) hd
    (hwf cur (by simp)) (hkinds cur (by simp))
    (fun e he => ⟨hwf e (by simp [he]), hkinds e (by simp [he]), hmid e he⟩)
    (by rw [hbytes]; simp only [List.length_append]; push_cast; omega)
    (by rw [hbytes]; simp only [List.length_append]; push_cast; omega) hfuel]
  simp only [Outcome.done_bind, Outcome.pure_eq]
  congr 4
  simp only [elementsBytes_append, elementsBytes_cons, List.length_append]
  push_cast
  omega

/-! ## What `BSON_Fetch` changes -/

/-- A context that passes `BSON_Check_Context` has its three pointers set, inside the
document. -/
theorem BSON_Check_Context_ne_bad {c : Option BSON_Context}
    (h : BSON_Check_Context c ≠ BSON_BAD_CONTEXT) :
    ∃ d sp p sz, c = some (mkContext d sp p sz) ∧
      (0 ≤ p ∧ p ≤ d.size ∧ 0 ≤ sp ∧ sp ≤ d.size) := by
  match c with
  | none => exact absurd rfl h
  | some ⟨none, _, _, _⟩ => exact absurd rfl h
  | some ⟨some _, none, _, _⟩ => exact absurd rfl h
  | some ⟨some _, some _, none, _⟩ => exact absurd rfl h
  | some ⟨some d, some sp, some p, sz⟩ =>
    refine ⟨d, sp, p, sz, rfl, ?_⟩
    by_contra hb
    exact h (BSON_Check_Context_mk_bad hb)

/-- A successful loop of `BSON_Fetch` ends on a position where the comparison with the name
gave zero. -/
theorem BSON_Fetch_loop_some {data : List Nat} {sp sz : Int} {name : Option (List Nat)}
    {len : Int} : ∀ (fuel : Nat) (p q : Int),
      BSON_Fetch_loop data sp sz name len fuel p = .done (some q) →
      q < sp + sz ∧ memcmp data (q + 1) (cstring name) len = .done false := by
  intro fuel
  induction fuel with
  | zero => intro p q h; rw [BSON_Fetch_loop] at h; exact absurd h (by simp)
  | succ f ih =>
    intro p q h
    rw [BSON_Fetch_loop] at h
    obtain ⟨cp, _, h⟩ := Outcome.bind_eq_done h
    by_cases hb : cp ≥ sp + sz
    · rw [if_pos hb] at h; simp at h
    · rw [if_neg hb] at h
      obtain ⟨differs, hm, h⟩ := Outcome.bind_eq_done h
      cases differs with
      | true => rw [if_pos rfl] at h; exact ih cp q h
      | false =>
        rw [if_neg (by simp)] at h
        simp at h
        subst h
        exact ⟨by omega, hm⟩

/-- The call `BSON_Fetch` changes nothing but the position; with `BSON_POS_OUT_OF_RANGE` or
`BSON_BAD_CONTEXT` it changes nothing, with success the new position is below
`startPosition + size` and the name compared equal there. -/
theorem BSON_Fetch_result {fuel : Nat} {name : Option (List Nat)} {d : BSON_Document}
    {sp p sz : Int} {e : BSON_ERROR} {c : Option BSON_Context}
    (h : BSON_Fetch fuel name (some (mkContext d sp p sz)) = .done (e, c)) :
    (e = BSON_BAD_CONTEXT ∧ c = some (mkContext d sp p sz) ∧
        BSON_Check_Context (some (mkContext d sp p sz)) = BSON_BAD_CONTEXT) ∨
    (e = BSON_POS_OUT_OF_RANGE ∧ c = some (mkContext d sp p sz)) ∨
    (e = BSON_OPERATION_SUCCESS ∧ ∃ q, c = some (mkContext d sp q sz) ∧ q < sp + sz ∧
        memcmp d.data (q + 1) (cstring name) (name_len_fetch name) = .done false) := by
  by_cases hc : 0 ≤ p ∧ p ≤ d.size ∧ 0 ≤ sp ∧ sp ≤ d.size
  · rw [BSON_Fetch_of_valid fuel name hc] at h
    obtain ⟨r, hr, h⟩ := Outcome.bind_eq_done h
    cases r with
    | none =>
      simp only [Outcome.pure_eq, Outcome.done.injEq, Prod.mk.injEq] at h
      exact Or.inr (Or.inl ⟨h.1.symm, h.2.symm⟩)
    | some q =>
      simp only [Outcome.pure_eq, Outcome.done.injEq, Prod.mk.injEq] at h
      obtain ⟨h1, h2⟩ := BSON_Fetch_loop_some fuel p q hr
      exact Or.inr (Or.inr ⟨h.1.symm, q, h.2.symm, h1, h2⟩)
  · have hbad := @BSON_Check_Context_mk_bad d sp p sz hc
    rw [BSON_Fetch_of_bad fuel name hbad] at h
    simp only [Outcome.done.injEq, Prod.mk.injEq] at h
    exact Or.inl ⟨h.1.symm, h.2.symm, hbad⟩

/-! ## The search of the extractors -/

theorem read_at_position_mk (d : BSON_Document) (sp p sz : Int) :
    read_at_position (some (mkContext d sp p sz)) = readByte d.data p := rfl

theorem set_position_mk (d : BSON_Document) (sp p sz q : Int) :
    set_position (some (mkContext d sp p sz)) q = some (mkContext d sp q sz) := rfl

/-- The inner loop of an extractor, started on a context that passes the check or whose
position does not hold the tag: when it gives up the context is the one before the call;
when it ends, it is on a byte that holds the tag and where the name compared equal. -/
theorem BSON_Extract_loop_result {tag : Nat} {name : Option (List Nat)} {prevPos : Int}
    {fetchFuel : Nat} {d : BSON_Document} {sp sz : Int} :
    ∀ (fuel : Nat) (p : Int) (found : Bool) (c : Option BSON_Context),
      (BSON_Check_Context (some (mkContext d sp p sz)) ≠ BSON_BAD_CONTEXT ∨
        ∀ b, readByte d.data p = .done b → b ≠ tag) →
      BSON_Extract_loop tag name prevPos fetchFuel fuel (some (mkContext d sp p sz))
        = .done (found, c) →
      (found = false ∧ c = some (mkContext d sp prevPos sz)) ∨
      (found = true ∧ ∃ q, c = some (mkContext d sp q sz) ∧ readByte d.data q = .done tag ∧
        memcmp d.data (q + 1) (cstring name) (name_len_fetch name) = .done false) := by
  intro fuel
  induction fuel with
  | zero => intro p found c _ h; rw [BSON_Extract_loop] at h; exact absurd h (by simp)
  | succ f ih =>
    intro p found c hpre h
    rw [BSON_Extract_loop] at h
    obtain ⟨⟨e, c1⟩, hf, h⟩ := Outcome.bind_eq_done h
    rcases BSON_Fetch_result hf with ⟨he, hc1, hbad⟩ | ⟨he, hc1⟩ | ⟨he, q, hc1, _, hcmp⟩
    · -- the check failed inside `BSON_Fetch`: the position is unchanged
      subst he hc1
      rw [if_neg (by simp)] at h
      obtain ⟨b, hb, h⟩ := Outcome.bind_eq_done h
      rw [read_at_position_mk] at hb
      have hne : b ≠ tag := by
        rcases hpre with hok | hno
        · exact absurd hbad hok
        · exact hno b hb
      rw [if_pos hne] at h
      exact ih p found c (Or.inr (fun b' hb' => by rw [hb] at hb'; simp at hb'; rw [← hb']; exact hne)) h
    · subst he hc1
      rw [if_pos rfl, set_position_mk] at h
      simp only [Outcome.pure_eq, Outcome.done.injEq, Prod.mk.injEq] at h
      exact Or.inl ⟨h.1.symm, h.2.symm⟩
    · subst he hc1
      rw [if_neg (by simp)] at h
      obtain ⟨b, hb, h⟩ := Outcome.bind_eq_done h
      rw [read_at_position_mk] at hb
      by_cases hne : b ≠ tag
      · rw [if_pos hne] at h
        exact ih q found c
          (Or.inr (fun b' hb' => by rw [hb] at hb'; simp at hb'; rw [← hb']; exact hne)) h
      · rw [if_neg hne] at h
        simp only [Outcome.pure_eq, Outcome.done.injEq, Prod.mk.injEq] at h
        have hbt : b = tag := by simpa using hne
        exact Or.inr ⟨h.1.symm, q, h.2.symm, by rw [hb, hbt], hcmp⟩

/-- The search an extractor starts with, on a context that passes the check. -/
theorem BSON_Extract_search_result {fuel tag : Nat} {name : Option (List Nat)} {len : Int}
    {d : BSON_Document} {sp prevPos sz : Int} {found : Bool} {c : Option BSON_Context}
    (hok : BSON_Check_Context (some (mkContext d sp prevPos sz)) ≠ BSON_BAD_CONTEXT)
    (hlen : name_len name = .done len)
    (h : BSON_Extract_search fuel tag name len d sp prevPos sz = .done (found, c)) :
    (found = false ∧ c = some (mkContext d sp prevPos sz)) ∨
    (found = true ∧ ∃ q, c = some (mkContext d sp q sz) ∧ readByte d.data q = .done tag ∧
      memcmp d.data (q + 1) (cstring name) len = .done false) := by
  unfold BSON_Extract_search at h
  obtain ⟨b, hb, h⟩ := Outcome.bind_eq_done h
  obtain ⟨enter, hen, h⟩ := Outcome.bind_eq_done h
  cases enter with
  | true =>
    rw [if_pos rfl] at h
    rcases BSON_Extract_loop_result fuel prevPos found c (Or.inl hok) h with
      h1 | ⟨h1, q, h2, h3, h5⟩
    · exact Or.inl h1
    · rw [name_len_fetch_of_name_len hlen] at h5
      exact Or.inr ⟨h1, q, h2, h3, h5⟩
  | false =>
    rw [if_neg (by simp)] at h
    simp only [Outcome.pure_eq, Outcome.done.injEq, Prod.mk.injEq] at h
    by_cases hne : b ≠ tag
    · rw [if_pos hne] at hen; simp at hen
    · rw [if_neg hne] at hen
      have hbt : b = tag := by simpa using hne
      exact Or.inr ⟨h.1.symm, prevPos, h.2.symm, by rw [hb, hbt], hen⟩

/-! ## What an extractor returns -/

/-- The text the extractors share, on a context that passes the check. -/
theorem BSON_Extract_with_of_valid {α : Type} (tag : Nat)
    (tail : BSON_Document → Int → Int → Int → Int →
      Outcome (BSON_ERROR × Option BSON_Context × Option α))
    (fuel : Nat) (name : Option (List Nat)) {d : BSON_Document} {sp p sz : Int}
    (h : 0 ≤ p ∧ p ≤ d.size ∧ 0 ≤ sp ∧ sp ≤ d.size) :
    BSON_Extract_with tag tail fuel name (some (mkContext d sp p sz)) =
      (do
        let len ← name_len name
        let found ← BSON_Extract_search fuel tag name len d sp p sz
        if found.1 = false then pure (BSON_POS_OUT_OF_RANGE, found.2, none)
        else
          match found.2 with
          | some ⟨some d, some sp, some position, sz⟩ => do
              let len ← (if len ≠ 0 then pure len
                         else BSON_Get_Name_Length position d.data sp sz)
              tail d sp position sz len
          | _ => .undefined) := by
  unfold BSON_Extract_with
  rw [BSON_Check_Context_mk h, if_neg (by decide)]
  rfl

/-- Every way an extractor returns: a context that fails the check; a search that gives up,
which leaves the context as it was; or an element found at `q`, which holds the tag and
where the name compared equal, and whose value the tail decodes. -/
theorem BSON_Extract_with_result {α : Type} {tag : Nat}
    {tail : BSON_Document → Int → Int → Int → Int →
      Outcome (BSON_ERROR × Option BSON_Context × Option α)}
    {fuel : Nat} {name : Option (List Nat)} {context : Option BSON_Context}
    {e : BSON_ERROR} {c : Option BSON_Context} {r : Option α}
    (h : BSON_Extract_with tag tail fuel name context = .done (e, c, r)) :
    (e = BSON_BAD_CONTEXT ∧ c = context ∧ r = none ∧
        BSON_Check_Context context = BSON_BAD_CONTEXT) ∨
    (∃ d sp p sz, context = some (mkContext d sp p sz) ∧
      (0 ≤ p ∧ p ≤ d.size ∧ 0 ≤ sp ∧ sp ≤ d.size) ∧
      ((e = BSON_POS_OUT_OF_RANGE ∧ c = context ∧ r = none) ∨
       (∃ q len0 len, name_len name = .done len0 ∧ readByte d.data q = .done tag ∧
          memcmp d.data (q + 1) (cstring name) len0 = .done false ∧
          (if len0 ≠ 0 then pure len0 else BSON_Get_Name_Length q d.data sp sz) = .done len ∧
          tail d sp q sz len = .done (e, c, r)))) := by
  by_cases hbad : BSON_Check_Context context = BSON_BAD_CONTEXT
  · unfold BSON_Extract_with at h
    rw [if_pos hbad] at h
    simp only [Outcome.done.injEq, Prod.mk.injEq] at h
    exact Or.inl ⟨h.1.symm, h.2.1.symm, h.2.2.symm, hbad⟩
  · obtain ⟨d, sp, p, sz, rfl, hb⟩ := BSON_Check_Context_ne_bad hbad
    refine Or.inr ⟨d, sp, p, sz, rfl, hb, ?_⟩
    rw [BSON_Extract_with_of_valid tag tail fuel name hb] at h
    obtain ⟨len0, hlen0, h⟩ := Outcome.bind_eq_done h
    obtain ⟨⟨found, c1⟩, hs, h⟩ := Outcome.bind_eq_done h
    rcases BSON_Extract_search_result hbad hlen0 hs with ⟨hf, hc1⟩ | ⟨hf, q, hc1, htag, hcmp⟩
    · subst hf hc1
      rw [if_pos rfl] at h
      simp only [Outcome.pure_eq, Outcome.done.injEq, Prod.mk.injEq] at h
      exact Or.inl ⟨h.1.symm, h.2.1.symm, h.2.2.symm⟩
    · subst hf hc1
      rw [if_neg (by simp)] at h
      have h' : ((if len0 ≠ 0 then pure len0 else BSON_Get_Name_Length q d.data sp sz)
          >>= fun len => tail d sp q sz len) = .done (e, c, r) := h
      obtain ⟨len, hlen, h'⟩ := Outcome.bind_eq_done h'
      exact Or.inr ⟨q, len0, len, hlen0, htag, hcmp, hlen, h'⟩

/-- The tail of an extractor returns success when it returns. -/
theorem Kind.tail_status {k : Kind} {d : BSON_Document} {sp q sz len : Int} {e : BSON_ERROR}
    {c : Option BSON_Context} {r : Option Value}
    (h : k.tail d sp q sz len = .done (e, c, r)) :
    e = BSON_OPERATION_SUCCESS ∧ r ≠ none := by
  have hfixed : ∀ {α : Type} (f : α → Value) (read : List Nat → Int → Outcome α) (adv : Int),
      labelled f (BSON_Extract_fixed read adv) d sp q sz len = .done (e, c, r) →
      e = BSON_OPERATION_SUCCESS ∧ r ≠ none := by
    intro α f read adv h
    unfold labelled BSON_Extract_fixed at h
    obtain ⟨x, hx, h⟩ := Outcome.bind_eq_done h
    obtain ⟨v, _, hx⟩ := Outcome.bind_eq_done hx
    simp only [Outcome.pure_eq, Outcome.done.injEq] at hx h
    subst hx
    simp only [Prod.mk.injEq, Option.map_some'] at h
    exact ⟨h.1.symm, by rw [← h.2.2]; simp⟩
  have hcopy : ∀ (f : List Nat → Value),
      labelled f BSON_Extract_copy d sp q sz len = .done (e, c, r) →
      e = BSON_OPERATION_SUCCESS ∧ r ≠ none := by
    intro f h
    unfold labelled BSON_Extract_copy at h
    obtain ⟨x, hx, h⟩ := Outcome.bind_eq_done h
    obtain ⟨strSize, _, hx⟩ := Outcome.bind_eq_done hx
    by_cases hneg : strSize < 0
    · rw [if_pos hneg] at hx; simp at hx
    · rw [if_neg hneg] at hx
      obtain ⟨bytes, _, hx⟩ := Outcome.bind_eq_done hx
      obtain ⟨step, _, hx⟩ := Outcome.bind_eq_done hx
      simp only [Outcome.pure_eq, Outcome.done.injEq] at hx h
      subst hx
      simp only [Prod.mk.injEq, Option.map_some'] at h
      exact ⟨h.1.symm, by rw [← h.2.2]; simp⟩
  cases k
  · exact hfixed _ _ _ h
  · exact hfixed _ _ _ h
  · exact hfixed _ _ _ h
  · exact hcopy _ h
  · exact hcopy _ h
  · exact hfixed _ _ _ h
  · exact hfixed _ _ _ h

/-- A comparison with a name that gives zero has read the name and its NUL in the buffer. -/
theorem memcmp_eq_false {data : List Nat} {s : Int} {nm : List Nat}
    (h : memcmp data s (cstring (some nm)) (nm.length + 1) = .done false) :
    readBytes data s (nm.length + 1) = .done (nm ++ [0]) := by
  unfold memcmp cstring at h
  rw [if_neg (by omega), if_pos (by simp)] at h
  obtain ⟨bytes, hb, h⟩ := Outcome.bind_eq_done h
  have e2 : ((nm.length : Int) + 1).toNat = nm.length + 1 := by omega
  rw [e2, List.take_of_length_le (by simp)] at h
  simp only [Outcome.pure_eq, Outcome.done.injEq, decide_eq_false_iff_not, ne_eq,
    Decidable.not_not] at h
  rw [hb, h]

/-- C9: when a typed extractor returns `BSON_POS_OUT_OF_RANGE`, the context after the call is
the context before the call and the result is not written. -/
theorem BSON_Extract_out_of_range_restores (k : Kind) (fuel : Nat) (name : Option (List Nat))
    (context c : Option BSON_Context) (r : Option Value)
    (h : BSON_Extract k fuel name context = .done (BSON_POS_OUT_OF_RANGE, c, r)) :
    c = context ∧ r = none := by
  rcases BSON_Extract_with_result h with ⟨he, _⟩ | ⟨d, sp, p, sz, _, _, h1 | h2⟩
  · exact absurd he (by decide)
  · exact ⟨h1.2.1, h1.2.2⟩
  · obtain ⟨q, len0, len, _, _, _, _, ht⟩ := h2
    exact absurd (Kind.tail_status ht).1 (by decide)

/-- What a successful extractor has found: when a typed extractor returns success (the name,
if given, fitting an `int`), there is an offset `q` in the buffer that holds the tag byte of
the kind and, when a name is given, is followed by the bytes of the name and a NUL; the
status, context and value returned are those of the tail of the extractor run at `q`, with
`len` the length of the name and NUL.  The offset is where the search stopped; it is the start
of an element only if every step of the search went over a whole element. -/
theorem BSON_Extract_success_tag_and_name (k : Kind) (fuel : Nat) (name : Option (List Nat))
    (context c : Option BSON_Context) (r : Option Value)
    (hname : ∀ nm, name = some nm → nm.length < 2147483647)
    (h : BSON_Extract k fuel name context = .done (BSON_OPERATION_SUCCESS, c, r)) :
    ∃ (d : BSON_Document) (sp p sz q len : Int), context = some (mkContext d sp p sz) ∧
      readByte d.data q = .done k.tag ∧
      (∀ nm, name = some nm → len = (nm.length : Int) + 1 ∧
        readBytes d.data (q + 1) (nm.length + 1) = .done (nm ++ [0])) ∧
      (name = none → BSON_Get_Name_Length q d.data sp sz = .done len) ∧
      k.tail d sp q sz len = .done (BSON_OPERATION_SUCCESS, c, r) := by
  rcases BSON_Extract_with_result h with ⟨he, _⟩ | ⟨d, sp, p, sz, hctx, _, h1 | h2⟩
  · exact absurd he (by decide)
  · exact absurd h1.1 (by decide)
  · obtain ⟨q, len0, len, hlen0, htag, hcmp, hlen, ht⟩ := h2
    refine ⟨d, sp, p, sz, q, len, hctx, htag, ?_, ?_, ht⟩
    · intro nm hnm
      subst hnm
      rw [name_len_some (hname nm rfl)] at hlen0
      simp only [Outcome.done.injEq] at hlen0
      subst hlen0
      rw [if_pos (by omega)] at hlen
      simp only [Outcome.pure_eq, Outcome.done.injEq] at hlen
      exact ⟨hlen.symm, memcmp_eq_false hcmp⟩
    · intro hnone
      subst hnone
      rw [name_len_none] at hlen0
      simp only [Outcome.done.injEq] at hlen0
      subst hlen0
      rw [if_neg (by simp)] at hlen
      exact hlen

/-! ## The seven extractors and `BSON_Extract` -/

theorem Outcome.bind_assoc {α β γ : Type} (x : Outcome α) (f : α → Outcome β)
    (g : β → Outcome γ) : ((x >>= f) >>= g) = (x >>= fun a => f a >>= g) := by
  cases x with
  | done a => rw [Outcome.done_bind, Outcome.done_bind]
  | undefined => rw [Outcome.undefined_bind, Outcome.undefined_bind, Outcome.undefined_bind]
  | outOfFuel => rw [Outcome.outOfFuel_bind, Outcome.outOfFuel_bind, Outcome.outOfFuel_bind]

theorem Outcome.bind_congr {α β : Type} (x : Outcome α) (f g : α → Outcome β)
    (h : ∀ a, f a = g a) : (x >>= f) = (x >>= g) := by
  have : f = g := funext h
  rw [this]

/-- Labelling the value commutes with the text the extractors share. -/
theorem BSON_Extract_with_labelled {α : Type} (f : α → Value) (tag : Nat)
    (tail : BSON_Document → Int → Int → Int → Int →
      Outcome (BSON_ERROR × Option BSON_Context × Option α))
    (fuel : Nat) (name : Option (List Nat)) (context : Option BSON_Context) :
    BSON_Extract_with tag (labelled f tail) fuel name context =
      (BSON_Extract_with tag tail fuel name context >>= fun r =>
        pure (r.1, r.2.1, r.2.2.map f)) := by
  by_cases hbad : BSON_Check_Context context = BSON_BAD_CONTEXT
  · unfold BSON_Extract_with
    rw [if_pos hbad, if_pos hbad, Outcome.done_bind]
    rfl
  · obtain ⟨d, sp, p, sz, rfl, hb⟩ := BSON_Check_Context_ne_bad hbad
    rw [BSON_Extract_with_of_valid tag _ fuel name hb,
      BSON_Extract_with_of_valid tag _ fuel name hb, Outcome.bind_assoc]
    apply Outcome.bind_congr
    intro len
    rw [Outcome.bind_assoc]
    apply Outcome.bind_congr
    rintro ⟨found, c1⟩
    cases found with
    | false =>
      rw [if_pos rfl, if_pos rfl, Outcome.pure_eq, Outcome.pure_eq, Outcome.done_bind]
      rfl
    | true =>
      rw [if_neg (by simp), if_neg (by simp)]
      match c1 with
      | none => rfl
      | some ⟨none, _, _, _⟩ => rfl
      | some ⟨some _, none, _, _⟩ => rfl
      | some ⟨some _, some _, none, _⟩ => rfl
      | some ⟨some d1, some sp1, some p1, sz1⟩ =>
        show ((if len ≠ 0 then pure len else BSON_Get_Name_Length p1 d1.data sp1 sz1)
            >>= fun len => labelled f tail d1 sp1 p1 sz1 len)
          = (((if len ≠ 0 then pure len else BSON_Get_Name_Length p1 d1.data sp1 sz1)
            >>= fun len => tail d1 sp1 p1 sz1 len) >>= fun r => pure (r.1, r.2.1, r.2.2.map f))
        rw [Outcome.bind_assoc]
        rfl

theorem BSON_Extract_Int32_labelled (fuel : Nat) (name : Option (List Nat))
    (context : Option BSON_Context) :
    BSON_Extract .Int32 fuel name context =
      (BSON_Extract_Int32 fuel name context >>= fun r =>
        pure (r.1, r.2.1, r.2.2.map Value.int32)) :=
  BSON_Extract_with_labelled _ _ _ _ _ _

theorem BSON_Extract_Int64_labelled (fuel : Nat) (name : Option (List Nat))
    (context : Option BSON_Context) :
    BSON_Extract .Int64 fuel name context =
      (BSON_Extract_Int64 fuel name context >>= fun r =>
        pure (r.1, r.2.1, r.2.2.map Value.int64)) :=
  BSON_Extract_with_labelled _ _ _ _ _ _

theorem BSON_Extract_Double_labelled (fuel : Nat) (name : Option (List Nat))
    (context : Option BSON_Context) :
    BSON_Extract .Double fuel name context =
      (BSON_Extract_Double fuel name context >>= fun r =>
        pure (r.1, r.2.1, r.2.2.map Value.double)) :=
  BSON_Extract_with_labelled _ _ _ _ _ _

theorem BSON_Extract_String_labelled (fuel : Nat) (name : Option (List Nat))
    (context : Option BSON_Context) :
    BSON_Extract .String fuel name context =
      (BSON_Extract_String fuel name context >>= fun r =>
        pure (r.1, r.2.1, r.2.2.map Value.string)) :=
  BSON_Extract_with_labelled _ _ _ _ _ _

theorem BSON_Extract_Binary_labelled (fuel : Nat) (name : Option (List Nat))
    (context : Option BSON_Context) :
    BSON_Extract .Binary fuel name context =
      (BSON_Extract_Binary fuel name context >>= fun r =>
        pure (r.1, r.2.1, r.2.2.map Value.binary)) :=
  BSON_Extract_with_labelled _ _ _ _ _ _

theorem BSON_Extract_Boolean_labelled (fuel : Nat) (name : Option (List Nat))
    (context : Option BSON_Context) :
    BSON_Extract .Boolean fuel name context =
      (BSON_Extract_Boolean fuel name context >>= fun r =>
        pure (r.1, r.2.1, r.2.2.map Value.boolean)) :=
  BSON_Extract_with_labelled _ _ _ _ _ _

theorem BSON_Extract_DateTime_labelled (fuel : Nat) (name : Option (List Nat))
    (context : Option BSON_Context) :
    BSON_Extract .DateTime fuel name context =
      (BSON_Extract_DateTime fuel name context >>= fun r =>
        pure (r.1, r.2.1, r.2.2.map Value.dateTime)) :=
  BSON_Extract_with_labelled _ _ _ _ _ _

/-! ## The search by name and tag -/

/-- The call `BSON_Fetch` with a name, on the element `cur` with the elements `mid` (none
named so) and then `target` (named so) behind it, moves to `target`. -/
theorem BSON_Fetch_finds {d : BSON_Document} {sp sz : Int} {n : Nat} {cur target : Element}
    {mid : List Element} {rest : List Nat} {fuel : Nat}
    (hsize : d.size = d.data.length) (hsmall : d.data.length < 2147483648)
    (hsp : 0 ≤ sp ∧ sp ≤ d.size) (hhi : sp + sz < 18446744073709551616)
    (hd : d.data.drop n = cur.bytes ++ (elementsBytes mid ++ (target.bytes ++ rest)))
    (hcur : cur.WellFormed ∧ cur.tag ∈ searchKinds)
    (hmid : ∀ e ∈ mid, e.WellFormed ∧ e.tag ∈ searchKinds ∧ e.name ≠ target.name)
    (ht : 0 ∉ target.name)
    (hlt : (n : Int) + cur.bytes.length + (elementsBytes mid).length < sp + sz)
    (hfuel : mid.length < fuel) :
    BSON_Fetch fuel (some target.name) (some (mkContext d sp n sz)) =
      .done (BSON_OPERATION_SUCCESS,
        some (mkContext d sp ((n : Int) + cur.bytes.length + (elementsBytes mid).length) sz)) := by
  have hlen := length_of_drop_eq hd (by simp [Element.bytes])
  have htl := target.length_bytes
  simp only [List.length_append] at hlen
  rw [BSON_Fetch_of_valid fuel _ (by omega), name_len_fetch_some (by omega)]
  rw [BSON_Fetch_loop_finds rest target ht hsmall mid cur n n fuel rfl hd hcur.1 hcur.2 hmid hlt
    (by omega) hfuel]
  simp only [Outcome.done_bind, Outcome.pure_eq]

/-- A list of elements has a first element of a given name, or none. -/
theorem split_first_named (name : List Nat) (xs : List Element) :
    (∀ e ∈ xs, e.name ≠ name) ∨
    ∃ m1 t m2, xs = m1 ++ t :: m2 ∧ t.name = name ∧ ∀ e ∈ m1, e.name ≠ name := by
  induction xs with
  | nil => exact Or.inl (fun e he => absurd he (by simp))
  | cons x xs ih =>
    by_cases hx : x.name = name
    · exact Or.inr ⟨[], x, xs, rfl, hx, fun e he => absurd he (by simp)⟩
    · rcases ih with h | ⟨m1, t, m2, h1, h2, h3⟩
      · left
        intro e he
        rcases List.mem_cons.mp he with rfl | he
        · exact hx
        · exact h e he
      · right
        refine ⟨x :: m1, t, m2, by rw [h1]; rfl, h2, ?_⟩
        intro e he
        rcases List.mem_cons.mp he with rfl | he
        · exact hx
        · exact h3 e he

/-- The inner loop of an extractor, on the element `cur` with the elements `xs` (none with
both the tag and the name) and then `target` (with both) behind it, ends on `target`. -/
theorem BSON_Extract_loop_finds {d : BSON_Document} {sp sz : Int} {target : Element}
    {rest : List Nat} {prevPos : Int} {fetchFuel : Nat}
    (hsize : d.size = d.data.length) (hsmall : d.data.length < 2147483648)
    (hsp : 0 ≤ sp ∧ sp ≤ d.size) (hhi : sp + sz < 18446744073709551616)
    (ht : 0 ∉ target.name) :
    ∀ (fuel : Nat) (xs : List Element) (cur : Element) (n : Nat),
      xs.length < fuel → xs.length < fetchFuel →
      d.data.drop n = cur.bytes ++ (elementsBytes xs ++ (target.bytes ++ rest)) →
      (cur.WellFormed ∧ cur.tag ∈ searchKinds) →
      (∀ e ∈ xs, e.WellFormed ∧ e.tag ∈ searchKinds ∧
        ¬ (e.tag = target.tag ∧ e.name = target.name)) →
      (n : Int) + cur.bytes.length + (elementsBytes xs).length < sp + sz →
      BSON_Extract_loop target.tag (some target.name) prevPos fetchFuel fuel
          (some (mkContext d sp n sz)) =
        .done (true,
          some (mkContext d sp ((n : Int) + cur.bytes.length + (elementsBytes xs).length) sz)) := by
  intro fuel
  induction fuel with
  | zero => intro xs cur n h; exact absurd h (by omega)
  | succ f ih =>
    intro xs cur n hfuel hff hd hcur hxs hlt
    rw [BSON_Extract_loop]
    rcases split_first_named target.name xs with hnone | ⟨m1, t, m2, hsplit, htn, hm1⟩
    · -- no element of `xs` has the name: the fetch lands on `target`
      rw [BSON_Fetch_finds hsize hsmall hsp hhi hd hcur
        (fun e he => ⟨(hxs e he).1, (hxs e he).2.1, hnone e he⟩) ht hlt hff]
      simp only [Outcome.done_bind]
      rw [if_neg (by simp), read_at_position_mk]
      have hd1 : d.data.drop (n + cur.bytes.length + (elementsBytes xs).length)
          = target.tag :: (target.name ++ 0 :: (target.payload ++ rest)) := by
        have h1 := drop_add_of_drop_eq_append hd
        have h2 := drop_add_of_drop_eq_append h1
        rw [h2]
        simp only [Element.bytes, List.cons_append, List.append_assoc]
      rw [readByte_of_drop (by push_cast; rfl) hd1]
      simp only [Outcome.done_bind]
      rw [if_neg (by simp), Outcome.pure_eq]
    · -- the first element of `xs` with the name has another tag: the loop goes on from it
      subst hsplit
      have htwf := hxs t (by simp)
      have hcl := cur.length_bytes
      have htl := t.length_bytes
      have hbytes : elementsBytes (m1 ++ t :: m2)
          = elementsBytes m1 ++ (t.bytes ++ elementsBytes m2) := by
        rw [elementsBytes_append, elementsBytes_cons]
      rw [hbytes] at hd hlt
      simp only [List.length_append, Nat.cast_add, List.append_assoc] at hd hlt
      have hd0 : d.data.drop n = cur.bytes ++ (elementsBytes m1 ++
          (t.bytes ++ (elementsBytes m2 ++ (target.bytes ++ rest)))) := by
        rw [hd]
      have hlens : (m1 ++ t :: m2).length = m1.length + (m2.length + 1) := by
        simp only [List.length_append, List.length_cons]
      rw [hlens] at hfuel hff
      have hlt1 : (n : Int) + cur.bytes.length + (elementsBytes m1).length < sp + sz := by
        omega
      have hF := @BSON_Fetch_finds d sp sz n cur t m1
        (elementsBytes m2 ++ (target.bytes ++ rest)) fetchFuel
        hsize hsmall hsp hhi hd0 hcur
        (fun e he => ⟨(hxs e (by simp [he])).1, (hxs e (by simp [he])).2.1,
          by rw [htn]; exact hm1 e he⟩) htwf.1.1 hlt1 (by omega)
      rw [htn] at hF
      rw [hF]
      simp only [Outcome.done_bind]
      rw [if_neg (by simp), read_at_position_mk]
      have hd1 : d.data.drop (n + cur.bytes.length + (elementsBytes m1).length)
          = t.bytes ++ (elementsBytes m2 ++ (target.bytes ++ rest)) := by
        have h1 := drop_add_of_drop_eq_append hd0
        exact drop_add_of_drop_eq_append h1
      have hd2 : d.data.drop (n + cur.bytes.length + (elementsBytes m1).length)
          = t.tag :: (t.name ++ 0 :: (t.payload ++ (elementsBytes m2 ++ (target.bytes ++ rest)))) := by
        rw [hd1]
        simp only [Element.bytes, List.cons_append, List.append_assoc]
      rw [readByte_of_drop (by push_cast; rfl) hd2]
      simp only [Outcome.done_bind]
      have hne : t.tag ≠ target.tag := fun h => htwf.2.2 ⟨h, htn⟩
      rw [if_pos hne]
      have hih := ih m2 t (n + cur.bytes.length + (elementsBytes m1).length)
        (by omega) (by omega)
        hd1 ⟨htwf.1, htwf.2.1⟩ (fun e he => hxs e (by simp [he]))
        (by push_cast; omega)
      have hcast : ((n + cur.bytes.length + (elementsBytes m1).length : Nat) : Int)
          = (n : Int) + cur.bytes.length + (elementsBytes m1).length := by push_cast; rfl
      rw [hcast] at hih
      rw [hih, hbytes]
      congr 4
      simp only [List.length_append]
      push_cast
      omega

/-- The search of an extractor, with the cursor on the first of the elements `xs` (none with
both the tag and the name) followed by `target` (with both), ends on `target`. -/
theorem BSON_Extract_search_finds {d : BSON_Document} {sp sz : Int} {target : Element}
    {rest : List Nat} {fuel : Nat} {n : Nat} {xs : List Element}
    (hsize : d.size = d.data.length) (hsmall : d.data.length < 2147483648)
    (hsp : 0 ≤ sp ∧ sp ≤ d.size) (hhi : sp + sz < 18446744073709551616)
    (ht : 0 ∉ target.name)
    (hd : d.data.drop n = elementsBytes xs ++ (target.bytes ++ rest))
    (hxs : ∀ e ∈ xs, e.WellFormed ∧ e.tag ∈ searchKinds ∧
      ¬ (e.tag = target.tag ∧ e.name = target.name))
    (hlt : (n : Int) + (elementsBytes xs).length < sp + sz)
    (hfuel : xs.length ≤ fuel) :
    BSON_Extract_search fuel target.tag (some target.name) (target.name.length + 1) d sp n sz =
      .done (true, some (mkContext d sp ((n : Int) + (elementsBytes xs).length) sz)) := by
  have htl := target.length_bytes
  unfold BSON_Extract_search
  cases xs with
  | nil =>
    simp only [elementsBytes, List.nil_append, List.length_nil, Nat.cast_zero, add_zero]
      at hd hlt ⊢
    have hlen := length_of_drop_eq hd (by simp [Element.bytes])
    simp only [List.length_append] at hlen
    have hd1 : d.data.drop n = target.tag :: (target.name ++ 0 :: (target.payload ++ rest)) := by
      rw [hd]; simp only [Element.bytes, List.cons_append, List.append_assoc]
    have hd2 : d.data.drop (n + 1) = target.name ++ 0 :: (target.payload ++ rest) :=
      drop_add_of_drop_eq_append (A := [target.tag]) (by rw [hd1]; rfl)
    rw [readByte_of_drop rfl hd1]
    simp only [Outcome.done_bind]
    rw [if_neg (by simp), memcmp_at_element (n := n + 1) (by push_cast; rfl) hd2 ht ht (by omega)]
    simp only [Outcome.done_bind, ne_eq, not_true_eq_false, decide_False, Bool.false_eq_true,
      if_false, Outcome.pure_eq]
    rfl
  | cons cur xs =>
    obtain ⟨hcwf, hck, hcne⟩ := hxs cur (by simp)
    have hcl := cur.length_bytes
    rw [elementsBytes_cons] at hd hlt ⊢
    simp only [List.append_assoc, List.length_append, Nat.cast_add] at hd hlt ⊢
    have hlen := length_of_drop_eq hd (by simp [Element.bytes])
    simp only [List.length_append] at hlen
    have hd1 : d.data.drop n = cur.tag :: (cur.name ++ 0 :: (cur.payload ++
        (elementsBytes xs ++ (target.bytes ++ rest)))) := by
      rw [hd]; simp only [Element.bytes, List.cons_append, List.append_assoc]
    have hd2 : d.data.drop (n + 1) = cur.name ++ 0 :: (cur.payload ++
        (elementsBytes xs ++ (target.bytes ++ rest))) :=
      drop_add_of_drop_eq_append (A := [cur.tag]) (by rw [hd1]; rfl)
    have henter : (if cur.tag ≠ target.tag then (pure true : Outcome Bool)
        else memcmp d.data ((n : Int) + 1) (cstring (some target.name))
          ((target.name.length : Int) + 1)) = .done true := by
      by_cases htag : cur.tag ≠ target.tag
      · rw [if_pos htag, Outcome.pure_eq]
      · rw [if_neg htag, memcmp_at_element (n := n + 1) (by push_cast; rfl) hd2 hcwf.1 ht
          (by omega)]
        have hname : cur.name ≠ target.name := fun h => hcne ⟨by simpa using htag, h⟩
        simp only [ne_eq, hname, not_false_eq_true, decide_True]
    rw [readByte_of_drop rfl hd1]
    simp only [Outcome.done_bind]
    rw [henter]
    simp only [Outcome.done_bind]
    rw [if_pos trivial]
    have hloop := @BSON_Extract_loop_finds d sp sz target rest (n : Int) fuel
      hsize hsmall hsp hhi ht fuel xs cur n
      (by simpa using hfuel) (by simpa using hfuel) hd ⟨hcwf, hck⟩
      (fun e he => hxs e (by simp [he])) (by omega)
    rw [add_assoc] at hloop
    exact hloop

/-- An extractor whose search ends on `q` runs its tail there. -/
theorem BSON_Extract_with_found {α : Type} (tag : Nat)
    (tail : BSON_Document → Int → Int → Int → Int →
      Outcome (BSON_ERROR × Option BSON_Context × Option α))
    (fuel : Nat) (name : Option (List Nat)) {d : BSON_Document} {sp p sz len0 q : Int}
    (h : 0 ≤ p ∧ p ≤ d.size ∧ 0 ≤ sp ∧ sp ≤ d.size)
    (hlen : name_len name = .done len0)
    (hs : BSON_Extract_search fuel tag name len0 d sp p sz
      = .done (true, some (mkContext d sp q sz))) :
    BSON_Extract_with tag tail fuel name (some (mkContext d sp p sz)) =
      ((if len0 ≠ 0 then pure len0 else BSON_Get_Name_Length q d.data sp sz) >>= fun len =>
        tail d sp q sz len) := by
  rw [BSON_Extract_with_of_valid tag tail fuel name h, hlen]
  simp only [Outcome.done_bind]
  rw [hs]
  simp only [Outcome.done_bind]
  rw [if_neg (by simp)]
  rfl

/-- An extractor whose search gives up returns `BSON_POS_OUT_OF_RANGE`. -/
theorem BSON_Extract_with_not_found {α : Type} (tag : Nat)
    (tail : BSON_Document → Int → Int → Int → Int →
      Outcome (BSON_ERROR × Option BSON_Context × Option α))
    (fuel : Nat) (name : Option (List Nat)) {d : BSON_Document} {sp p sz len0 : Int}
    {c : Option BSON_Context}
    (h : 0 ≤ p ∧ p ≤ d.size ∧ 0 ≤ sp ∧ sp ≤ d.size)
    (hlen : name_len name = .done len0)
    (hs : BSON_Extract_search fuel tag name len0 d sp p sz = .done (false, c)) :
    BSON_Extract_with tag tail fuel name (some (mkContext d sp p sz)) =
      .done (BSON_POS_OUT_OF_RANGE, c, none) := by
  rw [BSON_Extract_with_of_valid tag tail fuel name h, hlen]
  simp only [Outcome.done_bind]
  rw [hs]
  simp only [Outcome.done_bind]
  rw [if_pos trivial, Outcome.pure_eq]

/-- The call `BSON_Extract_Int32` with a name, the cursor on the first of the elements `xs`
(none an int32 of that name) followed by the int32 `target` of that name: it returns the
value of `target` and leaves the cursor behind it. -/
theorem BSON_Extract_Int32_finds {d : BSON_Document} {sp sz : Int} {target : Element}
    {rest : List Nat} {fuel : Nat} {n : Nat} {xs : List Element} {v : Int}
    (hsize : d.size = d.data.length) (hsmall : d.data.length < 2147483648)
    (hsp : 0 ≤ sp ∧ sp ≤ d.size) (hhi : sp + sz < 18446744073709551616)
    (htwf : target.WellFormed) (htag : target.tag = 0x10)
    (hv : READ_INT_32 target.payload 0 = .done v)
    (hd : d.data.drop n = elementsBytes xs ++ (target.bytes ++ rest))
    (hxs : ∀ e ∈ xs, e.WellFormed ∧ e.tag ∈ searchKinds ∧
      ¬ (e.tag = 0x10 ∧ e.name = target.name))
    (hlt : (n : Int) + (elementsBytes xs).length < sp + sz)
    (hfuel : xs.length ≤ fuel) :
    BSON_Extract_Int32 fuel (some target.name) (some (mkContext d sp n sz)) =
      .done (BSON_OPERATION_SUCCESS,
        some (mkContext d sp ((n : Int) + (elementsBytes xs).length + target.bytes.length) sz),
        some v) := by
  have htl := target.length_bytes
  have hpl : target.payload.length = 4 := by
    have := htwf.2
    rw [htag] at this
    simpa [payloadOK] using this
  have hd1 := drop_add_of_drop_eq_append hd
  have hlen := length_of_drop_eq hd1 (by simp [Element.bytes])
  simp only [List.length_append] at hlen
  have hd2 : d.data.drop (n + (elementsBytes xs).length + (1 + target.name.length + 1))
      = target.payload ++ rest := by
    have h1 : d.data.drop (n + (elementsBytes xs).length)
        = (target.tag :: (target.name ++ [0])) ++ (target.payload ++ rest) := by
      rw [hd1]
      simp only [Element.bytes, List.cons_append, List.append_assoc, List.singleton_append,
        List.nil_append]
    have h2 := drop_add_of_drop_eq_append h1
    simp only [List.length_cons, List.length_append, List.length_nil] at h2
    rw [← h2]; congr 1; omega
  have hs := @BSON_Extract_search_finds d sp sz target rest fuel n xs
    hsize hsmall hsp hhi htwf.1 hd
    (fun e he => by rw [htag]; exact hxs e he) hlt hfuel
  rw [htag] at hs
  unfold BSON_Extract_Int32
  rw [BSON_Extract_with_found 16 _ fuel _ (by omega) (name_len_some (by omega)) hs]
  rw [if_pos (by omega), Outcome.pure_eq, Outcome.done_bind]
  unfold BSON_Extract_fixed
  rw [READ_INT_32_of_payload
    (m := n + (elementsBytes xs).length + (1 + target.name.length + 1))
    (by push_cast; omega) hd2 hv]
  simp only [Outcome.done_bind, Outcome.pure_eq]
  have hpos : (n : Int) + (elementsBytes xs).length + 1 + ((target.name.length : Int) + 1) + 4
      = (n : Int) + (elementsBytes xs).length + target.bytes.length := by
    rw [htl, hpl]; push_cast; omega
  rw [hpos]
  rfl

/-! ## `BSON_Init` -/

theorem READ_INT_32_zero (data : List Nat) (h4 : 4 ≤ data.length) :
    READ_INT_32 data 0 = .done (le_int32 data) := by
  match data, h4 with
  | b0 :: b1 :: b2 :: b3 :: rest, _ =>
    rw [@READ_INT_32_of_drop _ _ 0 b0 b1 b2 b3 rest (by simp) (by simp)]
    simp only [le_int32, List.getD_cons_zero, List.getD_cons_succ]

/-- C1: for a document whose buffer holds the declared length (a positive length, and at least
the four bytes of the header), `BSON_Init` returns success exactly when the little-endian
signed 32-bit integer in the first four bytes equals the declared length and the byte at
index `size - 1` is zero; in every other case it returns `BSON_MEMORY_CORRUPTED`. -/
theorem BSON_Init_success_iff (doc : BSON_Document) (ctx : BSON_Context)
    (h4 : 4 ≤ doc.data.length) (hpos : 0 < doc.size) (hsize : doc.size ≤ doc.data.length) :
    (returns (BSON_Init (some doc) (some ctx)) BSON_OPERATION_SUCCESS ↔
      headerAndTerminatorOK doc) ∧
    (¬ headerAndTerminatorOK doc →
      returns (BSON_Init (some doc) (some ctx)) BSON_MEMORY_CORRUPTED) := by
  obtain ⟨data, size⟩ := doc
  simp only at h4 hpos hsize
  obtain ⟨l, hl⟩ : ∃ l, data[(size - 1).toNat]? = some l := by
    have hlt : (size - 1).toNat < data.length := by omega
    exact ⟨data[(size - 1).toNat], List.getElem?_eq_getElem hlt⟩
  have hrb : readByte data (size - 1) = .done l :=
    readByte_of_getElem? (by omega) hl
  rw [BSON_Init]
  simp only [READ_INT_32_zero data h4, returns, Outcome.done_bind, hrb, hl, Outcome.pure_eq,
    headerAndTerminatorOK]
  generalize le_int32 data = v
  by_cases h1 : v = size
  · by_cases h2 : l = 0
    · simp [h1, h2]
    · simp [h1, h2]
  · simp [h1]

/-- C1, witness: the document `{"a": 1}` is accepted. -/
theorem BSON_Init_success_iff_witness :
    (4 ≤ doc_single.data.length ∧ 0 < doc_single.size ∧
      doc_single.size ≤ doc_single.data.length) ∧
    headerAndTerminatorOK doc_single ∧
    returns (BSON_Init (some doc_single) (some ⟨none, none, none, 0⟩)) BSON_OPERATION_SUCCESS :=
  have hok : headerAndTerminatorOK doc_single := by decide
  ⟨⟨by decide, by decide, by decide⟩, hok,
    (BSON_Init_success_iff doc_single ⟨none, none, none, 0⟩ (by decide) (by decide)
      (by decide)).1.2 hok⟩

/-- C2: when `BSON_Init` succeeds, the context it writes references the document, has
`startPosition = position =` offset 4 of the buffer and `size =` the declared length. -/
theorem BSON_Init_success_context (doc : BSON_Document) (ctx : BSON_Context)
    (c : Option BSON_Context)
    (h : BSON_Init (some doc) (some ctx) = .done (BSON_OPERATION_SUCCESS, c)) :
    c = some ⟨some doc, some 4, some 4, doc.size⟩ := by
  rw [BSON_Init] at h
  obtain ⟨docLen, _, h⟩ := Outcome.bind_eq_done h
  by_cases h1 : docLen ≠ doc.size
  · rw [if_pos h1] at h; simp at h
  · rw [if_neg h1] at h
    obtain ⟨last, _, h⟩ := Outcome.bind_eq_done h
    by_cases h2 : last ≠ 0
    · rw [if_pos h2] at h; simp at h
    · rw [if_neg h2] at h
      simp only [Outcome.pure_eq, Outcome.done.injEq, Prod.mk.injEq, true_and] at h
      exact h.symm

/-- C2, witness: the context `BSON_Init` gives for `{"a": 1}`. -/
theorem BSON_Init_success_context_witness :
    BSON_Init (some doc_single) (some ⟨none, none, none, 0⟩)
        = .done (BSON_OPERATION_SUCCESS, some ⟨some doc_single, some 4, some 4, 12⟩) ∧
      (some ⟨some doc_single, some 4, some 4, 12⟩ : Option BSON_Context)
        = some ⟨some doc_single, some 4, some 4, doc_single.size⟩ :=
  ⟨by decide,
    BSON_Init_success_context doc_single ⟨none, none, none, 0⟩ _ (by decide)⟩

/-! ## Extraction in document order -/

theorem READ_INT_32_of_length_four {payload : List Nat} (h : payload.length = 4) :
    READ_INT_32 payload 0 = .done (le_int32 payload) :=
  READ_INT_32_zero payload (by omega)

/-- The contexts used below are those the library builds: `BSON_Init` on `doc_nested` gives
the root context, and `BSON_Open` by the name `d` from there gives `ctx_nested`. -/
theorem ctx_nested_of_Init_Open :
    BSON_Init (some doc_nested) (some ⟨none, none, none, 0⟩)
      = .done (BSON_OPERATION_SUCCESS, some (mkContext doc_nested 4 4 34)) ∧
    BSON_Open 1 (some [100]) (some (mkContext doc_nested 4 4 34)) (some ⟨none, none, none, 0⟩)
      = .done (BSON_OPERATION_SUCCESS, some ctx_nested) := by
  decide

/-- C3, counterexample: in the sub-document `{"a": 1, "b": 2}` of `doc_nested`, with the
cursor on its first element, extracting `a` then `b` gives 1 and 2, and extracting `b` then
`a` gives 2 and then `BSON_POS_OUT_OF_RANGE` for `a`: the two orders do not give the same
results. -/
theorem extract_two_order_counterexample :
    extract_two 5 [97] [98] (some ctx_nested)
      = .done ((BSON_OPERATION_SUCCESS, some 1), (BSON_OPERATION_SUCCESS, some 2)) ∧
    extract_two 5 [98] [97] (some ctx_nested)
      = .done ((BSON_OPERATION_SUCCESS, some 2), (BSON_POS_OUT_OF_RANGE, none)) := by
  decide

/-- C3, amended: in a well-formed scope whose elements are of the kinds the search steps
over, with the cursor on the first element, let `A` be the first int32 field of its name and
`B`, behind `A`, the first int32 field of its name behind `A`.  Extracting `A` and then `B`
succeeds twice and yields the two payloads read as little-endian signed 32-bit integers. -/
theorem extract_two_in_document_order (d : BSON_Document) (before after : List Nat)
    (pre mid post : List Element) (A B : Element) (fuel : Nat)
    (hscope : WellFormedScope d before (pre ++ A :: (mid ++ B :: post)) after)
    (hkinds : ∀ e ∈ pre ++ A :: (mid ++ B :: post), e.tag ∈ searchKinds)
    (hA : A.tag = 0x10) (hB : B.tag = 0x10)
    (hpre : ∀ e ∈ pre, ¬ (e.tag = 0x10 ∧ e.name = A.name))
    (hmid : ∀ e ∈ mid, ¬ (e.tag = 0x10 ∧ e.name = B.name))
    (hfuel : pre.length + mid.length ≤ fuel) :
    extract_two fuel A.name B.name
        (some (scopeContext d before (pre ++ A :: (mid ++ B :: post)) 0))
      = .done ((BSON_OPERATION_SUCCESS, some (le_int32 A.payload)),
          (BSON_OPERATION_SUCCESS, some (le_int32 B.payload))) := by
  obtain ⟨hdata, hsize, hsmall, hwf⟩ := hscope
  have hAwf : A.WellFormed := hwf A (by simp)
  have hBwf : B.WellFormed := hwf B (by simp)
  have hAl := A.length_bytes
  have hBl := B.length_bytes
  have hApl : A.payload.length = 4 := by
    have := hAwf.2; rw [hA] at this; simpa [payloadOK] using this
  have hBpl : B.payload.length = 4 := by
    have := hBwf.2; rw [hB] at this; simpa [payloadOK] using this
  have hbytes : elementsBytes (pre ++ A :: (mid ++ B :: post))
      = elementsBytes pre ++ (A.bytes ++ (elementsBytes mid ++
          (B.bytes ++ elementsBytes post))) := by
    simp only [elementsBytes_append, elementsBytes_cons]
  have hlenall := congrArg List.length hdata
  rw [hbytes] at hlenall
  simp only [List.length_append, List.length_cons] at hlenall
  have hd0 : d.data.drop before.length = elementsBytes pre ++ (A.bytes ++
      (elementsBytes mid ++ (B.bytes ++ (elementsBytes post ++ 0 :: after)))) := by
    rw [hdata, hbytes, List.drop_left]
    simp only [List.append_assoc]
  have hd1 : d.data.drop (before.length + (elementsBytes pre).length + A.bytes.length)
      = elementsBytes mid ++ (B.bytes ++ (elementsBytes post ++ 0 :: after)) :=
    drop_add_of_drop_eq_append (drop_add_of_drop_eq_append hd0)
  have hsz : ((elementsBytes (pre ++ A :: (mid ++ B :: post))).length : Int)
      = (elementsBytes pre).length + (A.bytes.length + ((elementsBytes mid).length +
          (B.bytes.length + (elementsBytes post).length))) := by
    rw [hbytes]; simp only [List.length_append]; push_cast; rfl
  have h1 := @BSON_Extract_Int32_finds d (before.length : Int)
    (((elementsBytes (pre ++ A :: (mid ++ B :: post))).length : Int) + 5) A
    (elementsBytes mid ++ (B.bytes ++ (elementsBytes post ++ 0 :: after)))
    fuel before.length pre (le_int32 A.payload)
    hsize hsmall (by omega) (by omega) hAwf hA (READ_INT_32_of_length_four hApl) hd0
    (fun e he => ⟨hwf e (by simp [he]), hkinds e (by simp [he]), hpre e he⟩)
    (by omega) (by omega)
  have h2 := @BSON_Extract_Int32_finds d (before.length : Int)
    (((elementsBytes (pre ++ A :: (mid ++ B :: post))).length : Int) + 5) B
    (elementsBytes post ++ 0 :: after)
    fuel (before.length + (elementsBytes pre).length + A.bytes.length) mid (le_int32 B.payload)
    hsize hsmall (by omega) (by omega) hBwf hB (READ_INT_32_of_length_four hBpl) hd1
    (fun e he => ⟨hwf e (by simp [he]), hkinds e (by simp [he]), hmid e he⟩)
    (by push_cast; omega) (by omega)
  have hcast : ((before.length + (elementsBytes pre).length + A.bytes.length : Nat) : Int)
      = (before.length : Int) + (elementsBytes pre).length + A.bytes.length := by
    push_cast; rfl
  rw [hcast] at h2
  unfold extract_two scopeContext
  simp only [Nat.cast_zero, add_zero]
  rw [h1]
  simp only [Outcome.done_bind]
  rw [h2]
  simp only [Outcome.done_bind, Outcome.pure_eq]

/-- C3, witness: the sub-document `{"a": 1, "b": 2}` of `doc_nested`. -/
theorem extract_two_in_document_order_witness :
    WellFormedScope doc_nested [34, 0, 0, 0, 3, 100, 0, 19, 0, 0, 0]
        ([] ++ ⟨16, [97], [1, 0, 0, 0]⟩ :: ([] ++ ⟨16, [98], [2, 0, 0, 0]⟩ :: []))
        [16, 122, 0, 5, 0, 0, 0, 0] ∧
    extract_two 1 [97] [98] (some (scopeContext doc_nested [34, 0, 0, 0, 3, 100, 0, 19, 0, 0, 0]
        ([] ++ ⟨16, [97], [1, 0, 0, 0]⟩ :: ([] ++ ⟨16, [98], [2, 0, 0, 0]⟩ :: [])) 0))
      = .done ((BSON_OPERATION_SUCCESS, some (le_int32 [1, 0, 0, 0])),
          (BSON_OPERATION_SUCCESS, some (le_int32 [2, 0, 0, 0]))) :=
  have hscope : WellFormedScope doc_nested [34, 0, 0, 0, 3, 100, 0, 19, 0, 0, 0]
      ([] ++ ⟨16, [97], [1, 0, 0, 0]⟩ :: ([] ++ ⟨16, [98], [2, 0, 0, 0]⟩ :: []))
      [16, 122, 0, 5, 0, 0, 0, 0] := by decide
  ⟨hscope,
    extract_two_in_document_order doc_nested [34, 0, 0, 0, 3, 100, 0, 19, 0, 0, 0]
      [16, 122, 0, 5, 0, 0, 0, 0] [] [] [] ⟨16, [97], [1, 0, 0, 0]⟩ ⟨16, [98], [2, 0, 0, 0]⟩ 1
      hscope (by decide) rfl rfl (by decide) (by decide) (by decide)⟩

/-! ## Stepping with `BSON_Fetch(NULL)` -/

theorem memcmp_zero (data : List Nat) (s : Int) (s2 : List Nat) :
    memcmp data s s2 0 = .done false := by
  unfold memcmp
  rw [if_pos rfl]

/-- What the code does on every well-formed scope: from an element of one of the search kinds,
the last one included, `BSON_Fetch(NULL)` succeeds and sets the position to the first byte
after the element, which for the last element is the terminator of the scope. -/
theorem BSON_Fetch_null_steps_over (d : BSON_Document) (before after : List Nat)
    (pre post : List Element) (cur : Element) (fuel : Nat)
    (hscope : WellFormedScope d before (pre ++ cur :: post) after)
    (hk : cur.tag ∈ searchKinds) (hfuel : 0 < fuel) :
    BSON_Fetch fuel none
        (some (scopeContext d before (pre ++ cur :: post) (elementsBytes pre).length))
      = .done (BSON_OPERATION_SUCCESS,
          some (scopeContext d before (pre ++ cur :: post)
            ((elementsBytes pre).length + cur.bytes.length))) := by
  obtain ⟨hdata, hsize, hsmall, hwf⟩ := hscope
  obtain ⟨f, rfl⟩ : ∃ f, fuel = f + 1 := ⟨fuel - 1, by omega⟩
  have hcl := cur.length_bytes
  have hbytes : elementsBytes (pre ++ cur :: post)
      = elementsBytes pre ++ (cur.bytes ++ elementsBytes post) := by
    simp only [elementsBytes_append, elementsBytes_cons]
  have hlenall := congrArg List.length hdata
  rw [hbytes] at hlenall
  simp only [List.length_append, List.length_cons] at hlenall
  have hsz : ((elementsBytes (pre ++ cur :: post)).length : Int)
      = (elementsBytes pre).length + (cur.bytes.length + (elementsBytes post).length) := by
    rw [hbytes]; simp only [List.length_append]; push_cast; rfl
  have hd : d.data.drop (before.length + (elementsBytes pre).length)
      = cur.bytes ++ (elementsBytes post ++ 0 :: after) := by
    have h1 : d.data = (before ++ elementsBytes pre) ++ (cur.bytes ++
        (elementsBytes post ++ 0 :: after)) := by
      rw [hdata, hbytes]; simp only [List.append_assoc]
    have h2 := List.drop_left (before ++ elementsBytes pre)
      (cur.bytes ++ (elementsBytes post ++ 0 :: after))
    rw [← h1, List.length_append] at h2
    exact h2
  unfold scopeContext
  rw [BSON_Fetch_of_valid (f + 1) none (by rw [hsize]; omega)]
  rw [show name_len_fetch none = 0 from rfl, BSON_Fetch_loop,
    @BSON_Fetch_skip_element d.data _ _ _ (before.length + (elementsBytes pre).length) cur
      (elementsBytes post ++ 0 :: after) (by push_cast; rfl) hd (hwf cur (by simp)) hk hsmall
      (by omega) (by omega)]
  simp only [Outcome.done_bind]
  rw [if_neg (by omega), memcmp_zero]
  simp only [Outcome.done_bind, Bool.false_eq_true, if_false, Outcome.pure_eq]
  congr 4
  push_cast
  omega

/-! ## Concrete runs -/

/-- C4, at the failing input: in the sub-document `{"a": 1, "b": 2}` of `doc_nested` (elements
at offsets 11 and 18, terminator at offset 25) `BSON_Fetch(NULL)` moves from 11 to 18, then
succeeds once more and leaves the cursor on the terminator at offset 25, which is the tag
byte of no element; only the third call returns `BSON_POS_OUT_OF_RANGE`. -/
theorem BSON_Fetch_null_walk_reaches_terminator :
    BSON_Fetch 1 none (some ctx_nested)
      = .done (BSON_OPERATION_SUCCESS, some (mkContext doc_nested 11 18 19)) ∧
    BSON_Fetch 1 none (some (mkContext doc_nested 11 18 19))
      = .done (BSON_OPERATION_SUCCESS, some (mkContext doc_nested 11 25 19)) ∧
    BSON_Fetch 1 none (some (mkContext doc_nested 11 25 19))
      = .done (BSON_POS_OUT_OF_RANGE, some (mkContext doc_nested 11 25 19)) ∧
    doc_nested.data.drop 11 =
      elementsBytes [⟨16, [97], [1, 0, 0, 0]⟩, ⟨16, [98], [2, 0, 0, 0]⟩]
        ++ 0 :: [16, 122, 0, 5, 0, 0, 0, 0] := by
  decide

/-- C5, at the failing input: in `{"t": datetime 1, "a": 1}` the datetime element starts at
offset 4 and its sibling at offset 15 (1 + 1 + 1 + 8 bytes further); `BSON_Fetch(NULL)` from
offset 4 succeeds with the cursor at offset 8, inside the payload of the datetime: the table
`typicalOffsets` holds 1 for the tag `0x09`. -/
theorem BSON_Fetch_null_over_datetime :
    BSON_Fetch 1 none (some (mkContext doc_datetime 4 4 23))
      = .done (BSON_OPERATION_SUCCESS, some (mkContext doc_datetime 4 8 23)) ∧
    typicalOffsets_at 0x09 = .done 1 ∧
    doc_datetime.data.drop 4 =
      elementsBytes [⟨9, [116], [1, 0, 0, 0, 0, 0, 0, 0]⟩, ⟨16, [97], [1, 0, 0, 0]⟩] ++ [0] := by
  decide

/-- C7, at the failing input: in the sub-document `{"a": 1, "b": 2}` of `doc_nested` no element
is named by the bytes `0x10 0x7a`; `BSON_Fetch` with that name returns success with the cursor
on the terminator of the sub-document (offset 25): the bytes compared are the tag and the
name of the element `z` of the parent, at offsets 26 to 28. -/
theorem BSON_Fetch_matches_parent_bytes :
    BSON_Fetch 2 (some [16, 122]) (some ctx_nested)
      = .done (BSON_OPERATION_SUCCESS, some (mkContext doc_nested 11 25 19)) ∧
    readBytes doc_nested.data 26 3 = .done [16, 122, 0] ∧
    doc_nested.data.drop 11 =
      elementsBytes [⟨16, [97], [1, 0, 0, 0]⟩, ⟨16, [98], [2, 0, 0, 0]⟩]
        ++ 0 :: [16, 122, 0, 5, 0, 0, 0, 0] := by
  decide

/-- C10, at the failing input: in `{"x": int64 7, "y": 1}` the int64 element starts at offset
4, its name has 1 byte and its sibling starts at offset 15 = 4 + 1 + 1 + 1 + 8;
`BSON_Extract_Int64` returns 7 and leaves the cursor at offset 11 = 4 + 1 + 1 + 1 + 4, inside
the payload. -/
theorem BSON_Extract_Int64_advances_four :
    BSON_Extract_Int64 1 (some [120]) (some (mkContext doc_int64 4 4 23))
      = .done (BSON_OPERATION_SUCCESS, some (mkContext doc_int64 4 11 23), some 7) ∧
    doc_int64.data.drop 4 =
      elementsBytes [⟨18, [120], [7, 0, 0, 0, 0, 0, 0, 0]⟩, ⟨16, [121], [1, 0, 0, 0]⟩] ++ [0] := by
  decide

/-! ## Witnesses -/

/-- C6, witness: in `{"a": 1, "ab": "x", "a": 2}` with the cursor on the first `a`, the search
for `a` steps over `ab` and stops on the second `a`, at offset 21. -/
theorem BSON_Fetch_by_name_finds_first_later_witness :
    WellFormedScope doc_search [29, 0, 0, 0]
        ([] ++ ⟨16, [97], [1, 0, 0, 0]⟩ ::
          ([⟨2, [97, 98], [2, 0, 0, 0, 120, 0]⟩] ++ ⟨16, [97], [2, 0, 0, 0]⟩ :: [])) [] ∧
    BSON_Fetch 2 (some [97])
        (some (scopeContext doc_search [29, 0, 0, 0]
          ([] ++ ⟨16, [97], [1, 0, 0, 0]⟩ ::
            ([⟨2, [97, 98], [2, 0, 0, 0, 120, 0]⟩] ++ ⟨16, [97], [2, 0, 0, 0]⟩ :: []))
          (elementsBytes []).length))
      = .done (BSON_OPERATION_SUCCESS,
          some (scopeContext doc_search [29, 0, 0, 0]
            ([] ++ ⟨16, [97], [1, 0, 0, 0]⟩ ::
              ([⟨2, [97, 98], [2, 0, 0, 0, 120, 0]⟩] ++ ⟨16, [97], [2, 0, 0, 0]⟩ :: []))
            (elementsBytes ([] ++ ⟨16, [97], [1, 0, 0, 0]⟩ ::
              [⟨2, [97, 98], [2, 0, 0, 0, 120, 0]⟩])).length)) :=
  have hscope : WellFormedScope doc_search [29, 0, 0, 0]
      ([] ++ ⟨16, [97], [1, 0, 0, 0]⟩ ::
        ([⟨2, [97, 98], [2, 0, 0, 0, 120, 0]⟩] ++ ⟨16, [97], [2, 0, 0, 0]⟩ :: [])) [] := by decide
  ⟨hscope,
    BSON_Fetch_by_name_finds_first_later doc_search [29, 0, 0, 0] [] []
      [⟨2, [97, 98], [2, 0, 0, 0, 120, 0]⟩] [] ⟨16, [97], [1, 0, 0, 0]⟩ ⟨16, [97], [2, 0, 0, 0]⟩ 2
      hscope (by decide) (by decide) (by decide)⟩

/-- The call `BSON_Extract_Int32` by the name `b` in the sub-document of `doc_nested`. -/
theorem BSON_Extract_success_tag_and_name_witness :
    BSON_Extract .Int32 5 (some [98]) (some ctx_nested)
      = .done (BSON_OPERATION_SUCCESS, some (mkContext doc_nested 11 25 19),
          some (Value.int32 2)) ∧
    ∃ (d : BSON_Document) (sp p sz q len : Int), some ctx_nested = some (mkContext d sp p sz) ∧
      readByte d.data q = .done Kind.Int32.tag ∧
      (∀ nm, some [98] = some nm → len = (nm.length : Int) + 1 ∧
        readBytes d.data (q + 1) (nm.length + 1) = .done (nm ++ [0])) ∧
      ((some [98] : Option (List Nat)) = none →
        BSON_Get_Name_Length q d.data sp sz = .done len) ∧
      Kind.Int32.tail d sp q sz len
        = .done (BSON_OPERATION_SUCCESS, some (mkContext doc_nested 11 25 19),
            some (Value.int32 2)) :=
  ⟨by decide,
    BSON_Extract_success_tag_and_name .Int32 5 (some [98]) (some ctx_nested) _ _
      (fun nm h => by cases h; decide) (by decide)⟩

/-- C9, witness: with the cursor on the terminator of the sub-document of `doc_nested`,
`BSON_Extract_Int32` by the name `a` returns `BSON_POS_OUT_OF_RANGE`. -/
theorem BSON_Extract_out_of_range_restores_witness :
    BSON_Extract .Int32 5 (some [97]) (some (mkContext doc_nested 11 25 19))
      = .done (BSON_POS_OUT_OF_RANGE, some (mkContext doc_nested 11 25 19), none) ∧
    ((some (mkContext doc_nested 11 25 19) : Option BSON_Context)
        = some (mkContext doc_nested 11 25 19) ∧
      (none : Option Value) = none) :=
  ⟨by decide,
    BSON_Extract_out_of_range_restores .Int32 5 (some [97])
      (some (mkContext doc_nested 11 25 19)) _ _ (by decide)⟩

/-! ## `BSON_Check_Context` and the entry points -/

/-- The check of the code refuses exactly the contexts the specification lists. -/
theorem BSON_Check_Context_eq_bad_iff (c : Option BSON_Context) :
    BSON_Check_Context c = BSON_BAD_CONTEXT ↔ BadContext c := by
  cases c with
  | none => simp [BSON_Check_Context, BadContext]
  | some c =>
    obtain ⟨doc, sp, p, sz⟩ := c
    cases doc with
    | none => simp [BSON_Check_Context, BadContext]
    | some d =>
      cases sp with
      | none => simp [BSON_Check_Context, BadContext, unsetOrOutside]
      | some sp =>
        cases p with
        | none => simp [BSON_Check_Context, BadContext, unsetOrOutside]
        | some p =>
          simp only [BSON_Check_Context, BadContext, unsetOrOutside]
          by_cases h : p < 0 ∨ p > d.size ∨ sp < 0 ∨ sp > d.size
          · rw [if_pos h]
            simp only [true_iff]
            omega
          · rw [if_neg h]
            simp only [reduceCtorEq, false_iff]
            omega

theorem BSON_Check_Context_cases (c : Option BSON_Context) :
    BSON_Check_Context c = BSON_BAD_CONTEXT ∨ BSON_Check_Context c = BSON_OPERATION_SUCCESS := by
  unfold BSON_Check_Context
  split
  · split
    · exact Or.inl rfl
    · exact Or.inr rfl
  · exact Or.inl rfl

theorem BSON_Open_of_bad (fuel : Nat) (name : Option (List Nat)) {c : Option BSON_Context}
    (child : Option BSON_Context) (h : BSON_Check_Context c = BSON_BAD_CONTEXT) :
    BSON_Open fuel name c child = .done (BSON_BAD_CONTEXT, child) := by
  unfold BSON_Open
  rw [if_pos h]

theorem BSON_Extract_with_of_bad {α : Type} (tag : Nat)
    (tail : BSON_Document → Int → Int → Int → Int →
      Outcome (BSON_ERROR × Option BSON_Context × Option α))
    (fuel : Nat) (name : Option (List Nat)) {c : Option BSON_Context}
    (h : BSON_Check_Context c = BSON_BAD_CONTEXT) :
    BSON_Extract_with tag tail fuel name c = .done (BSON_BAD_CONTEXT, c, none) := by
  unfold BSON_Extract_with
  rw [if_pos h]

/-- C17: `BSON_Check_Context` returns `BSON_BAD_CONTEXT` exactly for a context that is absent,
has an unset document, startPosition or position, or has its position or startPosition outside
`[document.start, document.start + document.size]`, and `BSON_OPERATION_SUCCESS` for every
other one; with such a context `BSON_Fetch`, `BSON_Open` (as the parent) and the seven typed
extractors return `BSON_BAD_CONTEXT` and leave the context and the result as they were,
whatever the buffer holds and with no step of any loop taken. -/
theorem BSON_Check_Context_refuses_bad_context (c : Option BSON_Context) (fuel : Nat)
    (name : Option (List Nat)) (child : Option BSON_Context) :
    (BadContext c → BSON_Check_Context c = BSON_BAD_CONTEXT) ∧
    (¬ BadContext c → BSON_Check_Context c = BSON_OPERATION_SUCCESS) ∧
    (BadContext c →
      BSON_Fetch fuel name c = .done (BSON_BAD_CONTEXT, c) ∧
      BSON_Open fuel name c child = .done (BSON_BAD_CONTEXT, child) ∧
      BSON_Extract_Int32 fuel name c = .done (BSON_BAD_CONTEXT, c, none) ∧
      BSON_Extract_Int64 fuel name c = .done (BSON_BAD_CONTEXT, c, none) ∧
      BSON_Extract_Double fuel name c = .done (BSON_BAD_CONTEXT, c, none) ∧
      BSON_Extract_String fuel name c = .done (BSON_BAD_CONTEXT, c, none) ∧
      BSON_Extract_Binary fuel name c = .done (BSON_BAD_CONTEXT, c, none) ∧
      BSON_Extract_Boolean fuel name c = .done (BSON_BAD_CONTEXT, c, none) ∧
      BSON_Extract_DateTime fuel name c = .done (BSON_BAD_CONTEXT, c, none)) := by
  refine ⟨(BSON_Check_Context_eq_bad_iff c).mpr, ?_, ?_⟩
  · intro h
    rcases BSON_Check_Context_cases c with hb | hs
    · exact absurd ((BSON_Check_Context_eq_bad_iff c).mp hb) h
    · exact hs
  · intro h
    have hb := (BSON_Check_Context_eq_bad_iff c).mpr h
    exact ⟨BSON_Fetch_of_bad fuel name hb, BSON_Open_of_bad fuel name child hb,
      BSON_Extract_with_of_bad _ _ fuel name hb, BSON_Extract_with_of_bad _ _ fuel name hb,
      BSON_Extract_with_of_bad _ _ fuel name hb, BSON_Extract_with_of_bad _ _ fuel name hb,
      BSON_Extract_with_of_bad _ _ fuel name hb, BSON_Extract_with_of_bad _ _ fuel name hb,
      BSON_Extract_with_of_bad _ _ fuel name hb⟩

/-- The context of `doc_single` with the position one byte behind the end of the document is
refused by the check and by `BSON_Fetch`, which leaves it as it was; the context with the
position at the end of the document passes the check. -/
theorem BSON_Check_Context_refuses_bad_context_witness :
    BadContext (some (mkContext doc_single 4 13 12)) ∧
    BSON_Check_Context (some (mkContext doc_single 4 13 12)) = BSON_BAD_CONTEXT ∧
    BSON_Fetch 0 none (some (mkContext doc_single 4 13 12)) =
      .done (BSON_BAD_CONTEXT, some (mkContext doc_single 4 13 12)) ∧
    ¬ BadContext (some (mkContext doc_single 4 12 12)) ∧
    BSON_Check_Context (some (mkContext doc_single 4 12 12)) = BSON_OPERATION_SUCCESS :=
  ⟨by decide,
   (BSON_Check_Context_refuses_bad_context (some (mkContext doc_single 4 13 12)) 0 none
      none).1 (by decide),
   ((BSON_Check_Context_refuses_bad_context (some (mkContext doc_single 4 13 12)) 0 none
      none).2.2 (by decide)).1,
   by decide,
   (BSON_Check_Context_refuses_bad_context (some (mkContext doc_single 4 12 12)) 0 none
      none).2.1 (by decide)⟩

/-! ## What `BSON_Open` returns -/

/-- The checks of `BSON_Open` on the field located at `q`: either the name length exceeds the
document size, or the length `S` of the sub-document is read behind the name and the byte
`S - 5` behind the first byte after that length decides between `BSON_MEMORY_CORRUPTED` and
success with the child context. -/
theorem BSON_Open_check_result {len0 : Int} {d : BSON_Document} {sp sz : Int}
    {child : BSON_Context} {q : Int} {e : BSON_ERROR} {c : Option BSON_Context}
    (h : BSON_Open_check len0 d sp sz child q = .done (e, c)) :
    ∃ len, (if len0 ≠ 0 then pure len0 else BSON_Get_Name_Length q d.data sp sz) = .done len ∧
      ((len > d.size ∧ e = BSON_MEMORY_CORRUPTED ∧ c = some child) ∨
       (¬ len > d.size ∧ ∃ S last, READ_INT_32 d.data (q + len + 1) = .done S ∧
          readByte d.data (q + (len + 1 + 4) + S - 5) = .done last ∧
          ((last ≠ 0 ∧ e = BSON_MEMORY_CORRUPTED ∧ c = some child) ∨
           (last = 0 ∧ e = BSON_OPERATION_SUCCESS ∧
              c = some ⟨child.document, some (q + (len + 1 + 4)), some (q + (len + 1 + 4)),
                S⟩)))) := by
  rw [BSON_Open_check] at h
  obtain ⟨len, hlen, h⟩ := Outcome.bind_eq_done h
  refine ⟨len, hlen, ?_⟩
  by_cases hbig : len > d.size
  · rw [if_pos hbig] at h
    simp only [Outcome.pure_eq, Outcome.done.injEq, Prod.mk.injEq] at h
    exact Or.inl ⟨hbig, h.1.symm, h.2.symm⟩
  · rw [if_neg hbig] at h
    obtain ⟨S, hS, h⟩ := Outcome.bind_eq_done h
    obtain ⟨s1, hs1, h⟩ := Outcome.bind_eq_done h
    obtain ⟨s2, hs2, h⟩ := Outcome.bind_eq_done h
    obtain ⟨last, hlast, h⟩ := Outcome.bind_eq_done h
    have e1 : s1 = len + 1 := by
      unfold int_add at hs1
      split at hs1
      · simp only [Outcome.done.injEq] at hs1; exact hs1.symm
      · exact absurd hs1 (by simp)
    have e2 : s2 = s1 + 4 := by
      unfold int_add at hs2
      split at hs2
      · simp only [Outcome.done.injEq] at hs2; exact hs2.symm
      · exact absurd hs2 (by simp)
    subst e2 e1
    refine Or.inr ⟨hbig, S, last, hS, hlast, ?_⟩
    by_cases hz : last ≠ 0
    · rw [if_pos hz] at h
      simp only [Outcome.pure_eq, Outcome.done.injEq, Prod.mk.injEq] at h
      exact Or.inl ⟨hz, h.1.symm, h.2.symm⟩
    · rw [if_neg hz] at h
      simp only [Outcome.pure_eq, Outcome.done.injEq, Prod.mk.injEq] at h
      exact Or.inr ⟨by simpa using hz, h.1.symm, h.2.symm⟩

/-- The function `BSON_Open` on a parent that passes the check and a child that is given. -/
theorem BSON_Open_of_valid (fuel : Nat) (name : Option (List Nat)) {d : BSON_Document}
    {sp p sz : Int} (child0 : BSON_Context)
    (h : 0 ≤ p ∧ p ≤ d.size ∧ 0 ≤ sp ∧ sp ≤ d.size) :
    BSON_Open fuel name (some (mkContext d sp p sz)) (some child0) =
      (do
        let len ← name_len name
        let differs ← memcmp d.data (p + 1) (cstring name) len
        if differs then do
          let fetched ← BSON_Fetch fuel name (some (mkContext d sp p sz))
          if fetched.1 = BSON_POS_OUT_OF_RANGE then pure (BSON_POS_OUT_OF_RANGE, fetched.2)
          else
            match fetched.2 with
            | some ⟨some d1, sp1, some currentPos, sz1⟩ =>
                BSON_Open_check len d sp sz ⟨some d1, sp1, some currentPos, sz1⟩ currentPos
            | _ => .undefined
        else BSON_Open_check len d sp sz (mkContext d sp p sz) p) := by
  unfold BSON_Open
  rw [BSON_Check_Context_mk h, if_neg (by decide)]
  rfl

/-- Every way `BSON_Open` returns on a parent that passes the check: the search by name gives
up, which leaves in the child a copy of the parent; or a field is located at `q`, the
position of the parent or a position the search stopped at, where the name compared equal,
and the checks of the sub-document decide. -/
theorem BSON_Open_result {fuel : Nat} {name : Option (List Nat)} {d : BSON_Document}
    {sp p sz : Int} {child0 : BSON_Context} {e : BSON_ERROR} {c : Option BSON_Context}
    (hv : 0 ≤ p ∧ p ≤ d.size ∧ 0 ≤ sp ∧ sp ≤ d.size)
    (h : BSON_Open fuel name (some (mkContext d sp p sz)) (some child0) = .done (e, c)) :
    (e = BSON_POS_OUT_OF_RANGE ∧ c = some (mkContext d sp p sz)) ∨
    (∃ q len0, name_len name = .done len0 ∧
      memcmp d.data (q + 1) (cstring name) len0 = .done false ∧
      (name = none → q = p) ∧
      BSON_Open_check len0 d sp sz (mkContext d sp q sz) q = .done (e, c)) := by
  rw [BSON_Open_of_valid fuel name child0 hv] at h
  obtain ⟨len0, hlen0, h⟩ := Outcome.bind_eq_done h
  obtain ⟨differs, hcmp, h⟩ := Outcome.bind_eq_done h
  cases differs with
  | false =>
    rw [if_neg (by simp)] at h
    exact Or.inr ⟨p, len0, hlen0, hcmp, fun _ => rfl, h⟩
  | true =>
    rw [if_pos rfl] at h
    obtain ⟨⟨e1, c1⟩, hf, h⟩ := Outcome.bind_eq_done h
    have hnn : name ≠ none := by
      intro hn
      subst hn
      rw [name_len_none] at hlen0
      simp only [Outcome.done.injEq] at hlen0
      subst hlen0
      rw [memcmp_zero] at hcmp
      simp at hcmp
    rcases BSON_Fetch_result hf with ⟨_, _, hbad⟩ | ⟨he, hc⟩ | ⟨he, q, hc, _, hm⟩
    · rw [BSON_Check_Context_mk hv] at hbad
      exact absurd hbad (by decide)
    · subst he hc
      rw [if_pos rfl] at h
      simp only [Outcome.pure_eq, Outcome.done.injEq, Prod.mk.injEq] at h
      exact Or.inl ⟨h.1.symm, h.2.symm⟩
    · subst he hc
      rw [if_neg (by simp)] at h
      rw [name_len_fetch_of_name_len hlen0] at hm
      exact Or.inr ⟨q, len0, hlen0, hm, fun hn => absurd hn hnn, h⟩

/-- A successful `BSON_Open` (the name, if given, fitting an `int`) has located a field at an
element start `q` (with a name given, `q + 1` holds the bytes of the name and a NUL; without,
`q` is the position of the parent), has read the length `S` behind the name and its NUL, and
gives the child the document of the parent, the first byte after that length as startPosition
and position, and `S` as size. -/
theorem BSON_Open_success {fuel : Nat} {name : Option (List Nat)}
    {parent child0 : BSON_Context} {child : Option BSON_Context}
    (hname : ∀ nm, name = some nm → nm.length < 2147483647)
    (h : BSON_Open fuel name (some parent) (some child0) =
      .done (BSON_OPERATION_SUCCESS, child)) :
    ∃ (d : BSON_Document) (sp p sz q len S : Int), parent = mkContext d sp p sz ∧
      (0 ≤ p ∧ p ≤ d.size ∧ 0 ≤ sp ∧ sp ≤ d.size) ∧
      (∀ nm, name = some nm → len = (nm.length : Int) + 1 ∧
        readBytes d.data (q + 1) (nm.length + 1) = .done (nm ++ [0])) ∧
      (name = none → q = p ∧ BSON_Get_Name_Length q d.data sp sz = .done len) ∧
      READ_INT_32 d.data (q + len + 1) = .done S ∧
      readByte d.data (q + len + 1 + S - 1) = .done 0 ∧
      child = some (mkContext d (q + len + 1 + 4) (q + len + 1 + 4) S) := by
  by_cases hbad : BSON_Check_Context (some parent) = BSON_BAD_CONTEXT
  · rw [BSON_Open_of_bad fuel name _ hbad] at h
    simp at h
  · obtain ⟨d, sp, p, sz, hp, hv⟩ := BSON_Check_Context_ne_bad hbad
    simp only [Option.some.injEq] at hp
    subst hp
    rcases BSON_Open_result hv h with ⟨he, _⟩ | ⟨q, len0, hlen0, hcmp, hq, hchk⟩
    · exact absurd he (by decide)
    · obtain ⟨len, hlen, hbig | ⟨_, S, last, hS, hlast, hc | hc⟩⟩ := BSON_Open_check_result hchk
      · exact absurd hbig.2.1 (by decide)
      · exact absurd hc.2.1 (by decide)
      · obtain ⟨hz, _, hc⟩ := hc
        subst hz
        refine ⟨d, sp, p, sz, q, len, S, rfl, hv, ?_, ?_, hS, ?_, ?_⟩
        · intro nm hnm
          subst hnm
          rw [name_len_some (hname nm rfl)] at hlen0
          simp only [Outcome.done.injEq] at hlen0
          subst hlen0
          rw [if_pos (by omega)] at hlen
          simp only [Outcome.pure_eq, Outcome.done.injEq] at hlen
          exact ⟨hlen.symm, memcmp_eq_false hcmp⟩
        · intro hnone
          subst hnone
          rw [name_len_none] at hlen0
          simp only [Outcome.done.injEq] at hlen0
          subst hlen0
          rw [if_neg (by simp)] at hlen
          exact ⟨hq rfl, hlen⟩
        · have e : q + len + 1 + S - 1 = q + (len + 1 + 4) + S - 5 := by omega
          rw [e]; exact hlast
        · rw [hc]
          have e : q + (len + 1 + 4) = q + len + 1 + 4 := by omega
          rw [e]; rfl

/-- What a successful `BSON_Open` has read: when `BSON_Open` returns success on a parent
context (the name, if given, fitting an `int`), the parent passes the check, the search has
stopped at an offset `q` (with a name given, the bytes of the name and a NUL follow the byte
at `q`; without a name, `q` is the position of the parent), `len` is the length of the name
and NUL, and the child has the document of the parent, startPosition and position at
`q + len + 1 + 4` and as size the little-endian 32-bit value read at `q + len + 1`.  The
offset `q` is the start of the field only if every step of the search went over a whole
element. -/
theorem BSON_Open_success_child (fuel : Nat) (name : Option (List Nat))
    (parent child0 : BSON_Context) (child : Option BSON_Context)
    (hname : ∀ nm, name = some nm → nm.length < 2147483647)
    (h : BSON_Open fuel name (some parent) (some child0) =
      .done (BSON_OPERATION_SUCCESS, child)) :
    ∃ (d : BSON_Document) (sp p sz q len S : Int), parent = mkContext d sp p sz ∧
      BSON_Check_Context (some parent) = BSON_OPERATION_SUCCESS ∧
      (∀ nm, name = some nm → len = (nm.length : Int) + 1 ∧
        readBytes d.data (q + 1) (nm.length + 1) = .done (nm ++ [0])) ∧
      (name = none → q = p ∧ BSON_Get_Name_Length q d.data sp sz = .done len) ∧
      READ_INT_32 d.data (q + len + 1) = .done S ∧
      child = some (mkContext d (q + len + 1 + 4) (q + len + 1 + 4) S) := by
  obtain ⟨d, sp, p, sz, q, len, S, hp, hv, h1, h2, h3, _, h5⟩ := BSON_Open_success hname h
  exact ⟨d, sp, p, sz, q, len, S, hp, by rw [hp]; exact BSON_Check_Context_mk hv, h1, h2, h3, h5⟩

/-- On `doc_nested`, from the root context, `BSON_Open("d")` succeeds: the field is at offset
4, its name and NUL take 2 bytes, the length 19 is read at offset 7 and the child starts at
offset 11. -/
theorem BSON_Open_success_child_witness :
    BSON_Open 0 (some [100]) (some (mkContext doc_nested 4 4 34)) (some ⟨none, none, none, 0⟩)
      = .done (BSON_OPERATION_SUCCESS, some ctx_nested) ∧
    ∃ (d : BSON_Document) (sp p sz q len S : Int),
      mkContext doc_nested 4 4 34 = mkContext d sp p sz ∧
      BSON_Check_Context (some (mkContext doc_nested 4 4 34)) = BSON_OPERATION_SUCCESS ∧
      (∀ nm, some [100] = some nm → len = (nm.length : Int) + 1 ∧
        readBytes d.data (q + 1) (nm.length + 1) = .done (nm ++ [0])) ∧
      ((some [100] : Option (List Nat)) = none →
        q = p ∧ BSON_Get_Name_Length q d.data sp sz = .done len) ∧
      READ_INT_32 d.data (q + len + 1) = .done S ∧
      some ctx_nested = some (mkContext d (q + len + 1 + 4) (q + len + 1 + 4) S) :=
  ⟨by decide,
    BSON_Open_success_child 0 (some [100]) (mkContext doc_nested 4 4 34) ⟨none, none, none, 0⟩
      (some ctx_nested) (by intro nm h; cases h; decide) (by decide)⟩

/-! ## The bounds of the document -/

theorem readByte_bounds {data : List Nat} {p : Int} {b : Nat}
    (h : readByte data p = .done b) : 0 ≤ p ∧ p + 1 ≤ data.length := by
  obtain ⟨h0, hg⟩ := readByte_eq_done h
  have hlt : p.toNat < data.length := by
    by_contra hn
    rw [List.getElem?_eq_none (by omega)] at hg
    exact absurd hg (by simp)
  omega

theorem READ_INT_32_bounds {data : List Nat} {p : Int} {v : Int}
    (h : READ_INT_32 data p = .done v) : 0 ≤ p ∧ p + 4 ≤ data.length := by
  unfold READ_INT_32 at h
  obtain ⟨b0, h0, h⟩ := Outcome.bind_eq_done h
  obtain ⟨b1, _, h⟩ := Outcome.bind_eq_done h
  obtain ⟨b2, _, h⟩ := Outcome.bind_eq_done h
  obtain ⟨b3, h3, h⟩ := Outcome.bind_eq_done h
  have := readByte_bounds h0
  have := readByte_bounds h3
  omega

theorem read_bits_64_bounds {data : List Nat} {p : Int} {v : Nat}
    (h : read_bits_64 data p = .done v) : 0 ≤ p ∧ p + 4 ≤ data.length := by
  unfold read_bits_64 at h
  obtain ⟨b0, h0, h⟩ := Outcome.bind_eq_done h
  obtain ⟨b1, _, h⟩ := Outcome.bind_eq_done h
  obtain ⟨b2, _, h⟩ := Outcome.bind_eq_done h
  obtain ⟨b3, h3, h⟩ := Outcome.bind_eq_done h
  have := readByte_bounds h0
  have := readByte_bounds h3
  omega

theorem READ_INT_64_bounds {data : List Nat} {p : Int} {v : Int}
    (h : READ_INT_64 data p = .done v) : 0 ≤ p ∧ p + 4 ≤ data.length := by
  unfold READ_INT_64 at h
  obtain ⟨bits, hb, _⟩ := Outcome.bind_eq_done h
  exact read_bits_64_bounds hb

/-- The tail of a fixed-width extractor whose read covers the bytes it steps over leaves the
position inside the buffer. -/
theorem BSON_Extract_fixed_bounds {α : Type} {read : List Nat → Int → Outcome α} {adv : Int}
    (hadv : 0 ≤ adv)
    (hread : ∀ data p v, read data p = .done v → 0 ≤ p ∧ p + adv ≤ data.length)
    {d : BSON_Document} {sp q sz len : Int} {e : BSON_ERROR} {c : Option BSON_Context}
    {r : Option α} (h : BSON_Extract_fixed read adv d sp q sz len = .done (e, c, r)) :
    ∃ q1, c = some (mkContext d sp q1 sz) ∧ 0 ≤ q1 ∧ q1 ≤ d.data.length := by
  unfold BSON_Extract_fixed at h
  obtain ⟨v, hv, h⟩ := Outcome.bind_eq_done h
  simp only [Outcome.pure_eq, Outcome.done.injEq, Prod.mk.injEq] at h
  have := hread _ _ _ hv
  exact ⟨q + 1 + len + adv, h.2.1.symm, by omega, by omega⟩

/-- The tail of the string and binary extractors leaves the position inside the buffer. -/
theorem BSON_Extract_copy_bounds {d : BSON_Document} {sp q sz len : Int} {e : BSON_ERROR}
    {c : Option BSON_Context} {r : Option (List Nat)}
    (h : BSON_Extract_copy d sp q sz len = .done (e, c, r)) :
    ∃ q1, c = some (mkContext d sp q1 sz) ∧ 0 ≤ q1 ∧ q1 ≤ d.data.length := by
  unfold BSON_Extract_copy at h
  obtain ⟨strSize, hs, h⟩ := Outcome.bind_eq_done h
  by_cases hneg : strSize < 0
  · rw [if_pos hneg] at h; simp at h
  · rw [if_neg hneg] at h
    obtain ⟨bytes, hb, h⟩ := Outcome.bind_eq_done h
    obtain ⟨step, hst, h⟩ := Outcome.bind_eq_done h
    simp only [Outcome.pure_eq, Outcome.done.injEq, Prod.mk.injEq] at h
    have e1 : step = 4 + strSize := by
      unfold int_add at hst
      split at hst
      · simp only [Outcome.done.injEq] at hst; exact hst.symm
      · exact absurd hst (by simp)
    have hin : 0 ≤ strSize ∧ 0 ≤ q + 1 + len + 4 ∧
        q + 1 + len + 4 + strSize ≤ d.data.length := by
      unfold readBytes at hb
      split at hb
      · assumption
      · exact absurd hb (by simp)
    exact ⟨q + 1 + len + step, h.2.1.symm, by omega, by omega⟩

/-- Labelling the value does not change the context. -/
theorem labelled_context {α : Type} {f : α → Value}
    {tail : BSON_Document → Int → Int → Int → Int →
      Outcome (BSON_ERROR × Option BSON_Context × Option α)}
    {d : BSON_Document} {sp q sz len : Int} {e : BSON_ERROR} {c : Option BSON_Context}
    {r : Option Value} (h : labelled f tail d sp q sz len = .done (e, c, r)) :
    ∃ r0, tail d sp q sz len = .done (e, c, r0) := by
  unfold labelled at h
  obtain ⟨⟨e0, c0, r0⟩, hx, h⟩ := Outcome.bind_eq_done h
  simp only [Outcome.pure_eq, Outcome.done.injEq, Prod.mk.injEq] at h
  exact ⟨r0, by rw [hx, h.1, h.2.1]⟩

/-- The tail of every extractor leaves the position inside the buffer. -/
theorem Kind.tail_bounds {k : Kind} {d : BSON_Document} {sp q sz len : Int} {e : BSON_ERROR}
    {c : Option BSON_Context} {r : Option Value}
    (h : k.tail d sp q sz len = .done (e, c, r)) :
    ∃ q1, c = some (mkContext d sp q1 sz) ∧ 0 ≤ q1 ∧ q1 ≤ d.data.length := by
  cases k
  · obtain ⟨r0, h0⟩ := labelled_context h
    exact BSON_Extract_fixed_bounds (by omega) (fun _ _ _ => READ_INT_32_bounds) h0
  · obtain ⟨r0, h0⟩ := labelled_context h
    exact BSON_Extract_fixed_bounds (by omega) (fun _ _ _ => READ_INT_64_bounds) h0
  · obtain ⟨r0, h0⟩ := labelled_context h
    exact BSON_Extract_fixed_bounds (by omega) (fun _ _ _ => read_bits_64_bounds) h0
  · obtain ⟨r0, h0⟩ := labelled_context h
    exact BSON_Extract_copy_bounds h0
  · obtain ⟨r0, h0⟩ := labelled_context h
    exact BSON_Extract_copy_bounds h0
  · obtain ⟨r0, h0⟩ := labelled_context h
    exact BSON_Extract_fixed_bounds (by omega) (fun _ _ _ => readByte_bounds) h0
  · obtain ⟨r0, h0⟩ := labelled_context h
    exact BSON_Extract_fixed_bounds (by omega) (fun _ _ _ => READ_INT_64_bounds) h0

/-- A child written by a successful `BSON_Open` starts inside the buffer. -/
theorem BSON_Open_success_bounds {fuel : Nat} {name : Option (List Nat)} {d : BSON_Document}
    {sp p sz : Int} {child0 : BSON_Context} {c : Option BSON_Context}
    (hv : 0 ≤ p ∧ p ≤ d.size ∧ 0 ≤ sp ∧ sp ≤ d.size)
    (h : BSON_Open fuel name (some (mkContext d sp p sz)) (some child0) =
      .done (BSON_OPERATION_SUCCESS, c)) :
    ∃ q1 S, c = some (mkContext d q1 q1 S) ∧ 4 ≤ q1 ∧ q1 ≤ d.data.length := by
  rcases BSON_Open_result hv h with ⟨he, _⟩ | ⟨q, len0, _, _, _, hchk⟩
  · exact absurd he (by decide)
  · obtain ⟨len, _, hbig | ⟨_, S, last, hS, _, hc | hc⟩⟩ := BSON_Open_check_result hchk
    · exact absurd hbig.2.1 (by decide)
    · exact absurd hc.2.1 (by decide)
    · have := READ_INT_32_bounds hS
      exact ⟨q + (len + 1 + 4), S, hc.2.2, by omega, by omega⟩

/-- C18, at the failing input: `doc_negative` passes `BSON_Init`, the context it gives passes
`BSON_Check_Context`, and `BSON_Fetch(NULL)` on it adds the length -20 of the embedded
document to the cursor and returns success with the position at offset -13, before the start
of the document; the resulting context fails the check. -/
theorem BSON_Fetch_leaves_document :
    BSON_Init (some doc_negative) (some ⟨none, none, none, 0⟩) =
      .done (BSON_OPERATION_SUCCESS, some (mkContext doc_negative 4 4 12)) ∧
    BSON_Check_Context (some (mkContext doc_negative 4 4 12)) = BSON_OPERATION_SUCCESS ∧
    BSON_Fetch 1 none (some (mkContext doc_negative 4 4 12)) =
      .done (BSON_OPERATION_SUCCESS, some (mkContext doc_negative 4 (-13) 12)) ∧
    BSON_Check_Context (some (mkContext doc_negative 4 (-13) 12)) = BSON_BAD_CONTEXT := by
  decide

/-- What the calls keep of the bounds: for every document whose buffer holds no more bytes
than its declared size and every context that passes `BSON_Check_Context`, a child written by
a successful `BSON_Open` and the context after a successful typed extractor pass the check
again; a successful `BSON_Fetch` leaves document, startPosition and size as they were, so that the
startPosition stays inside the document, and says nothing on the position but that the loop
saw it below `startPosition + size`. -/
theorem bounds_after_Open_Extract_Fetch (fuel : Nat) (name : Option (List Nat))
    (d : BSON_Document) (sp p sz : Int) (hbuf : (d.data.length : Int) ≤ d.size)
    (hok : BSON_Check_Context (some (mkContext d sp p sz)) = BSON_OPERATION_SUCCESS) :
    (∀ child0 c, BSON_Open fuel name (some (mkContext d sp p sz)) (some child0) =
        .done (BSON_OPERATION_SUCCESS, c) → BSON_Check_Context c = BSON_OPERATION_SUCCESS) ∧
    (∀ k c r, BSON_Extract k fuel name (some (mkContext d sp p sz)) =
        .done (BSON_OPERATION_SUCCESS, c, r) → BSON_Check_Context c = BSON_OPERATION_SUCCESS) ∧
    (∀ c, BSON_Fetch fuel name (some (mkContext d sp p sz)) =
        .done (BSON_OPERATION_SUCCESS, c) →
        ∃ q, c = some (mkContext d sp q sz) ∧ q < sp + sz ∧ 0 ≤ sp ∧ sp ≤ d.size) := by
  have hne : BSON_Check_Context (some (mkContext d sp p sz)) ≠ BSON_BAD_CONTEXT := by
    rw [hok]; decide
  obtain ⟨d1, sp1, p1, sz1, hctx, hv⟩ := BSON_Check_Context_ne_bad hne
  have hd : d1 = d ∧ sp1 = sp ∧ p1 = p ∧ sz1 = sz := by
    simp only [mkContext, Option.some.injEq, BSON_Context.mk.injEq] at hctx
    exact ⟨hctx.1.symm, hctx.2.1.symm, hctx.2.2.1.symm, hctx.2.2.2.symm⟩
  obtain ⟨rfl, rfl, rfl, rfl⟩ := hd
  refine ⟨?_, ?_, ?_⟩
  · intro child0 c h
    obtain ⟨q1, S, hc, h1, h2⟩ := BSON_Open_success_bounds hv h
    rw [hc]
    exact BSON_Check_Context_mk (by omega)
  · intro k c r h
    rcases BSON_Extract_with_result h with ⟨he, _⟩ | ⟨d2, sp2, p2, sz2, hctx2, _, h1 | h2⟩
    · exact absurd he (by decide)
    · exact absurd h1.1 (by decide)
    · simp only [mkContext, Option.some.injEq, BSON_Context.mk.injEq] at hctx2
      obtain ⟨rfl, rfl, rfl, rfl⟩ := hctx2
      obtain ⟨q, len0, len, _, _, _, _, ht⟩ := h2
      obtain ⟨q1, hc, h1, h2⟩ := Kind.tail_bounds ht
      rw [hc]
      exact BSON_Check_Context_mk (by omega)
  · intro c h
    rcases BSON_Fetch_result h with ⟨he, _⟩ | ⟨he, _⟩ | ⟨_, q, hc, hq, _⟩
    · exact absurd he (by decide)
    · exact absurd he (by decide)
    · exact ⟨q, hc, hq, hv.2.2.1, hv.2.2.2⟩

/-- On `doc_nested`, whose buffer holds its 34 bytes: `BSON_Open("d")` from the root context
gives a child that passes the check. -/
theorem bounds_after_Open_Extract_Fetch_witness :
    BSON_Open 0 (some [100]) (some (mkContext doc_nested 4 4 34)) (some ⟨none, none, none, 0⟩)
      = .done (BSON_OPERATION_SUCCESS, some ctx_nested) ∧
    BSON_Check_Context (some ctx_nested) = BSON_OPERATION_SUCCESS :=
  ⟨by decide,
    (bounds_after_Open_Extract_Fetch 0 (some [100]) doc_nested 4 4 34 (by decide)
      (by decide)).1 ⟨none, none, none, 0⟩ (some ctx_nested) (by decide)⟩

/-! ## `BSON_Extract_String` -/

theorem readBytes_bounds {data : List Nat} {s n : Int} {bytes : List Nat}
    (h : readBytes data s n = .done bytes) : 0 ≤ n ∧ 0 ≤ s ∧ s + n ≤ data.length := by
  unfold readBytes at h
  split at h
  · assumption
  · exact absurd h (by simp)

/-- A name that compared equal at an element is the name of the element. -/
theorem name_eq_of_memcmp {data : List Nat} {n : Nat} {ename rest nm : List Nat}
    (hd : data.drop n = ename ++ 0 :: rest) (h1 : 0 ∉ ename) (h2 : 0 ∉ nm)
    (h : memcmp data (n : Int) (cstring (some nm)) (nm.length + 1) = .done false) :
    ename = nm := by
  have hb := readBytes_bounds (memcmp_eq_false h)
  rw [memcmp_at_element rfl hd h1 h2 (by omega)] at h
  simpa using h

/-- The tail of `BSON_Extract_String` at an element whose payload starts with the length of
what follows it: the bytes after the 4-byte length are copied and the position moves to the
first byte after them. -/
theorem BSON_Extract_copy_at_element {d : BSON_Document} {sp sz : Int} {n : Nat} {e : Element}
    {rest : List Nat} (hd : d.data.drop n = e.bytes ++ rest)
    (hL : READ_INT_32 e.payload 0 = .done ((e.payload.length : Int) - 4))
    (hsmall : d.data.length < 2147483648) :
    BSON_Extract_copy d sp n sz (e.name.length + 1) =
      .done (BSON_OPERATION_SUCCESS, some (mkContext d sp ((n : Int) + e.bytes.length) sz),
        some (e.payload.drop 4)) := by
  have hel := e.length_bytes
  have h4 := length_of_READ_INT_32 hL
  have hlen := length_of_drop_eq hd (by simp [Element.bytes])
  simp only [List.length_append] at hlen
  have hd2 : d.data.drop (n + (1 + e.name.length + 1)) = e.payload ++ rest := by
    have h1 : d.data.drop n = (e.tag :: (e.name ++ [0])) ++ (e.payload ++ rest) := by
      rw [hd]
      simp only [Element.bytes, List.cons_append, List.append_assoc, List.singleton_append,
        List.nil_append]
    have h2 := drop_add_of_drop_eq_append h1
    simp only [List.length_cons, List.length_append, List.length_nil] at h2
    rw [← h2]; congr 1; omega
  unfold BSON_Extract_copy
  dsimp only
  rw [READ_INT_32_of_payload (m := n + (1 + e.name.length + 1)) (by push_cast; omega) hd2 hL]
  simp only [Outcome.done_bind]
  rw [if_neg (by omega)]
  have hrb : readBytes d.data ((n : Int) + 1 + ((e.name.length : Int) + 1) + 4)
      ((e.payload.length : Int) - 4) = .done (e.payload.drop 4) := by
    unfold readBytes
    rw [if_pos (by omega)]
    have e1 : ((n : Int) + 1 + ((e.name.length : Int) + 1) + 4).toNat
        = (n + (1 + e.name.length + 1)) + 4 := by omega
    have e2 : ((e.payload.length : Int) - 4).toNat = (e.payload.drop 4).length := by
      rw [List.length_drop]; omega
    rw [e1, e2, ← List.drop_drop, hd2, List.drop_append_of_le_length h4, List.take_left]
  rw [hrb]
  simp only [Outcome.done_bind]
  rw [int_add_of_range (by omega) (by omega)]
  simp only [Outcome.done_bind, Outcome.pure_eq]
  have hpos : (n : Int) + 1 + ((e.name.length : Int) + 1) + (4 + ((e.payload.length : Int) - 4))
      = (n : Int) + e.bytes.length := by
    rw [hel]; push_cast; omega
  rw [hpos]
  rfl

/-- The call `BSON_Extract_String` whose search ends on the well-formed string element
`target` at offset `n`. -/
theorem BSON_Extract_String_located {fuel : Nat} {name : Option (List Nat)}
    {d : BSON_Document} {sp p sz : Int} {n : Nat} {target : Element} {rest : List Nat}
    {len0 : Int}
    (hv : 0 ≤ p ∧ p ≤ d.size ∧ 0 ≤ sp ∧ sp ≤ d.size)
    (hname : ∀ nm, name = some nm → 0 ∉ nm ∧ nm.length < 2147483647)
    (hlen : name_len name = .done len0)
    (hfound : BSON_Extract_search fuel 0x02 name len0 d sp p sz =
      .done (true, some (mkContext d sp (n : Int) sz)))
    (hd : d.data.drop n = target.bytes ++ rest)
    (htag : target.tag = 0x02) (hwf : target.WellFormed)
    (hsmall : d.data.length < 2147483648)
    (hlo : (n : Int) + target.name.length + 1 ≤ sp + sz)
    (hhi : sp + sz - n < 18446744073709551616) :
    BSON_Extract_String fuel name (some (mkContext d sp p sz)) =
      .done (BSON_OPERATION_SUCCESS,
        some (mkContext d sp ((n : Int) + target.bytes.length) sz),
        some (target.payload.drop 4)) := by
  have hL : READ_INT_32 target.payload 0 = .done ((target.payload.length : Int) - 4) := by
    have := hwf.2
    rw [htag] at this
    simpa [payloadOK] using this
  have hd1 : d.data.drop n = target.tag :: (target.name ++ 0 :: (target.payload ++ rest)) := by
    rw [hd]; simp only [Element.bytes, List.cons_append, List.append_assoc]
  unfold BSON_Extract_String
  rw [BSON_Extract_with_found 2 _ fuel name hv hlen hfound]
  have hlenEq : (if len0 ≠ 0 then pure len0 else BSON_Get_Name_Length n d.data sp sz)
      = Outcome.done ((target.name.length : Int) + 1) := by
    cases name with
    | none =>
      rw [name_len_none] at hlen
      simp only [Outcome.done.injEq] at hlen
      subst hlen
      rw [if_neg (by simp)]
      exact BSON_Get_Name_Length_at_element rfl hd1 hwf.1 hsmall hlo hhi
    | some nm =>
      obtain ⟨h0, hl⟩ := hname nm rfl
      rw [name_len_some hl] at hlen
      simp only [Outcome.done.injEq] at hlen
      subst hlen
      rw [if_pos (by omega), Outcome.pure_eq]
      have hok : BSON_Check_Context (some (mkContext d sp p sz)) ≠ BSON_BAD_CONTEXT := by
        rw [BSON_Check_Context_mk hv]; decide
      rcases BSON_Extract_search_result hok (name_len_some hl) hfound with
        ⟨hf, _⟩ | ⟨_, q, hq, _, hm⟩
      · exact absurd hf (by decide)
      · simp only [mkContext, Option.some.injEq, BSON_Context.mk.injEq, true_and,
          and_true] at hq
        subst hq
        have hdn : d.data.drop (n + 1) = target.name ++ 0 :: (target.payload ++ rest) :=
          drop_add_of_drop_eq_append (A := [target.tag]) (by simpa using hd1)
        have hm1 : memcmp d.data ((n + 1 : Nat) : Int) (cstring (some nm)) (nm.length + 1)
            = .done false := by
          rw [← hm]; congr 1
        rw [name_eq_of_memcmp hdn hwf.1 h0 hm1]
  rw [hlenEq, Outcome.done_bind]
  exact BSON_Extract_copy_at_element hd hL hsmall

/-- C11: when the search of `BSON_Extract_String` (by a name without NUL that fits an `int`,
or by `NULL`) ends on a well-formed string element at offset `n` of the buffer (tag 0x02, a
name, a 4-byte length and that many bytes, all inside the scope), the call returns success,
the extracted bytes are the payload behind its 4-byte length, their number is the length read
from the buffer, and the cursor is at the first byte after the element. -/
theorem BSON_Extract_String_exact (fuel : Nat) (name : Option (List Nat))
    (d : BSON_Document) (sp p sz : Int) (n : Nat) (target : Element) (rest : List Nat)
    (len0 : Int)
    (hv : BSON_Check_Context (some (mkContext d sp p sz)) = BSON_OPERATION_SUCCESS)
    (hname : ∀ nm, name = some nm → 0 ∉ nm ∧ nm.length < 2147483647)
    (hlen : name_len name = .done len0)
    (hfound : BSON_Extract_search fuel 0x02 name len0 d sp p sz =
      .done (true, some (mkContext d sp (n : Int) sz)))
    (hd : d.data.drop n = target.bytes ++ rest)
    (htag : target.tag = 0x02) (hwf : target.WellFormed)
    (hsmall : d.data.length < 2147483648)
    (hlo : (n : Int) + target.name.length + 1 ≤ sp + sz)
    (hhi : sp + sz - n < 18446744073709551616) :
    BSON_Extract_String fuel name (some (mkContext d sp p sz)) =
      .done (BSON_OPERATION_SUCCESS,
        some (mkContext d sp ((n : Int) + target.bytes.length) sz),
        some (target.payload.drop 4)) ∧
    READ_INT_32 d.data ((n : Int) + 1 + target.name.length + 1) =
      .done ((target.payload.drop 4).length : Int) := by
  have hne : BSON_Check_Context (some (mkContext d sp p sz)) ≠ BSON_BAD_CONTEXT := by
    rw [hv]; decide
  obtain ⟨d1, sp1, p1, sz1, hctx, hb⟩ := BSON_Check_Context_ne_bad hne
  simp only [mkContext, Option.some.injEq, BSON_Context.mk.injEq] at hctx
  obtain ⟨rfl, rfl, rfl, rfl⟩ := hctx
  refine ⟨BSON_Extract_String_located hb hname hlen hfound hd htag hwf hsmall hlo hhi, ?_⟩
  have hL : READ_INT_32 target.payload 0 = .done ((target.payload.length : Int) - 4) := by
    have := hwf.2
    rw [htag] at this
    simpa [payloadOK] using this
  have h4 := length_of_READ_INT_32 hL
  have hd2 : d.data.drop (n + (1 + target.name.length + 1)) = target.payload ++ rest := by
    have h1 : d.data.drop n
        = (target.tag :: (target.name ++ [0])) ++ (target.payload ++ rest) := by
      rw [hd]
      simp only [Element.bytes, List.cons_append, List.append_assoc, List.singleton_append,
        List.nil_append]
    have h2 := drop_add_of_drop_eq_append h1
    simp only [List.length_cons, List.length_append, List.length_nil] at h2
    rw [← h2]; congr 1; omega
  rw [READ_INT_32_of_payload (m := n + (1 + target.name.length + 1)) (by push_cast; omega)
    hd2 hL]
  congr 1
  rw [List.length_drop]
  omega

/-- On `doc_search`, whose string `"ab": "x"` is at offset 11: `BSON_Extract_String` by the
name `ab`, from the first element, gives the two bytes `x`, NUL behind the length 2 and leaves
the cursor at offset 21. -/
theorem BSON_Extract_String_exact_witness :
    BSON_Extract_String 5 (some [97, 98]) (some (mkContext doc_search 4 4 29)) =
      .done (BSON_OPERATION_SUCCESS,
        some (mkContext doc_search 4
          (((11 : Nat) : Int) + (Element.bytes ⟨2, [97, 98], [2, 0, 0, 0, 120, 0]⟩).length) 29),
        some (List.drop 4 [2, 0, 0, 0, 120, 0])) ∧
    READ_INT_32 doc_search.data
        (((11 : Nat) : Int) + 1 + (Element.name ⟨2, [97, 98], [2, 0, 0, 0, 120, 0]⟩).length + 1) =
      .done ((List.drop 4 (Element.payload ⟨2, [97, 98], [2, 0, 0, 0, 120, 0]⟩)).length : Int) :=
  BSON_Extract_String_exact 5 (some [97, 98]) doc_search 4 4 29 11
    ⟨2, [97, 98], [2, 0, 0, 0, 120, 0]⟩ [16, 97, 0, 2, 0, 0, 0, 0] 3
    (by decide) (by intro nm h; cases h; decide) (by decide) (by decide) (by decide) rfl
    (by decide) (by decide) (by decide) (by decide)

/-! ## `BSON_Extract_Binary` -/

/-- C12, at the failing input: on `doc_binary`, whose binary element holds the three data
bytes 1, 2, 3 behind the subtype byte 0x80, `BSON_Extract_Binary` by the name `b` returns
success with the three bytes 0x80, 1, 2 (the subtype byte and the first two data bytes) and
leaves the cursor at offset 14, on the last data byte, not at offset 15 where the next element
starts. -/
theorem BSON_Extract_Binary_copies_subtype :
    BSON_Extract_Binary 1 (some [98]) (some (mkContext doc_binary 4 4 23)) =
      .done (BSON_OPERATION_SUCCESS, some (mkContext doc_binary 4 14 23), some [128, 1, 2]) ∧
    readBytes doc_binary.data 12 3 = .done [1, 2, 3] ∧
    readByte doc_binary.data 15 = .done 16 := by
  decide

/-! ## The fields of a scope in document order -/

/-- The search of an extractor without a name, on an element that holds the tag, stays where
it is. -/
theorem BSON_Extract_search_at_tag {fuel tag : Nat} {d : BSON_Document} {sp p sz : Int}
    (h : readByte d.data p = .done tag) :
    BSON_Extract_search fuel tag none 0 d sp p sz = .done (true, some (mkContext d sp p sz)) := by
  unfold BSON_Extract_search
  rw [h]
  simp only [Outcome.done_bind]
  rw [if_neg (by simp), memcmp_zero]
  simp only [Outcome.done_bind]
  rw [if_neg (by simp)]
  rfl

/-- The call `BSON_Extract_Int32` by the name of each of the int32 elements `ints` in turn,
the cursor on the first of them: each call succeeds with the value of its element, and the
cursor ends behind the last. -/
theorem extract_ints_run {d : BSON_Document} {sp sz : Int} {fuel : Nat}
    (hsize : d.size = d.data.length) (hsmall : d.data.length < 2147483648)
    (hsp : 0 ≤ sp ∧ sp ≤ d.size) (hhi : sp + sz < 18446744073709551616) :
    ∀ (ints : List Element) (n : Nat) (rest : List Nat),
      d.data.drop n = elementsBytes ints ++ rest →
      (∀ e ∈ ints, e.WellFormed ∧ e.tag = 0x10) →
      (n : Int) + (elementsBytes ints).length ≤ sp + sz →
      extract_ints fuel (ints.map Element.name) (some (mkContext d sp n sz)) =
        .done (ints.map (fun e => (BSON_OPERATION_SUCCESS, some (le_int32 e.payload))),
          some (mkContext d sp ((n : Int) + (elementsBytes ints).length) sz)) := by
  intro ints
  induction ints with
  | nil =>
    intro n rest _ _ _
    simp only [List.map_nil, elementsBytes, List.length_nil, Nat.cast_zero, add_zero]
    rfl
  | cons e es ih =>
    intro n rest hd hwf hlt
    have hel := e.length_bytes
    have he := hwf e (by simp)
    have hpl : e.payload.length = 4 := by
      have := he.1.2
      rw [he.2] at this
      simpa [payloadOK] using this
    have hd0 : d.data.drop n = elementsBytes [] ++ (e.bytes ++ (elementsBytes es ++ rest)) := by
      rw [hd]; simp only [elementsBytes, List.nil_append, List.append_assoc]
    simp only [elementsBytes_cons, List.length_append] at hlt
    have h1 := @BSON_Extract_Int32_finds d sp sz e (elementsBytes es ++ rest) fuel n []
      (le_int32 e.payload) hsize hsmall hsp hhi he.1 he.2 (READ_INT_32_of_length_four hpl) hd0
      (by intro x hx; simp at hx)
      (by simp only [elementsBytes, List.length_nil, Nat.cast_zero, add_zero]; push_cast at hlt;
          omega)
      (by simp)
    simp only [elementsBytes, List.length_nil, Nat.cast_zero, add_zero] at h1
    have hd1 : d.data.drop (n + e.bytes.length) = elementsBytes es ++ rest := by
      apply drop_add_of_drop_eq_append
      rw [hd]; simp only [elementsBytes, List.append_assoc]
    have h2 := ih (n + e.bytes.length) rest hd1 (fun x hx => hwf x (by simp [hx]))
      (by push_cast at hlt ⊢; omega)
    simp only [List.map_cons, extract_ints]
    rw [h1]
    simp only [Outcome.done_bind]
    have hc : ((n : Int) + (e.bytes.length : Int)) = ((n + e.bytes.length : Nat) : Int) := by
      push_cast; rfl
    rw [hc, h2]
    simp only [Outcome.done_bind, Outcome.pure_eq, elementsBytes_cons, List.length_append]
    congr 4
    push_cast
    omega

/-- C13: in every well-formed scope that consists of int32 fields followed by one string
field, from a context with the cursor at the first field, `BSON_Extract_Int32` by the name of
each int32 field in document order and then `BSON_Extract_String(NULL)` all return success;
the values are, in turn, the 4 payload bytes of each int32 field read as a little-endian
two's-complement signed 32-bit integer and then the bytes of the string behind its 4-byte
length.  Neither the number of int32 fields nor their names matter. -/
theorem extract_ints_then_string_in_order (d : BSON_Document) (before after : List Nat)
    (ints : List Element) (str : Element) (fuel : Nat)
    (hscope : WellFormedScope d before (ints ++ [str]) after)
    (hints : ∀ e ∈ ints, e.tag = 0x10) (hstr : str.tag = 0x02) :
    extract_ints_then_string fuel (ints.map Element.name)
        (some (scopeContext d before (ints ++ [str]) 0)) =
      .done (ints.map (fun e => (BSON_OPERATION_SUCCESS, some (le_int32 e.payload))),
        (BSON_OPERATION_SUCCESS, some (str.payload.drop 4))) := by
  obtain ⟨hdata, hsize, hsmall, hwf⟩ := hscope
  have hbytes : elementsBytes (ints ++ [str]) = elementsBytes ints ++ str.bytes := by
    simp only [elementsBytes_append, elementsBytes, List.append_nil]
  have hlenall := congrArg List.length hdata
  rw [hbytes] at hlenall
  simp only [List.length_append, List.length_cons] at hlenall
  have hsl := str.length_bytes
  have hd : d.data.drop before.length = elementsBytes ints ++ (str.bytes ++ 0 :: after) := by
    have h2 := List.drop_left before (elementsBytes (ints ++ [str]) ++ 0 :: after)
    rw [← hdata, hbytes] at h2
    rw [h2]; simp only [List.append_assoc]
  have hd1 : d.data.drop (before.length + (elementsBytes ints).length)
      = str.bytes ++ 0 :: after := drop_add_of_drop_eq_append hd
  have hsz : ((elementsBytes (ints ++ [str])).length : Int)
      = (elementsBytes ints).length + str.bytes.length := by
    rw [hbytes]; simp only [List.length_append]; push_cast; rfl
  have hrun := @extract_ints_run d before.length
    (((elementsBytes (ints ++ [str])).length : Int) + 5) fuel hsize hsmall
    (by rw [hsize]; omega) (by omega) ints before.length _ hd
    (fun e he => ⟨hwf e (by simp [he]), hints e he⟩) (by omega)
  have hstag : readByte d.data
      (((before.length + (elementsBytes ints).length : Nat)) : Int) = .done 2 := by
    apply readByte_of_drop rfl
    rw [hd1, Element.bytes, hstr]
    rfl
  have hs := @BSON_Extract_String_located fuel none d before.length
    ((before.length + (elementsBytes ints).length : Nat) : Int)
    (((elementsBytes (ints ++ [str])).length : Int) + 5)
    (before.length + (elementsBytes ints).length) str (0 :: after) 0
    (by rw [hsize]; push_cast; omega) (by intro nm h; cases h) name_len_none
    (BSON_Extract_search_at_tag hstag) hd1 hstr (hwf str (by simp)) hsmall
    (by push_cast; omega) (by push_cast; omega)
  unfold extract_ints_then_string scopeContext
  have hc0 : ((before.length : Int) + ((0 : Nat) : Int)) = (before.length : Int) := by simp
  rw [hc0, hrun]
  simp only [Outcome.done_bind]
  have hc : ((before.length : Int) + ((elementsBytes ints).length : Int))
      = ((before.length + (elementsBytes ints).length : Nat) : Int) := by push_cast; rfl
  rw [hc, hs]
  simp only [Outcome.done_bind, Outcome.pure_eq]

/-- On `doc_event`: the fields type, source, severity and the string `"0"` give 1, 2, 3 and
the five bytes of `boom` with its NUL. -/
theorem extract_ints_then_string_in_order_witness :
    extract_ints_then_string 0 (event_ints.map Element.name)
        (some (scopeContext doc_event [53, 0, 0, 0] (event_ints ++ [event_string]) 0)) =
      .done (event_ints.map (fun e => (BSON_OPERATION_SUCCESS, some (le_int32 e.payload))),
        (BSON_OPERATION_SUCCESS, some (event_string.payload.drop 4))) ∧
    event_ints.map (fun e => le_int32 e.payload) = [1, 2, 3] ∧
    event_string.payload.drop 4 = [98, 111, 111, 109, 0] ∧
    scopeContext doc_event [53, 0, 0, 0] (event_ints ++ [event_string]) 0 =
      mkContext doc_event 4 4 53 :=
  ⟨extract_ints_then_string_in_order doc_event [53, 0, 0, 0] [] event_ints event_string 0
      (by decide) (by decide) (by decide),
    by decide, by decide, by decide⟩

/-! ## `BSON_Open` on a located field -/

/-- The checks of `BSON_Open` at an element inside the buffer whose payload starts with the
length `S` and for which the byte `S - 1` behind the start of that length is `last`. -/
theorem BSON_Open_check_at_element {d : BSON_Document} {sp sz : Int} {n : Nat} {e : Element}
    {rest : List Nat} {S : Int} {last : Nat} {len0 : Int} (child : BSON_Context)
    (hsize : d.size = d.data.length) (hsmall : d.data.length < 2147483648)
    (hd : d.data.drop n = e.bytes ++ rest) (h0 : 0 ∉ e.name)
    (hlen0 : len0 = 0 ∨ len0 = (e.name.length : Int) + 1)
    (hlo : (n : Int) + e.name.length + 1 ≤ sp + sz)
    (hhi : sp + sz - n < 18446744073709551616)
    (hS : READ_INT_32 e.payload 0 = .done S)
    (hlast : readByte d.data ((n : Int) + e.name.length + 2 + S - 1) = .done last) :
    BSON_Open_check len0 d sp sz child n =
      .done (if last ≠ 0 then (BSON_MEMORY_CORRUPTED, some child)
        else (BSON_OPERATION_SUCCESS,
          some ⟨child.document, some ((n : Int) + e.name.length + 6),
            some ((n : Int) + e.name.length + 6), S⟩)) := by
  have hel := e.length_bytes
  have h4 := length_of_READ_INT_32 hS
  have hlen := length_of_drop_eq hd (by simp [Element.bytes])
  simp only [List.length_append] at hlen
  have hd1 : d.data.drop n = e.tag :: (e.name ++ 0 :: (e.payload ++ rest)) := by
    rw [hd]; simp only [Element.bytes, List.cons_append, List.append_assoc]
  have hd2 : d.data.drop (n + (1 + e.name.length + 1)) = e.payload ++ rest := by
    have h1 : d.data.drop n = (e.tag :: (e.name ++ [0])) ++ (e.payload ++ rest) := by
      rw [hd]
      simp only [Element.bytes, List.cons_append, List.append_assoc, List.singleton_append,
        List.nil_append]
    have h2 := drop_add_of_drop_eq_append h1
    simp only [List.length_cons, List.length_append, List.length_nil] at h2
    rw [← h2]; congr 1; omega
  have hlenEq : (if len0 ≠ 0 then pure len0 else BSON_Get_Name_Length n d.data sp sz)
      = Outcome.done ((e.name.length : Int) + 1) := by
    rcases hlen0 with h | h
    · subst h
      rw [if_neg (by simp)]
      exact BSON_Get_Name_Length_at_element rfl hd1 h0 hsmall hlo hhi
    · subst h
      rw [if_pos (by omega), Outcome.pure_eq]
  rw [BSON_Open_check, hlenEq]
  simp only [Outcome.done_bind]
  rw [if_neg (by omega)]
  rw [READ_INT_32_of_payload (m := n + (1 + e.name.length + 1)) (by push_cast; omega) hd2 hS]
  simp only [Outcome.done_bind]
  rw [int_add_of_range (by omega) (by omega)]
  simp only [Outcome.done_bind]
  rw [int_add_of_range (by omega) (by omega)]
  simp only [Outcome.done_bind]
  have e1 : (n : Int) + ((e.name.length : Int) + 1 + 1 + 4) + S - 5
      = (n : Int) + e.name.length + 2 + S - 1 := by omega
  have e2 : (n : Int) + ((e.name.length : Int) + 1 + 1 + 4) = (n : Int) + e.name.length + 6 := by
    omega
  rw [e1, hlast]
  simp only [Outcome.done_bind]
  by_cases hz : last ≠ 0
  · rw [if_pos hz, if_pos hz, Outcome.pure_eq]
  · rw [if_neg hz, if_neg hz, Outcome.pure_eq, e2]

/-- The call `BSON_Open`, by the name of `target` with the cursor on the first of the elements
`xs` (none of them named so) that precede `target`, or by `NULL` with the cursor on `target`:
the field is located, and the byte at the end of its declared extent decides between
`BSON_MEMORY_CORRUPTED`, which leaves in the child a copy of the parent with the cursor on the
field, and success. -/
theorem BSON_Open_finds {d : BSON_Document} {sp sz : Int} {target : Element}
    {rest : List Nat} {fuel : Nat} {n : Nat} {xs : List Element} {S : Int} {last : Nat}
    (name : Option (List Nat)) (child0 : BSON_Context)
    (hsize : d.size = d.data.length) (hsmall : d.data.length < 2147483648)
    (hsp : 0 ≤ sp ∧ sp ≤ d.size) (hhi : sp + sz < 18446744073709551616)
    (hname : (name = none ∧ xs = []) ∨ name = some target.name)
    (ht : 0 ∉ target.name)
    (hd : d.data.drop n = elementsBytes xs ++ (target.bytes ++ rest))
    (hxs : ∀ e ∈ xs, e.WellFormed ∧ e.tag ∈ searchKinds ∧ e.name ≠ target.name)
    (hlo : (n : Int) + (elementsBytes xs).length + target.name.length + 1 ≤ sp + sz)
    (hfuel : xs.length ≤ fuel)
    (hS : READ_INT_32 target.payload 0 = .done S)
    (hlast : readByte d.data
      ((n : Int) + (elementsBytes xs).length + target.name.length + 2 + S - 1) = .done last) :
    BSON_Open fuel name (some (mkContext d sp n sz)) (some child0) =
      .done (if last ≠ 0 then
          (BSON_MEMORY_CORRUPTED,
            some (mkContext d sp ((n : Int) + (elementsBytes xs).length) sz))
        else (BSON_OPERATION_SUCCESS,
          some (mkContext d ((n : Int) + (elementsBytes xs).length + target.name.length + 6)
            ((n : Int) + (elementsBytes xs).length + target.name.length + 6) S))) := by
  have htl := target.length_bytes
  have hd1 := drop_add_of_drop_eq_append hd
  have hlen := length_of_drop_eq hd1 (by simp [Element.bytes])
  simp only [List.length_append] at hlen
  have hchk := fun (len0 : Int) (h : len0 = 0 ∨ len0 = (target.name.length : Int) + 1) =>
    @BSON_Open_check_at_element d sp sz (n + (elementsBytes xs).length) target rest S last len0
      (mkContext d sp ((n + (elementsBytes xs).length : Nat) : Int) sz) hsize hsmall hd1 ht h
      (by push_cast; omega) (by push_cast; omega) hS (by push_cast; exact hlast)
  have hcast : (((n + (elementsBytes xs).length : Nat)) : Int)
      = (n : Int) + (elementsBytes xs).length := by push_cast; rfl
  rw [hcast] at hchk
  have hlen0 : ∃ len0, name_len name = .done len0 ∧
      (len0 = 0 ∨ len0 = (target.name.length : Int) + 1) ∧
      (name = none → len0 = 0) ∧ (name = some target.name → len0 = target.name.length + 1) := by
    rcases hname with ⟨h, _⟩ | h
    · subst h
      refine ⟨0, rfl, Or.inl rfl, fun _ => rfl, ?_⟩
      intro h2
      cases h2
    · subst h
      refine ⟨target.name.length + 1, name_len_some (by omega), Or.inr rfl, ?_, fun _ => rfl⟩
      intro h2
      cases h2
  obtain ⟨len0, hnl, hl0, hl1, hl2⟩ := hlen0
  rw [BSON_Open_of_valid fuel name child0 (by omega), hnl]
  simp only [Outcome.done_bind]
  cases xs with
  | nil =>
    simp only [elementsBytes, List.nil_append, List.length_nil, Nat.cast_zero, add_zero]
      at hd hlo hlast hchk hlen ⊢
    have hcmp : memcmp d.data ((n : Int) + 1) (cstring name) len0 = .done false := by
      rcases hname with ⟨h, _⟩ | h
      · rw [hl1 h]; exact memcmp_zero _ _ _
      · rw [hl2 h, h]
        have hdn : d.data.drop (n + 1) = target.name ++ 0 :: (target.payload ++ rest) := by
          apply drop_add_of_drop_eq_append (A := [target.tag])
          rw [hd]; simp only [Element.bytes, List.cons_append, List.append_assoc,
            List.singleton_append, List.nil_append]
        rw [memcmp_at_element (n := n + 1) (by push_cast; rfl) hdn ht ht (by omega)]
        simp
    rw [hcmp]
    simp only [Outcome.done_bind]
    rw [if_neg (by simp)]
    exact hchk len0 hl0
  | cons cur mid =>
    have hnm : name = some target.name := by
      rcases hname with ⟨_, h⟩ | h
      · cases h
      · exact h
    have hcur := hxs cur (by simp)
    have hcl := cur.length_bytes
    simp only [elementsBytes_cons, List.length_append, List.append_assoc] at hd hlo hlen
    have hdn : d.data.drop (n + 1)
        = cur.name ++ 0 :: (cur.payload ++ (elementsBytes mid ++ (target.bytes ++ rest))) := by
      apply drop_add_of_drop_eq_append (A := [cur.tag])
      rw [hd]; simp only [Element.bytes, List.cons_append, List.append_assoc,
        List.singleton_append, List.nil_append]
    have hcmp : memcmp d.data ((n : Int) + 1) (cstring name) len0 = .done true := by
      rw [hl2 hnm, hnm,
        memcmp_at_element (n := n + 1) (by push_cast; rfl) hdn hcur.1.1 ht (by omega)]
      simp [hcur.2.2]
    rw [hcmp]
    simp only [Outcome.done_bind]
    rw [if_pos trivial, hnm]
    rw [BSON_Fetch_finds hsize hsmall hsp hhi hd ⟨hcur.1, hcur.2.1⟩
      (fun e he => hxs e (by simp [he])) ht (by push_cast at hlo ⊢; omega)
      (by simp only [List.length_cons] at hfuel; omega)]
    simp only [Outcome.done_bind]
    rw [if_neg (by simp)]
    have hpos : (n : Int) + cur.bytes.length + (elementsBytes mid).length
        = (n : Int) + ((cur.bytes.length + (elementsBytes mid).length : Nat) : Int) := by
      push_cast; omega
    simp only [elementsBytes_cons, List.length_append] at hchk hlast ⊢
    rw [hpos]
    have := hchk len0 hl0
    rw [hnm] at hnl
    exact this

/-- C16, the counterexample: `doc_short` passes `BSON_Init`; the length of its sub-document
`d` is declared as 11, so that the declared extent ends at offset 17, on the last payload byte
of the int32 `a` (which `BSON_Extract_Int32` reads at offsets 14 to 17) and not on the
terminator of `d` at offset 18; that byte is zero and `BSON_Open("d")` returns success, with a
child of size 11. -/
theorem BSON_Open_accepts_zero_payload_byte_counterexample :
    BSON_Init (some doc_short) (some ⟨none, none, none, 0⟩) =
      .done (BSON_OPERATION_SUCCESS, some (mkContext doc_short 4 4 20)) ∧
    READ_INT_32 doc_short.data 7 = .done 11 ∧
    BSON_Open 1 (some [100]) (some (mkContext doc_short 4 4 20)) (some ⟨none, none, none, 0⟩) =
      .done (BSON_OPERATION_SUCCESS, some (mkContext doc_short 11 11 11)) ∧
    BSON_Extract_Int32 1 (some [97]) (some (mkContext doc_short 11 11 11)) =
      .done (BSON_OPERATION_SUCCESS, some (mkContext doc_short 11 18 11), some 1) := by
  decide

/-- C16, amended: on a parent context in a buffer that holds the declared size, with the
field to open located (by its name from the cursor on the first of the elements `xs`, none
named so, that precede it, or by `NULL` with the cursor on it), its length `S` declared in the
4 bytes that start at offset `P = n + |xs| + |name| + 2`, and the byte `last` at offset
`P + S - 1` inside the buffer: `BSON_Open` returns `BSON_MEMORY_CORRUPTED` if that byte is not
zero and success, with a child of size `S`, if it is zero, whatever the byte belongs to. -/
theorem BSON_Open_checks_last_byte (d : BSON_Document) (sp sz : Int) (target : Element)
    (rest : List Nat) (fuel : Nat) (n : Nat) (xs : List Element) (S : Int) (last : Nat)
    (name : Option (List Nat)) (child0 : BSON_Context)
    (hsize : d.size = d.data.length) (hsmall : d.data.length < 2147483648)
    (hsp : 0 ≤ sp ∧ sp ≤ d.size) (hhi : sp + sz < 18446744073709551616)
    (hname : (name = none ∧ xs = []) ∨ name = some target.name)
    (ht : 0 ∉ target.name)
    (hd : d.data.drop n = elementsBytes xs ++ (target.bytes ++ rest))
    (hxs : ∀ e ∈ xs, e.WellFormed ∧ e.tag ∈ searchKinds ∧ e.name ≠ target.name)
    (hlo : (n : Int) + (elementsBytes xs).length + target.name.length + 1 ≤ sp + sz)
    (hfuel : xs.length ≤ fuel)
    (hS : READ_INT_32 target.payload 0 = .done S)
    (hlast : readByte d.data
      ((n : Int) + (elementsBytes xs).length + target.name.length + 2 + S - 1) = .done last) :
    READ_INT_32 d.data ((n : Int) + (elementsBytes xs).length + target.name.length + 2) =
      .done S ∧
    (last ≠ 0 → BSON_Open fuel name (some (mkContext d sp n sz)) (some child0) =
      .done (BSON_MEMORY_CORRUPTED,
        some (mkContext d sp ((n : Int) + (elementsBytes xs).length) sz))) ∧
    (last = 0 → BSON_Open fuel name (some (mkContext d sp n sz)) (some child0) =
      .done (BSON_OPERATION_SUCCESS,
        some (mkContext d ((n : Int) + (elementsBytes xs).length + target.name.length + 6)
          ((n : Int) + (elementsBytes xs).length + target.name.length + 6) S))) := by
  have h := BSON_Open_finds name child0 hsize hsmall hsp hhi hname ht hd hxs hlo hfuel hS hlast
  refine ⟨?_, ?_, ?_⟩
  · have hd1 := drop_add_of_drop_eq_append hd
    have hd2 : d.data.drop (n + (elementsBytes xs).length + (1 + target.name.length + 1))
        = target.payload ++ rest := by
      have h1 : d.data.drop (n + (elementsBytes xs).length)
          = (target.tag :: (target.name ++ [0])) ++ (target.payload ++ rest) := by
        rw [hd1]
        simp only [Element.bytes, List.cons_append, List.append_assoc, List.singleton_append,
          List.nil_append]
      have h2 := drop_add_of_drop_eq_append h1
      simp only [List.length_cons, List.length_append, List.length_nil] at h2
      rw [← h2]; congr 1; omega
    exact READ_INT_32_of_payload
      (m := n + (elementsBytes xs).length + (1 + target.name.length + 1))
      (by push_cast; omega) hd2 hS
  · intro hz
    rw [h, if_pos hz]
  · intro hz
    rw [h, if_neg (by simp [hz])]

/-- On `doc_cut`, where the extent declared for `d` ends on the tag byte 16 of the element
`b`, `BSON_Open("d")` returns `BSON_MEMORY_CORRUPTED`; on `doc_nested`, where it ends on the
terminator of `d`, it returns success. -/
theorem BSON_Open_checks_last_byte_witness :
    BSON_Open 0 (some [100]) (some (mkContext doc_cut 4 ((4 : Nat) : Int) 34))
        (some ⟨none, none, none, 0⟩) =
      .done (BSON_MEMORY_CORRUPTED,
        some (mkContext doc_cut 4 (((4 : Nat) : Int) + ((elementsBytes []).length : Nat)) 34)) ∧
    BSON_Open 0 (some [100]) (some (mkContext doc_nested 4 ((4 : Nat) : Int) 34))
        (some ⟨none, none, none, 0⟩) =
      .done (BSON_OPERATION_SUCCESS,
        some (mkContext doc_nested
          (((4 : Nat) : Int) + ((elementsBytes []).length : Nat)
            + ((Element.name ⟨3, [100], doc_nested.data.drop 7 |>.take 19⟩).length : Nat) + 6)
          (((4 : Nat) : Int) + ((elementsBytes []).length : Nat)
            + ((Element.name ⟨3, [100], doc_nested.data.drop 7 |>.take 19⟩).length : Nat) + 6)
          19)) :=
  ⟨(BSON_Open_checks_last_byte doc_cut 4 34 ⟨3, [100], doc_cut.data.drop 7 |>.take 19⟩
      (doc_cut.data.drop 26) 0 4 [] 12 16 (some [100]) ⟨none, none, none, 0⟩
      (by decide) (by decide) (by decide) (by decide) (Or.inr rfl) (by decide) (by decide)
      (by simp) (by decide) (by decide) (by decide) (by decide)).2.1 (by decide),
   (BSON_Open_checks_last_byte doc_nested 4 34 ⟨3, [100], doc_nested.data.drop 7 |>.take 19⟩
      (doc_nested.data.drop 26) 0 4 [] 19 0 (some [100]) ⟨none, none, none, 0⟩
      (by decide) (by decide) (by decide) (by decide) (Or.inr rfl) (by decide) (by decide)
      (by simp) (by decide) (by decide) (by decide) (by decide)).2.2 rfl⟩

/-! ## The child of `BSON_Open` in a well-formed scope -/

/-- The last byte of a payload that ends with the terminator, read in the buffer. -/
theorem readByte_last_of_payload {data : List Nat} {m : Nat} {payload rest : List Nat}
    {p : Int} (hd : data.drop m = payload ++ rest) (hlast : payload.getLast? = some 0)
    (hp : p = (m : Int) + payload.length - 1) : readByte data p = .done 0 := by
  obtain ⟨ys, hys⟩ := List.getLast?_eq_some_iff.mp hlast
  have h1 : data.drop m = ys ++ (0 :: rest) := by
    rw [hd, hys]; simp only [List.append_assoc, List.singleton_append]
  have h2 := drop_add_of_drop_eq_append h1
  apply readByte_of_drop (n := m + ys.length) _ h2
  rw [hp, hys]
  simp only [List.length_append, List.length_singleton]
  push_cast
  omega

/-- In a well-formed scope, `BSON_Open` by the name of an embedded document or array
`target`, from the cursor on the first of the elements `xs` (none named so) that precede it,
or by `NULL` with the cursor on `target`, succeeds and gives the context of the sub-document
of `target`. -/
theorem BSON_Open_in_scope (d : BSON_Document) (before after : List Nat)
    (pre xs post : List Element) (target : Element) (fuel : Nat) (name : Option (List Nat))
    (child0 : BSON_Context)
    (hscope : WellFormedScope d before (pre ++ xs ++ target :: post) after)
    (hname : (name = none ∧ xs = []) ∨ name = some target.name)
    (hxs : ∀ e ∈ xs, e.tag ∈ searchKinds ∧ e.name ≠ target.name)
    (hdoc : target.IsDocument) (hfuel : xs.length ≤ fuel) :
    BSON_Open fuel name
        (some (scopeContext d before (pre ++ xs ++ target :: post) (elementsBytes pre).length))
        (some child0) =
      .done (BSON_OPERATION_SUCCESS,
        some (subContext d (before.length + (elementsBytes (pre ++ xs)).length) target 0)) := by
  obtain ⟨hdata, hsize, hsmall, hwf⟩ := hscope
  obtain ⟨htag, htwf, hterm⟩ := hdoc
  have htl := target.length_bytes
  have hS : READ_INT_32 target.payload 0 = .done (target.payload.length : Int) := by
    have := htwf.2
    rcases htag with h | h <;> · rw [h] at this; simpa [payloadOK] using this
  have hbytes : elementsBytes (pre ++ xs ++ target :: post)
      = elementsBytes pre ++ (elementsBytes xs ++ (target.bytes ++ elementsBytes post)) := by
    simp only [elementsBytes_append, elementsBytes_cons, List.append_assoc]
  have hlenall := congrArg List.length hdata
  rw [hbytes] at hlenall
  simp only [List.length_append, List.length_cons] at hlenall
  have hsz : ((elementsBytes (pre ++ xs ++ target :: post)).length : Int)
      = (elementsBytes pre).length + ((elementsBytes xs).length
        + (target.bytes.length + (elementsBytes post).length)) := by
    rw [hbytes]; simp only [List.length_append]; push_cast; rfl
  have hd : d.data.drop (before.length + (elementsBytes pre).length)
      = elementsBytes xs ++ (target.bytes ++ (elementsBytes post ++ 0 :: after)) := by
    have h1 : d.data = (before ++ elementsBytes pre) ++ (elementsBytes xs ++ (target.bytes ++
        (elementsBytes post ++ 0 :: after))) := by
      rw [hdata, hbytes]; simp only [List.append_assoc]
    have h2 := List.drop_left (before ++ elementsBytes pre) (elementsBytes xs ++ (target.bytes ++
        (elementsBytes post ++ 0 :: after)))
    rw [← h1, List.length_append] at h2
    exact h2
  have hd1 := drop_add_of_drop_eq_append hd
  have hd2 : d.data.drop (before.length + (elementsBytes pre).length + (elementsBytes xs).length
      + (1 + target.name.length + 1)) = target.payload ++ (elementsBytes post ++ 0 :: after) := by
    have h1 : d.data.drop (before.length + (elementsBytes pre).length + (elementsBytes xs).length)
        = (target.tag :: (target.name ++ [0])) ++
          (target.payload ++ (elementsBytes post ++ 0 :: after)) := by
      rw [hd1]
      simp only [Element.bytes, List.cons_append, List.append_assoc, List.singleton_append,
        List.nil_append]
    have h2 := drop_add_of_drop_eq_append h1
    simp only [List.length_cons, List.length_append, List.length_nil] at h2
    rw [← h2]; congr 1; omega
  have h4 := length_of_READ_INT_32 hS
  have hlast := @readByte_last_of_payload d.data _ target.payload _
    (((before.length + (elementsBytes pre).length : Nat) : Int) + (elementsBytes xs).length
      + target.name.length + 2 + (target.payload.length : Int) - 1) hd2 hterm
    (by push_cast; omega)
  have h := @BSON_Open_finds d before.length
    (((elementsBytes (pre ++ xs ++ target :: post)).length : Int) + 5) target
    (elementsBytes post ++ 0 :: after) fuel (before.length + (elementsBytes pre).length) xs
    (target.payload.length : Int) 0 name child0 hsize hsmall (by rw [hsize]; omega) (by omega)
    hname htwf.1 hd
    (fun e he => ⟨hwf e (by simp [he]), (hxs e he).1, (hxs e he).2⟩)
    (by rw [hsz, htl]; push_cast; omega) hfuel hS hlast
  rw [if_neg (by simp)] at h
  unfold scopeContext subContext
  have hc : ((before.length : Int) + ((elementsBytes pre).length : Int))
      = ((before.length + (elementsBytes pre).length : Nat) : Int) := by push_cast; rfl
  rw [hc, h]
  simp only [elementsBytes_append, List.length_append]
  have e1 : ((before.length + (elementsBytes pre).length : Nat) : Int) + (elementsBytes xs).length
      + target.name.length + 6
      = ((before.length + ((elementsBytes pre).length + (elementsBytes xs).length) : Nat) : Int)
        + target.name.length + 6 := by push_cast; omega
  rw [e1]
  simp only [Nat.cast_zero, add_zero]

/-- The context a successful `BSON_Init` writes. -/
theorem BSON_Init_success_eq {doc : BSON_Document} {ctx : BSON_Context}
    {c : Option BSON_Context}
    (h : BSON_Init (some doc) (some ctx) = .done (BSON_OPERATION_SUCCESS, c)) :
    c = some (mkContext doc 4 4 doc.size) := by
  rw [BSON_Init] at h
  obtain ⟨docLen, _, h⟩ := Outcome.bind_eq_done h
  by_cases h1 : docLen ≠ doc.size
  · rw [if_pos h1] at h; simp at h
  · rw [if_neg h1] at h
    obtain ⟨last, _, h⟩ := Outcome.bind_eq_done h
    by_cases h2 : last ≠ 0
    · rw [if_pos h2] at h; simp at h
    · rw [if_neg h2] at h
      simp only [Outcome.pure_eq, Outcome.done.injEq, Prod.mk.injEq, true_and] at h
      exact h.symm

/-- The sub-document of an element of a well-formed scope lies among the bytes of the
scope. -/
theorem subContext_in_scope {d : BSON_Document} {before after : List Nat}
    {pre xs post : List Element} {target : Element}
    (hscope : WellFormedScope d before (pre ++ xs ++ target :: post) after) :
    (before.length : Int) + (elementsBytes (pre ++ xs)).length + target.name.length + 2
        + target.payload.length ≤ before.length + (elementsBytes (pre ++ xs ++ target :: post)).length ∧
    (before.length : Int) + (elementsBytes (pre ++ xs ++ target :: post)).length + 1
      ≤ d.size := by
  obtain ⟨hdata, hsize, _, _⟩ := hscope
  have htl := target.length_bytes
  have hbytes : elementsBytes (pre ++ xs ++ target :: post)
      = elementsBytes (pre ++ xs) ++ (target.bytes ++ elementsBytes post) := by
    simp only [elementsBytes_append, elementsBytes_cons, List.append_assoc]
  have hlenall := congrArg List.length hdata
  simp only [List.length_append, List.length_cons] at hlenall
  have hl := congrArg List.length hbytes
  simp only [List.length_append] at hl
  rw [hsize]
  constructor <;> omega

/-- C19, the counterexample: the context `BSON_Init` gives for `doc_single` has size 12 and
startPosition 4 in a document of 12 bytes, of which 8 remain from the startPosition; the child
`BSON_Open("d")` gives on the well-formed `doc_inner` has size 12 and startPosition 11 in a
document of 20 bytes, of which 9 remain. -/
theorem size_exceeds_remaining_counterexample :
    BSON_Init (some doc_single) (some ⟨none, none, none, 0⟩) =
      .done (BSON_OPERATION_SUCCESS, some (mkContext doc_single 4 4 12)) ∧
    ¬ sizeWithinDocument 0 (mkContext doc_single 4 4 12) ∧
    BSON_Init (some doc_inner) (some ⟨none, none, none, 0⟩) =
      .done (BSON_OPERATION_SUCCESS, some (mkContext doc_inner 4 4 20)) ∧
    BSON_Open 1 (some [100]) (some (mkContext doc_inner 4 4 20)) (some ⟨none, none, none, 0⟩) =
      .done (BSON_OPERATION_SUCCESS, some (mkContext doc_inner 11 11 12)) ∧
    ¬ sizeWithinDocument 0 (mkContext doc_inner 11 11 12) := by
  decide

/-- C19, amended: the context a successful `BSON_Init` writes, and the child `BSON_Open` gives
for an embedded document or array `target` of a well-formed scope (located by its name from
the cursor on the first of the elements `xs` that precede it, or by `NULL` with the cursor on
it; the call succeeds), have a size that does not exceed the bytes of the document from the
4-byte length in front of the startPosition on, that is
`size <= document.size - (startPosition - 4 - document.start)`. -/
theorem size_within_document_from_length (doc : BSON_Document) (ctx : BSON_Context)
    (c : BSON_Context) (d : BSON_Document) (before after : List Nat)
    (pre xs post : List Element) (target : Element) (fuel : Nat) (name : Option (List Nat))
    (child0 : BSON_Context)
    (hscope : WellFormedScope d before (pre ++ xs ++ target :: post) after)
    (hname : (name = none ∧ xs = []) ∨ name = some target.name)
    (hxs : ∀ e ∈ xs, e.tag ∈ searchKinds ∧ e.name ≠ target.name)
    (hdoc : target.IsDocument) (hfuel : xs.length ≤ fuel) :
    (BSON_Init (some doc) (some ctx) = .done (BSON_OPERATION_SUCCESS, some c) →
      sizeWithinDocument 4 c) ∧
    BSON_Open fuel name
        (some (scopeContext d before (pre ++ xs ++ target :: post) (elementsBytes pre).length))
        (some child0) =
      .done (BSON_OPERATION_SUCCESS,
        some (subContext d (before.length + (elementsBytes (pre ++ xs)).length) target 0)) ∧
    sizeWithinDocument 4
      (subContext d (before.length + (elementsBytes (pre ++ xs)).length) target 0) := by
  refine ⟨?_, BSON_Open_in_scope d before after pre xs post target fuel name child0 hscope hname
    hxs hdoc hfuel, ?_⟩
  · intro h
    have hc := BSON_Init_success_eq h
    simp only [Option.some.injEq] at hc
    subst hc
    show doc.size ≤ doc.size - (4 - 4)
    omega
  · have hb := subContext_in_scope hscope
    show (target.payload.length : Int) ≤ d.size -
      ((((before.length + (elementsBytes (pre ++ xs)).length : Nat)) : Int)
        + target.name.length + 6 - 4)
    push_cast
    omega

/-- On `doc_single` and `doc_inner`: the root context of the first has size 12 in a document
of 12 bytes whose length is at offset 0; the child for `d` in the second has size 12 and its
length at offset 7 of 20 bytes. -/
theorem size_within_document_from_length_witness :
    (BSON_Init (some doc_single) (some ⟨none, none, none, 0⟩) =
        .done (BSON_OPERATION_SUCCESS, some (mkContext doc_single 4 4 12)) →
      sizeWithinDocument 4 (mkContext doc_single 4 4 12)) ∧
    BSON_Open 0 (some [100])
        (some (scopeContext doc_inner [20, 0, 0, 0]
          ([] ++ [] ++ (⟨3, [100], [12, 0, 0, 0, 16, 97, 0, 1, 0, 0, 0, 0]⟩ : Element) :: [])
          (elementsBytes []).length))
        (some ⟨none, none, none, 0⟩) =
      .done (BSON_OPERATION_SUCCESS,
        some (subContext doc_inner ([20, 0, 0, 0].length + (elementsBytes ([] ++ [])).length)
          ⟨3, [100], [12, 0, 0, 0, 16, 97, 0, 1, 0, 0, 0, 0]⟩ 0)) ∧
    sizeWithinDocument 4
      (subContext doc_inner ([20, 0, 0, 0].length + (elementsBytes ([] ++ [])).length)
        ⟨3, [100], [12, 0, 0, 0, 16, 97, 0, 1, 0, 0, 0, 0]⟩ 0) :=
  size_within_document_from_length doc_single ⟨none, none, none, 0⟩ (mkContext doc_single 4 4 12)
    doc_inner [20, 0, 0, 0] [] [] [] [] ⟨3, [100], [12, 0, 0, 0, 16, 97, 0, 1, 0, 0, 0, 0]⟩ 0
    (some [100]) ⟨none, none, none, 0⟩ (by decide) (Or.inr rfl) (by simp) (by decide)
    (by decide)

/-! ## The child and its parent -/

/-- C20, the counterexample: `doc_overlong` passes `BSON_Init`, `BSON_Open("o")` gives the
nested context of `o` (startPosition 11, size 20, the bytes 7 to 26), which passes the check,
and `BSON_Open("i")` on it returns success with a child of startPosition 18 and size 27: the
size of the child exceeds that of the parent and its bytes 14 to 40 are not among those of the
parent. -/
theorem BSON_Open_child_exceeds_parent_counterexample :
    BSON_Init (some doc_overlong) (some ⟨none, none, none, 0⟩) =
      .done (BSON_OPERATION_SUCCESS, some (mkContext doc_overlong 4 4 42)) ∧
    BSON_Open 1 (some [111]) (some (mkContext doc_overlong 4 4 42))
        (some ⟨none, none, none, 0⟩) =
      .done (BSON_OPERATION_SUCCESS, some (mkContext doc_overlong 11 11 20)) ∧
    BSON_Check_Context (some (mkContext doc_overlong 11 11 20)) = BSON_OPERATION_SUCCESS ∧
    BSON_Open 1 (some [105]) (some (mkContext doc_overlong 11 11 20))
        (some ⟨none, none, none, 0⟩) =
      .done (BSON_OPERATION_SUCCESS, some (mkContext doc_overlong 18 18 27)) ∧
    ¬ nestedIn (mkContext doc_overlong 18 18 27) (mkContext doc_overlong 11 11 20) := by
  decide

/-- C20, amended: in a well-formed scope, `BSON_Open` of an embedded document or array
`target` (located by its name from the cursor on the first of the elements `xs` that precede
it, or by `NULL` with the cursor on it) succeeds, and the child has a smaller size than the
parent and its bytes `[startPosition - 4, startPosition - 4 + size)` lie among those of the
parent. -/
theorem BSON_Open_child_nested_in_parent (d : BSON_Document) (before after : List Nat)
    (pre xs post : List Element) (target : Element) (fuel : Nat) (name : Option (List Nat))
    (child0 : BSON_Context)
    (hscope : WellFormedScope d before (pre ++ xs ++ target :: post) after)
    (hname : (name = none ∧ xs = []) ∨ name = some target.name)
    (hxs : ∀ e ∈ xs, e.tag ∈ searchKinds ∧ e.name ≠ target.name)
    (hdoc : target.IsDocument) (hfuel : xs.length ≤ fuel) :
    BSON_Open fuel name
        (some (scopeContext d before (pre ++ xs ++ target :: post) (elementsBytes pre).length))
        (some child0) =
      .done (BSON_OPERATION_SUCCESS,
        some (subContext d (before.length + (elementsBytes (pre ++ xs)).length) target 0)) ∧
    nestedIn (subContext d (before.length + (elementsBytes (pre ++ xs)).length) target 0)
      (scopeContext d before (pre ++ xs ++ target :: post) (elementsBytes pre).length) := by
  refine ⟨BSON_Open_in_scope d before after pre xs post target fuel name child0 hscope hname
    hxs hdoc hfuel, ?_⟩
  have hb := subContext_in_scope hscope
  show (target.payload.length : Int)
      < ((elementsBytes (pre ++ xs ++ target :: post)).length : Int) + 5 ∧
    (before.length : Int) - 4 ≤
      (((before.length + (elementsBytes (pre ++ xs)).length : Nat)) : Int)
        + target.name.length + 6 - 4 ∧
    (((before.length + (elementsBytes (pre ++ xs)).length : Nat)) : Int)
        + target.name.length + 6 - 4 + (target.payload.length : Int)
      ≤ (before.length : Int) - 4 + (((elementsBytes (pre ++ xs ++ target :: post)).length : Int) + 5)
  push_cast
  omega

/-- On `doc_nested`: the child `BSON_Open("d")` gives from the root context has size 19, less
than 34, and its bytes 7 to 25 are among the bytes 0 to 33 of the root. -/
theorem BSON_Open_child_nested_in_parent_witness :
    BSON_Open 0 (some [100])
        (some (scopeContext doc_nested [34, 0, 0, 0]
          ([] ++ [] ++ (⟨3, [100], doc_nested.data.drop 7 |>.take 19⟩ : Element)
            :: [⟨16, [122], [5, 0, 0, 0]⟩])
          (elementsBytes []).length))
        (some ⟨none, none, none, 0⟩) =
      .done (BSON_OPERATION_SUCCESS,
        some (subContext doc_nested ([34, 0, 0, 0].length + (elementsBytes ([] ++ [])).length)
          ⟨3, [100], doc_nested.data.drop 7 |>.take 19⟩ 0)) ∧
    nestedIn
      (subContext doc_nested ([34, 0, 0, 0].length + (elementsBytes ([] ++ [])).length)
        ⟨3, [100], doc_nested.data.drop 7 |>.take 19⟩ 0)
      (scopeContext doc_nested [34, 0, 0, 0]
        ([] ++ [] ++ (⟨3, [100], doc_nested.data.drop 7 |>.take 19⟩ : Element)
          :: [⟨16, [122], [5, 0, 0, 0]⟩])
        (elementsBytes []).length) :=
  BSON_Open_child_nested_in_parent doc_nested [34, 0, 0, 0] [] [] [] [⟨16, [122], [5, 0, 0, 0]⟩]
    ⟨3, [100], doc_nested.data.drop 7 |>.take 19⟩ 0 (some [100]) ⟨none, none, none, 0⟩
    (by decide) (Or.inr rfl) (by simp) (by decide) (by decide)

/-! ## The array of embedded documents -/

/-- On the terminator of a scope that the terminator of the enclosing document follows,
`BSON_Fetch(NULL)` returns `BSON_POS_OUT_OF_RANGE`: the header byte 0 has the table entry 255,
which carries the position past `startPosition + size`. -/
theorem BSON_Fetch_null_at_terminator {d : BSON_Document} {sp sz : Int} {n : Nat}
    {rest : List Nat} {fuel : Nat}
    (hv : 0 ≤ (n : Int) ∧ (n : Int) ≤ d.size ∧ 0 ≤ sp ∧ sp ≤ d.size)
    (hsmall : d.data.length < 2147483648)
    (hd : d.data.drop n = 0 :: 0 :: rest)
    (hlo : (n : Int) + 1 ≤ sp + sz) (hhi : sp + sz - n < 18446744073709551616)
    (hend : sp + sz ≤ (n : Int) + 257) (hfuel : 0 < fuel) :
    BSON_Fetch fuel none (some (mkContext d sp n sz)) =
      .done (BSON_POS_OUT_OF_RANGE, some (mkContext d sp n sz)) := by
  obtain ⟨f, rfl⟩ : ∃ f, fuel = f + 1 := ⟨fuel - 1, by omega⟩
  have hd0 : d.data.drop n = 0 :: (([] : List Nat) ++ 0 :: rest) := by rw [hd]; rfl
  have hname := @BSON_Get_Name_Length_at_element d.data (n : Int) sp sz n 0 [] rest rfl hd0
    (by simp) hsmall (by simpa using hlo) hhi
  have htab : typicalOffsets_at 0 = .done 255 := rfl
  rw [BSON_Fetch_of_valid (f + 1) none hv, show name_len_fetch none = 0 from rfl,
    BSON_Fetch_loop, BSON_Fetch_skip, readByte_of_drop rfl hd]
  simp only [Outcome.done_bind]
  rw [hname]
  simp only [Outcome.done_bind, List.length_nil, Nat.cast_zero, zero_add]
  rw [int_add_of_range (by omega) (by omega)]
  simp only [Outcome.done_bind]
  rw [htab]
  simp only [Outcome.done_bind]
  rw [if_neg (by decide)]
  simp only [Outcome.pure_eq, Outcome.done_bind]
  rw [if_pos (by omega)]
  simp only [Outcome.pure_eq, Outcome.done_bind]

/-- The walk over an array of three embedded documents: in a well-formed scope whose last
field `param` is an array of exactly three embedded documents `e1`, `e2`, `e3`, with the
cursor on the first of the fields `xs` (of the kinds the search steps over, none named like
`param`) that precede it or on `param` itself: `BSON_Open` by the name of `param` succeeds and
gives the context of the array; on that context each `BSON_Open(NULL)` succeeds and gives the
context of the embedded document under the cursor (the first, second and third in the order
of the buffer), the three calls of `BSON_Fetch(NULL)` that alternate with them return success
and move the cursor to the second document, the third document and the terminator of the
array, and a fourth `BSON_Fetch(NULL)` returns `BSON_POS_OUT_OF_RANGE`.  The bytes in front of
the first embedded document are `ab`. -/
theorem param_array_walk (d : BSON_Document) (before after : List Nat)
    (pre xs : List Element) (param e1 e2 e3 : Element) (lenBytes ab : List Nat) (fuel : Nat)
    (child0 : BSON_Context)
    (hscope : WellFormedScope d before (pre ++ xs ++ [param]) after)
    (hxs : ∀ e ∈ xs, e.tag ∈ searchKinds ∧ e.name ≠ param.name)
    (htag : param.tag = 0x04)
    (hpay : param.payload = lenBytes ++ (elementsBytes [e1, e2, e3] ++ [0]))
    (hlen : lenBytes.length = 4)
    (hab : ab = before ++ (elementsBytes (pre ++ xs) ++
      (param.tag :: (param.name ++ 0 :: lenBytes))))
    (hdocs : ∀ e ∈ [e1, e2, e3], e.tag = 0x03 ∧ e.IsDocument)
    (hfuel : xs.length ≤ fuel ∧ 0 < fuel) :
    BSON_Open fuel (some param.name)
        (some (scopeContext d before (pre ++ xs ++ [param]) (elementsBytes pre).length))
        (some child0) =
      .done (BSON_OPERATION_SUCCESS, some (scopeContext d ab [e1, e2, e3] 0)) ∧
    BSON_Open fuel none (some (scopeContext d ab [e1, e2, e3] 0)) (some child0) =
      .done (BSON_OPERATION_SUCCESS, some (subContext d ab.length e1 0)) ∧
    BSON_Fetch fuel none (some (scopeContext d ab [e1, e2, e3] 0)) =
      .done (BSON_OPERATION_SUCCESS,
        some (scopeContext d ab [e1, e2, e3] (elementsBytes [e1]).length)) ∧
    BSON_Open fuel none (some (scopeContext d ab [e1, e2, e3] (elementsBytes [e1]).length))
        (some child0) =
      .done (BSON_OPERATION_SUCCESS,
        some (subContext d (ab.length + (elementsBytes [e1]).length) e2 0)) ∧
    BSON_Fetch fuel none (some (scopeContext d ab [e1, e2, e3] (elementsBytes [e1]).length)) =
      .done (BSON_OPERATION_SUCCESS,
        some (scopeContext d ab [e1, e2, e3] (elementsBytes [e1, e2]).length)) ∧
    BSON_Open fuel none (some (scopeContext d ab [e1, e2, e3] (elementsBytes [e1, e2]).length))
        (some child0) =
      .done (BSON_OPERATION_SUCCESS,
        some (subContext d (ab.length + (elementsBytes [e1, e2]).length) e3 0)) ∧
    BSON_Fetch fuel none
        (some (scopeContext d ab [e1, e2, e3] (elementsBytes [e1, e2]).length)) =
      .done (BSON_OPERATION_SUCCESS,
        some (scopeContext d ab [e1, e2, e3] (elementsBytes [e1, e2, e3]).length)) ∧
    BSON_Fetch fuel none
        (some (scopeContext d ab [e1, e2, e3] (elementsBytes [e1, e2, e3]).length)) =
      .done (BSON_POS_OUT_OF_RANGE,
        some (scopeContext d ab [e1, e2, e3] (elementsBytes [e1, e2, e3]).length)) := by
  have hparamwf : param.WellFormed := hscope.2.2.2 param (by simp)
  have hparamdoc : param.IsDocument :=
    ⟨Or.inr htag, hparamwf,
      List.getLast?_eq_some_iff.mpr ⟨lenBytes ++ elementsBytes [e1, e2, e3], by
        rw [hpay]; simp only [List.append_assoc]⟩⟩
  obtain ⟨hdata, hsize, hsmall, hwf⟩ := hscope
  have hpl : param.payload.length = 4 + ((elementsBytes [e1, e2, e3]).length + 1) := by
    rw [hpay]; simp only [List.length_append, List.length_singleton, hlen]
  have habl : ab.length = before.length + ((elementsBytes (pre ++ xs)).length
      + (1 + (param.name.length + (1 + 4)))) := by
    rw [hab]; simp only [List.length_append, List.length_cons, hlen]; omega
  have harr : WellFormedScope d ab [e1, e2, e3] (0 :: after) := by
    refine ⟨?_, hsize, hsmall, fun e he => (hdocs e he).2.2.1⟩
    rw [hdata, hab]
    simp only [elementsBytes_append, elementsBytes_cons, Element.bytes, hpay, elementsBytes,
      List.append_assoc, List.cons_append, List.nil_append, List.append_nil,
      List.singleton_append]
  have hk : ∀ e ∈ [e1, e2, e3], e.tag ∈ searchKinds := by
    intro e he
    rw [(hdocs e he).1]
    decide
  have hc1 : (elementsBytes ([] : List Element)).length + e1.bytes.length
      = (elementsBytes [e1]).length := by
    simp only [elementsBytes, List.length_nil, List.length_append, zero_add, add_zero]
  have hc2 : (elementsBytes [e1]).length + e2.bytes.length = (elementsBytes [e1, e2]).length := by
    simp only [elementsBytes, List.length_nil, List.length_append, zero_add, add_zero]
  have hc3 : (elementsBytes [e1, e2]).length + e3.bytes.length
      = (elementsBytes [e1, e2, e3]).length := by
    simp only [elementsBytes, List.length_nil, List.length_append, zero_add, add_zero]
    omega
  refine ⟨?_, ?_, ?_, ?_, ?_, ?_, ?_, ?_⟩
  · have h := BSON_Open_in_scope d before after pre xs [] param fuel (some param.name) child0
      ⟨hdata, hsize, hsmall, hwf⟩ (Or.inr rfl) hxs hparamdoc hfuel.1
    rw [h]
    unfold subContext scopeContext
    have a1 : ((before.length + (elementsBytes (pre ++ xs)).length : Nat) : Int)
        + param.name.length + 6 = (ab.length : Int) := by rw [habl]; push_cast; omega
    have a2 : (param.payload.length : Int) = ((elementsBytes [e1, e2, e3]).length : Int) + 5 := by
      rw [hpl]; push_cast; omega
    rw [a1, a2]
  · exact BSON_Open_in_scope d ab (0 :: after) [] [] [e2, e3] e1 fuel none child0 harr
      (Or.inl ⟨rfl, rfl⟩) (by simp) (hdocs e1 (by simp)).2 (Nat.zero_le _)
  · have h := BSON_Fetch_null_steps_over d ab (0 :: after) [] [e2, e3] e1 fuel harr
      (hk e1 (by simp)) hfuel.2
    rw [hc1] at h
    exact h
  · exact BSON_Open_in_scope d ab (0 :: after) [e1] [] [e3] e2 fuel none child0 harr
      (Or.inl ⟨rfl, rfl⟩) (by simp) (hdocs e2 (by simp)).2 (Nat.zero_le _)
  · have h := BSON_Fetch_null_steps_over d ab (0 :: after) [e1] [e3] e2 fuel harr
      (hk e2 (by simp)) hfuel.2
    rw [hc2] at h
    exact h
  · exact BSON_Open_in_scope d ab (0 :: after) [e1, e2] [] [] e3 fuel none child0 harr
      (Or.inl ⟨rfl, rfl⟩) (by simp) (hdocs e3 (by simp)).2 (Nat.zero_le _)
  · have h := BSON_Fetch_null_steps_over d ab (0 :: after) [e1, e2] [] e3 fuel harr
      (hk e3 (by simp)) hfuel.2
    rw [hc3] at h
    exact h
  · have hlenall := congrArg List.length harr.1
    simp only [List.length_append, List.length_cons] at hlenall
    have hd : d.data.drop (ab.length + (elementsBytes [e1, e2, e3]).length)
        = 0 :: 0 :: after := by
      have h1 : d.data = (ab ++ elementsBytes [e1, e2, e3]) ++ (0 :: 0 :: after) := by
        rw [harr.1]; simp only [List.append_assoc]
      have h2 := List.drop_left (ab ++ elementsBytes [e1, e2, e3]) (0 :: 0 :: after)
      rw [← h1, List.length_append] at h2
      exact h2
    have h := @BSON_Fetch_null_at_terminator d ab.length
      (((elementsBytes [e1, e2, e3]).length : Int) + 5)
      (ab.length + (elementsBytes [e1, e2, e3]).length) after fuel
      (by rw [hsize]; push_cast; omega) hsmall hd (by push_cast; omega) (by push_cast; omega)
      (by push_cast; omega) hfuel.2
    unfold scopeContext
    have hc : ((ab.length : Int) + ((elementsBytes [e1, e2, e3]).length : Int))
        = ((ab.length + (elementsBytes [e1, e2, e3]).length : Nat) : Int) := by push_cast; rfl
    rw [hc]
    exact h

/-- On `doc_param`, from the root context: `BSON_Open("param")` gives the context of the array
(startPosition 22, size 50), the three calls of `BSON_Open(NULL)` give the contexts of the
embedded documents at offsets 22, 37 and 52 (startPosition 29, 44 and 59, size 12), the
cursor of the array moves to 37, 52 and 67, and the fourth `BSON_Fetch(NULL)` returns
`BSON_POS_OUT_OF_RANGE`. -/
theorem param_array_walk_witness :
    (BSON_Open 1 (some param_array.name)
        (some (scopeContext doc_param [69, 0, 0, 0]
          ([] ++ [⟨16, [110], [7, 0, 0, 0]⟩] ++ [param_array]) (elementsBytes []).length))
        (some ⟨none, none, none, 0⟩) =
      .done (BSON_OPERATION_SUCCESS,
        some (scopeContext doc_param (doc_param.data.take 22)
          [param_first, param_second, param_third] 0)) ∧
    BSON_Open 1 none
        (some (scopeContext doc_param (doc_param.data.take 22)
          [param_first, param_second, param_third] 0)) (some ⟨none, none, none, 0⟩) =
      .done (BSON_OPERATION_SUCCESS,
        some (subContext doc_param (doc_param.data.take 22).length param_first 0)) ∧
    BSON_Fetch 1 none
        (some (scopeContext doc_param (doc_param.data.take 22)
          [param_first, param_second, param_third] 0)) =
      .done (BSON_OPERATION_SUCCESS,
        some (scopeContext doc_param (doc_param.data.take 22)
          [param_first, param_second, param_third] (elementsBytes [param_first]).length)) ∧
    BSON_Open 1 none
        (some (scopeContext doc_param (doc_param.data.take 22)
          [param_first, param_second, param_third] (elementsBytes [param_first]).length))
        (some ⟨none, none, none, 0⟩) =
      .done (BSON_OPERATION_SUCCESS,
        some (subContext doc_param
          ((doc_param.data.take 22).length + (elementsBytes [param_first]).length)
          param_second 0)) ∧
    BSON_Fetch 1 none
        (some (scopeContext doc_param (doc_param.data.take 22)
          [param_first, param_second, param_third] (elementsBytes [param_first]).length)) =
      .done (BSON_OPERATION_SUCCESS,
        some (scopeContext doc_param (doc_param.data.take 22)
          [param_first, param_second, param_third]
          (elementsBytes [param_first, param_second]).length)) ∧
    BSON_Open 1 none
        (some (scopeContext doc_param (doc_param.data.take 22)
          [param_first, param_second, param_third]
          (elementsBytes [param_first, param_second]).length))
        (some ⟨none, none, none, 0⟩) =
      .done (BSON_OPERATION_SUCCESS,
        some (subContext doc_param
          ((doc_param.data.take 22).length + (elementsBytes [param_first, param_second]).length)
          param_third 0)) ∧
    BSON_Fetch 1 none
        (some (scopeContext doc_param (doc_param.data.take 22)
          [param_first, param_second, param_third]
          (elementsBytes [param_first, param_second]).length)) =
      .done (BSON_OPERATION_SUCCESS,
        some (scopeContext doc_param (doc_param.data.take 22)
          [param_first, param_second, param_third]
          (elementsBytes [param_first, param_second, param_third]).length)) ∧
    BSON_Fetch 1 none
        (some (scopeContext doc_param (doc_param.data.take 22)
          [param_first, param_second, param_third]
          (elementsBytes [param_first, param_second, param_third]).length)) =
      .done (BSON_POS_OUT_OF_RANGE,
        some (scopeContext doc_param (doc_param.data.take 22)
          [param_first, param_second, param_third]
          (elementsBytes [param_first, param_second, param_third]).length))) ∧
    scopeContext doc_param [69, 0, 0, 0] ([] ++ [⟨16, [110], [7, 0, 0, 0]⟩] ++ [param_array])
      (elementsBytes []).length = mkContext doc_param 4 4 69 ∧
    scopeContext doc_param (doc_param.data.take 22) [param_first, param_second, param_third] 0
      = mkContext doc_param 22 22 50 ∧
    subContext doc_param (doc_param.data.take 22).length param_first 0
      = mkContext doc_param 29 29 12 ∧
    subContext doc_param ((doc_param.data.take 22).length + (elementsBytes [param_first]).length)
      param_second 0 = mkContext doc_param 44 44 12 ∧
    subContext doc_param
      ((doc_param.data.take 22).length + (elementsBytes [param_first, param_second]).length)
      param_third 0 = mkContext doc_param 59 59 12 ∧
    scopeContext doc_param (doc_param.data.take 22) [param_first, param_second, param_third]
      (elementsBytes [param_first, param_second, param_third]).length
      = mkContext doc_param 22 67 50 :=
  ⟨param_array_walk doc_param [69, 0, 0, 0] [] [] [⟨16, [110], [7, 0, 0, 0]⟩] param_array
      param_first param_second param_third [50, 0, 0, 0] (doc_param.data.take 22) 1
      ⟨none, none, none, 0⟩ (by decide) (by decide) (by decide) (by decide) (by decide)
      (by decide) (by decide) (by decide),
    by decide, by decide, by decide, by decide, by decide, by decide⟩

/-! ## The table of block sizes -/

/-- A tag byte above 0x12 indexes the table of `BSON_Fetch` behind its last entry. -/
theorem typicalOffsets_at_of_ge (k : Nat) : typicalOffsets_at (19 + k) = .undefined := by
  unfold typicalOffsets_at
  have h : typicalOffsets[19 + k]? = none := by
    apply List.getElem?_eq_none
    simp [typicalOffsets]
  rw [h]

/-- C21, at the failing input: the table `typicalOffsets` has 19 entries, for the tags 0x00 to
0x12, so the lookup is outside the table for every tag byte from 19 on, among them the tags
0x13 (decimal128), 0x7F (max key) and 0xFF (min key) of the BSON format.  On `doc_maxkey`,
which `BSON_Init` accepts, with the cursor on the max-key element, `BSON_Fetch` (by `NULL` and
by the name `a`) reads `typicalOffsets[127]` and has no defined result, whatever the fuel.
Inside the table the zero-sized null (0x0A) holds the size 8 and the byte 0 holds 255, not the
entry 0 that makes the code read a length. -/
theorem typicalOffsets_lookup_outside_table :
    typicalOffsets.length = 19 ∧
    (∀ k : Nat, typicalOffsets_at (19 + k) = .undefined) ∧
    typicalOffsets_at 0x0A = .done 8 ∧ typicalOffsets_at 0 = .done 255 ∧
    BSON_Init (some doc_maxkey) (some ⟨none, none, none, 0⟩) =
      .done (BSON_OPERATION_SUCCESS, some (mkContext doc_maxkey 4 4 15)) ∧
    readByte doc_maxkey.data 4 = .done 0x7F ∧
    (∀ fuel : Nat, BSON_Fetch (fuel + 1) none (some (mkContext doc_maxkey 4 4 15)) =
      .undefined) ∧
    (∀ fuel : Nat, BSON_Fetch (fuel + 1) (some [97]) (some (mkContext doc_maxkey 4 4 15)) =
      .undefined) := by
  have hskip : BSON_Fetch_skip doc_maxkey.data 4 15 4 = .undefined := by decide
  refine ⟨rfl, typicalOffsets_at_of_ge, rfl, rfl, by decide, by decide, ?_, ?_⟩
  · intro fuel
    rw [BSON_Fetch_of_valid (fuel + 1) none (by decide), BSON_Fetch_loop, hskip]
    rfl
  · intro fuel
    rw [BSON_Fetch_of_valid (fuel + 1) (some [97]) (by decide), BSON_Fetch_loop, hskip]
    rfl

/-! ## A search that does not end -/

/-- One turn of the loop of `BSON_Fetch` on `doc_loop`, by the name `x` from offset 4, ends
where it started, for every number of turns left. -/
theorem BSON_Fetch_loop_doc_loop (fuel : Nat) :
    BSON_Fetch_loop doc_loop.data 4 12 (some [120]) 2 fuel 4 = .outOfFuel := by
  induction fuel with
  | zero => rfl
  | succ f ih =>
    have hskip : BSON_Fetch_skip doc_loop.data 4 12 4 = .done 4 := by decide
    have hcmp : memcmp doc_loop.data (4 + 1) (cstring (some [120])) 2 = .done true := by decide
    rw [BSON_Fetch_loop, hskip]
    simp only [Outcome.done_bind]
    rw [if_neg (by decide), hcmp]
    simp only [Outcome.done_bind]
    rw [if_pos trivial]
    exact ih

/-- C22, at the failing input: `doc_loop` passes `BSON_Init` and its root context passes
`BSON_Check_Context`; the embedded document at offset 4 declares the length -3, so one turn of
the loop of `BSON_Fetch` by the name `x` steps over the name to offset 7, adds -3 and is back
at offset 4, below `startPosition + size`, where the name does not compare equal.  The loop
has not returned after any number of turns: for every fuel the result is `outOfFuel`. -/
theorem BSON_Fetch_by_name_never_returns :
    BSON_Init (some doc_loop) (some ⟨none, none, none, 0⟩) =
      .done (BSON_OPERATION_SUCCESS, some (mkContext doc_loop 4 4 12)) ∧
    BSON_Check_Context (some (mkContext doc_loop 4 4 12)) = BSON_OPERATION_SUCCESS ∧
    BSON_Fetch_skip doc_loop.data 4 12 4 = .done 4 ∧
    (∀ fuel : Nat, BSON_Fetch fuel (some [120]) (some (mkContext doc_loop 4 4 12)) =
      .outOfFuel) := by
  refine ⟨by decide, by decide, by decide, ?_⟩
  intro fuel
  rw [BSON_Fetch_of_valid fuel (some [120]) (by decide),
    show name_len_fetch (some [120]) = 2 from by decide, BSON_Fetch_loop_doc_loop fuel]
  rfl

/-! ## `BSON_Open` and the tag -/

/-- C23, at the failing input: on `doc_five`, whose only element is the int32 `a` = 5 (tag
0x10 at offset 4, which `BSON_Extract_Int32` reads as 5), `BSON_Open` by the name `a` and by
`NULL` returns success: the payload 5 of the int32 is taken for the length of a sub-document,
the byte at offset 7 + 5 - 1 = 11 is the terminator of the document, and the child gets the
startPosition 11 and the size 5. -/
theorem BSON_Open_opens_int32 :
    BSON_Init (some doc_five) (some ⟨none, none, none, 0⟩) =
      .done (BSON_OPERATION_SUCCESS, some (mkContext doc_five 4 4 12)) ∧
    readByte doc_five.data 4 = .done 0x10 ∧
    BSON_Extract_Int32 1 (some [97]) (some (mkContext doc_five 4 4 12)) =
      .done (BSON_OPERATION_SUCCESS, some (mkContext doc_five 4 11 12), some 5) ∧
    BSON_Open 1 (some [97]) (some (mkContext doc_five 4 4 12)) (some ⟨none, none, none, 0⟩) =
      .done (BSON_OPERATION_SUCCESS, some (mkContext doc_five 11 11 5)) ∧
    BSON_Open 1 none (some (mkContext doc_five 4 4 12)) (some ⟨none, none, none, 0⟩) =
      .done (BSON_OPERATION_SUCCESS, some (mkContext doc_five 11 11 5)) := by
  decide

/-! ## Well-formed documents on which a search goes astray -/

/-- C8, at the failing input: `doc_masked` is well formed and holds one element, the datetime
`a` (tag 0x09); `BSON_Init` accepts it.  `BSON_Extract_Int32` by the name `a` does not find the
tag 0x10 under the cursor and calls `BSON_Fetch`, which steps over the datetime by 1 byte
instead of 8 and stops at offset 8, inside the payload, where the bytes 16, 97, 0 read as the
tag of an int32 and the name `a`; the call returns success with the value 5 read at offsets 11
to 14 and leaves the cursor at offset 15.  No element of the document has the tag 0x10: the
bytes decoded are those of the datetime under the cursor, which carries the requested name
and another tag. -/
theorem BSON_Extract_Int32_decodes_inside_datetime :
    WellFormedScope doc_masked [16, 0, 0, 0] [⟨0x09, [97], [0, 16, 97, 0, 5, 0, 0, 0]⟩] [] ∧
    BSON_Init (some doc_masked) (some ⟨none, none, none, 0⟩) =
      .done (BSON_OPERATION_SUCCESS, some (mkContext doc_masked 4 4 16)) ∧
    BSON_Fetch 1 (some [97]) (some (mkContext doc_masked 4 4 16)) =
      .done (BSON_OPERATION_SUCCESS, some (mkContext doc_masked 4 8 16)) ∧
    BSON_Extract_Int32 1 (some [97]) (some (mkContext doc_masked 4 4 16)) =
      .done (BSON_OPERATION_SUCCESS, some (mkContext doc_masked 4 15 16), some 5) := by
  decide

/-- C15, at the failing input: `doc_decoy` is well formed and holds the datetime `b` and the
embedded document `a`, whose sub-document starts behind its length at offset 22 and has the
declared length 5; `BSON_Init` accepts it.  `BSON_Open` by the name `a` from the first field
calls `BSON_Fetch`, which steps over the datetime by 1 byte instead of 8 and stops at offset
8, inside the payload, where the bytes 3, 97, 0 read as a tag and the name `a`; the call takes
the payload bytes 7, 0, 0, 0 at offsets 11 to 14 for the length, finds the zero byte at offset
11 + 7 - 1 = 17 and returns success with a child of startPosition 15 and size 7, not the
sub-document of the field `a` (startPosition 22, size 5). -/
theorem BSON_Open_opens_inside_datetime :
    WellFormedScope doc_decoy [24, 0, 0, 0]
      [⟨0x09, [98], [0, 3, 97, 0, 7, 0, 0, 0]⟩, ⟨0x03, [97], [5, 0, 0, 0, 0]⟩] [] ∧
    BSON_Init (some doc_decoy) (some ⟨none, none, none, 0⟩) =
      .done (BSON_OPERATION_SUCCESS, some (mkContext doc_decoy 4 4 24)) ∧
    BSON_Fetch 1 (some [97]) (some (mkContext doc_decoy 4 4 24)) =
      .done (BSON_OPERATION_SUCCESS, some (mkContext doc_decoy 4 8 24)) ∧
    BSON_Open 1 (some [97]) (some (mkContext doc_decoy 4 4 24)) (some ⟨none, none, none, 0⟩) =
      .done (BSON_OPERATION_SUCCESS, some (mkContext doc_decoy 15 15 7)) ∧
    subContext doc_decoy 15 ⟨0x03, [97], [5, 0, 0, 0, 0]⟩ 0 = mkContext doc_decoy 22 22 5 ∧
    BSON_Open 1 none (some (mkContext doc_decoy 4 15 24)) (some ⟨none, none, none, 0⟩) =
      .done (BSON_OPERATION_SUCCESS, some (mkContext doc_decoy 22 22 5)) := by
  decide

/-- C14, at the failing input: `doc_param_datetime` is well formed, its last field `param` is
an array of exactly three embedded documents, and `BSON_Init` accepts it.  `BSON_Open` by the
name `param` from the context `BSON_Init` gives calls `BSON_Fetch`, which steps over the
datetime `n` by 1 byte instead of 8, goes on from offset 8 inside its payload, reads the
header byte 0 there and leaves the scope: the call returns `BSON_POS_OUT_OF_RANGE`, for every
fuel of at least two turns, and the loop over the array has no context to run on.  With the
cursor set on `param`, at offset 15, the same call succeeds. -/
theorem BSON_Open_param_behind_datetime_not_found :
    WellFormedScope doc_param_datetime [73, 0, 0, 0]
      [⟨0x09, [110], [7, 0, 0, 0, 0, 0, 0, 0]⟩, param_array] [] ∧
    (param_array.tag = 0x04 ∧ param_array.IsDocument ∧
      ∀ e ∈ [param_first, param_second, param_third], e.tag = 0x03 ∧ e.IsDocument) ∧
    BSON_Init (some doc_param_datetime) (some ⟨none, none, none, 0⟩) =
      .done (BSON_OPERATION_SUCCESS, some (mkContext doc_param_datetime 4 4 73)) ∧
    BSON_Fetch_skip doc_param_datetime.data 4 73 4 = .done 8 ∧
    (∀ fuel : Nat, BSON_Open (fuel + 2) (some param_array.name)
        (some (mkContext doc_param_datetime 4 4 73)) (some ⟨none, none, none, 0⟩) =
      .done (BSON_POS_OUT_OF_RANGE, some (mkContext doc_param_datetime 4 4 73))) ∧
    BSON_Open 0 (some param_array.name) (some (mkContext doc_param_datetime 4 15 73))
        (some ⟨none, none, none, 0⟩) =
      .done (BSON_OPERATION_SUCCESS, some (mkContext doc_param_datetime 26 26 50)) := by
  refine ⟨by decide, by decide, by decide, by decide, ?_, by decide⟩
  intro fuel
  have h1 : BSON_Fetch_skip doc_param_datetime.data 4 73 4 = .done 8 := by decide
  have h2 : memcmp doc_param_datetime.data (8 + 1) (cstring (some param_array.name)) 6
      = .done true := by decide
  have h3 : BSON_Fetch_skip doc_param_datetime.data 4 73 8 = .done 265 := by decide
  have hf : BSON_Fetch (fuel + 2) (some param_array.name)
      (some (mkContext doc_param_datetime 4 4 73)) =
      .done (BSON_POS_OUT_OF_RANGE, some (mkContext doc_param_datetime 4 4 73)) := by
    rw [BSON_Fetch_of_valid (fuel + 2) _ (by decide),
      show name_len_fetch (some param_array.name) = 6 from by decide, BSON_Fetch_loop, h1]
    simp only [Outcome.done_bind]
    rw [if_neg (by decide), h2]
    simp only [Outcome.done_bind]
    rw [if_pos trivial, BSON_Fetch_loop, h3]
    simp only [Outcome.done_bind]
    rw [if_pos (by decide)]
    rfl
  have hc : memcmp doc_param_datetime.data (4 + 1) (cstring (some param_array.name)) 6
      = .done true := by decide
  rw [BSON_Open_of_valid (fuel + 2) _ ⟨none, none, none, 0⟩ (by decide),
    show name_len (some param_array.name) = .done 6 from by decide]
  simp only [Outcome.done_bind]
  rw [hc]
  simp only [Outcome.done_bind]
  rw [if_pos trivial, hf]
  simp only [Outcome.done_bind]
  rw [if_pos trivial]
  rfl

end BSON
